import Mathlib

/-!
# Token price proxy: price resolver, coalescing queue, throttler, stores

A shallow embedding of the core of `DODOEX/token-price-proxy` (Go) together with
theorems about it.  Go maps become association lists, Go slices become lists,
`*string` becomes `Option String`, the shared cache becomes explicit state, and
the upstream providers, the relational store and the clock are parameters.
-/

namespace TokenPriceProxy

/-! ## Go primitives -/

/-- Outcome of a Go call that may return an error or panic (index out of range). -/
inductive Outcome (α : Type) where
  | ok (a : α)
  | error (e : String)
  | panic
deriving Repr, DecidableEq

/-- Characters of `strings.Split(s, sep)` for a one-character separator. -/
def splitChars (sep : Char) : List Char → List (List Char)
  | [] => [[]]
  | c :: cs =>
    if c = sep then [] :: splitChars sep cs
    else
      match splitChars sep cs with
      | [] => [[c]]
      | p :: ps => (c :: p) :: ps

/-- Go `strings.Split(s, "_")`. -/
def splitUnderscore (s : String) : List String :=
  (splitChars '_' s.data).map String.mk

/-- Go map lookup `m[k]` in the comma-ok form. -/
def mapGet {κ β : Type} [DecidableEq κ] (m : List (κ × β)) (k : κ) : Option β :=
  match m with
  | [] => none
  | (k0, v) :: rest => if k0 = k then some v else mapGet rest k

/-- Go map assignment `m[k] = v`. -/
def mapSet {κ β : Type} [DecidableEq κ] (m : List (κ × β)) (k : κ) (v : β) : List (κ × β) :=
  (k, v) :: m.filter (fun p => decide (p.1 ≠ k))

/-- Go `delete(m, k)`. -/
def mapDelete {κ β : Type} [DecidableEq κ] (m : List (κ × β)) (k : κ) : List (κ × β) :=
  m.filter (fun p => decide (p.1 ≠ k))

/-- Insert into a Go `map[string]struct{}` used as a set. -/
def setAdd (s : List String) (x : String) : List String :=
  if x ∈ s then s else s ++ [x]

/-- Go `delete(set, x)` on a `map[string]struct{}`. -/
def setDelete (s : List String) (x : String) : List String :=
  s.filter (fun y => decide (y ≠ x))

/-- Go `GetOrNil(slice, index)`: nil when out of range or empty. -/
def GetOrNil (slice : List String) (index : Nat) : Option String :=
  match slice.get? index with
  | some v => if v = "" then none else some v
  | none => none

/-- Go `GetOrDefault(slice, index, defaultValue)`. -/
def GetOrDefault (slice : List String) (index : Nat) (defaultValue : String) : String :=
  match slice.get? index with
  | some v => v
  | none => defaultValue

/-- Go `safeDereferenceString(s, defaultVal)`. -/
def safeDereferenceString (s : Option String) (defaultVal : String) : String :=
  match s with
  | none => defaultVal
  | some v => if v = "" then defaultVal else v

/-- Test `p != nil && *p != ""` on a `*string`. -/
def nonEmpty (p : Option String) : Bool :=
  match p with
  | none => false
  | some v => decide (v ≠ "")

/-! ## Data model -/

/-- Go `PriceResult` (coin_gecko_service.go). -/
structure PriceResult where
  ChainID : String
  Address : String
  Price : Option String
  Symbol : Option String
  Network : Option String
  TimeStamp : String
  RequestStatus : Option String
  Serial : Int
deriving Repr, DecidableEq

/-- Gorm `Base` columns; times are unix seconds, `DeletedAt` is nullable. -/
structure Base where
  ID : Nat
  CreatedAt : Int
  UpdatedAt : Int
  DeletedAt : Option Int
deriving Repr, DecidableEq

/-- Go `schema.Coins`. -/
structure Coins where
  ID : String
  Address : String
  ChainID : String
  Symbol : Option String
  Name : Option String
  CoingeckoCoinID : Option String
  CoingeckoPlatforms : List (String × String)
  GeckoterminalNetwork : Option String
  Extra : Option String
  Decimals : Option Int
  TotalSupply : Option String
  Label : String
  PoolName : Option String
  BaseTokenAddress : Option String
  QuoteTokenAddress : Option String
  PoolCreatedAt : Option Int
  PoolAttributes : Option String
  LastPriceSource : Option String
  PriceSource : Option String
  ReturnCoinsId : Option String
  base : Base
deriving Repr, DecidableEq

/-- Zero value of `schema.Coins` (`var coin schema.Coins`). -/
def Coins.zero : Coins :=
  { ID := "", Address := "", ChainID := "", Symbol := none, Name := none,
    CoingeckoCoinID := none, CoingeckoPlatforms := [], GeckoterminalNetwork := none,
    Extra := none, Decimals := none, TotalSupply := none, Label := "", PoolName := none,
    BaseTokenAddress := none, QuoteTokenAddress := none, PoolCreatedAt := none,
    PoolAttributes := none, LastPriceSource := none, PriceSource := none,
    ReturnCoinsId := none, base := { ID := 0, CreatedAt := 0, UpdatedAt := 0, DeletedAt := none } }

/-- Go `schema.CoinHistoricalPrice`. -/
structure CoinHistoricalPrice where
  CoinID : String
  Date : Int
  DayDate : String
  Price : String
  Source : String
  QueryInfo : Option String
  base : Base
deriving Repr, DecidableEq

/-! ## Price resolver: environment -/

/-- Arguments of one batch call to a provider adapter
(`addresses, chainIds, symbols, networks, isCache`; `unixTimeStamps` for historical calls). -/
structure ProviderArgs where
  addresses : List String
  chainIds : List String
  symbols : List String
  networks : List String
  isCache : Bool
  unixTimeStamps : List Int
deriving Repr, DecidableEq

/-- Observable actions of a resolver run, in program order. -/
inductive Event where
  | call (source : String) (args : ProviderArgs)
  | saveLog (tag chainId address : String)
  | throttle (coinsId status : String)
deriving Repr, DecidableEq

/-- Collaborators of the price service that live outside the resolver:
`lower` is `strings.ToLower`, `iter` the order in which `range` visits the keys of a Go map,
`provider n source args` the answer of adapter `source` to the `n`-th provider call of the run
(`providerHistorical` for the historical endpoints),
`throttled` is `throttler.IsCoinsThrottled`, `coinsThrottle n` the return value of the `n`-th
`throttler.CoinsThrottle` call, `getCoinsByID` is `coinRepository.GetCoinsByID`. -/
structure Env where
  lower : String → String
  now : Int
  iter : List String → List String
  prohibitedSourcesCurrent : List (String × Bool)
  prohibitedSourcesHistorical : List (String × Bool)
  throttled : String → Bool
  provider : Nat → String → ProviderArgs → Except String (List PriceResult)
  providerHistorical : Nat → String → ProviderArgs → Except String (List PriceResult)
  coinsThrottle : Nat → String → String → Bool
  getCoinsByID : List String → Except String (List Coins)

/-- Go `if prohibited, ok := m[source]; ok && prohibited`. -/
def isProhibited (m : List (String × Bool)) (source : String) : Bool :=
  match mapGet m source with
  | some b => b
  | none => false

/-- Maps `coinMap`, `retrunCoinMap`, `retrunCoinToMap` built from the coins read. -/
structure AliasMaps where
  coinMap : List (String × Coins)
  retrunCoinMap : List (String × String)
  retrunCoinToMap : List (String × List String)
deriving Repr

/-- One iteration of `for _, coin := range coins` (price_service.go 607-614). -/
def aliasStep (m : AliasMaps) (coin : Coins) : AliasMaps :=
  let returnCoinId := coin.ChainID ++ "_" ++ coin.Address
  if coin.ID ≠ "" ∧ coin.ChainID ≠ "" ∧ coin.Address ≠ "" ∧ coin.ID ≠ returnCoinId then
    { coinMap := mapSet m.coinMap coin.ID coin
      retrunCoinMap := mapSet m.retrunCoinMap coin.ID returnCoinId
      retrunCoinToMap :=
        mapSet m.retrunCoinToMap returnCoinId
          (((mapGet m.retrunCoinToMap returnCoinId).getD []) ++ [coin.ID]) }
  else
    { m with coinMap := mapSet m.coinMap coin.ID coin }

/-- The three maps after the loop over `coins`. -/
def buildAliasMaps (coins : List Coins) : AliasMaps :=
  coins.foldl aliasStep { coinMap := [], retrunCoinMap := [], retrunCoinToMap := [] }

/-- Inputs of a run that the closures `batchQuery` / `batchQueryHistorical` capture. -/
structure FetchCtx where
  chainIds : List String
  lowerAddresses : List String
  symbols : List String
  networks : List String
  unixTimeStamp : List Int
  datesStr : List String
  idToIndexMap : List (String × Nat)
  maps : AliasMaps
  isCache : Bool

/-- Go `idToIndexMap[id] = i` for `i, id` over `ids`, starting at index `i`. -/
def buildIndexMap : Nat → List String → List (String × Nat) → List (String × Nat)
  | _, [], m => m
  | i, id :: rest, m => buildIndexMap (i + 1) rest (mapSet m id i)

/-- Go `parts := strings.Split(id, "_"); coinID := parts[0] + "_" + parts[1]`;
`none` is the index-out-of-range panic. -/
def coinIDOf (id : String) : Option String :=
  match splitUnderscore id with
  | p0 :: p1 :: _ => some (p0 ++ "_" ++ p1)
  | _ => none

/-- Go `strings.Split(x, "_")[0]`, `strings.Split(x, "_")[1]`; `none` is the panic. -/
def splitPair (x : String) : Option (String × String) :=
  match splitUnderscore x with
  | p0 :: p1 :: _ => some (p0, p1)
  | _ => none

/-! ## Price resolver: current prices -/

/-- The source sets of `FetchAndProcessBatchPrices`. The `…Source` sets are filled once,
the other five shrink while providers answer. -/
structure SourceSets where
  geckoIDsSetSource : List String
  terminalIDsSetSource : List String
  llamaIDsSetSource : List String
  geckoOnChainIDsSetSource : List String
  geckoIDsSet : List String
  terminalIDsSet : List String
  llamaIDsSet : List String
  dodoexIDsSet : List String
  geckoOnChainIDsSet : List String
deriving Repr, DecidableEq

/-- All nine sets empty. -/
def SourceSets.empty : SourceSets :=
  { geckoIDsSetSource := [], terminalIDsSetSource := [], llamaIDsSetSource := [],
    geckoOnChainIDsSetSource := [], geckoIDsSet := [], terminalIDsSet := [],
    llamaIDsSet := [], dodoexIDsSet := [], geckoOnChainIDsSet := [] }

/-- The `if / else if` chain on `PriceSource` and `LastPriceSource` (price_service.go 630-644). -/
def pinSource (coin : Coins) (id : String) (s : SourceSets) : SourceSets :=
  if coin.PriceSource = some "coingecko" then
    { s with geckoIDsSetSource := setAdd s.geckoIDsSetSource id }
  else if coin.PriceSource = some "geckoterminal" then
    { s with terminalIDsSetSource := setAdd s.terminalIDsSetSource id }
  else if coin.PriceSource = some "coinGeckoOnChain" then
    { s with geckoOnChainIDsSetSource := setAdd s.geckoOnChainIDsSetSource id }
  else if coin.LastPriceSource = some "coingecko" then
    { s with geckoIDsSetSource := setAdd s.geckoIDsSetSource id }
  else if coin.LastPriceSource = some "geckoterminal" then
    { s with terminalIDsSetSource := setAdd s.terminalIDsSetSource id }
  else if coin.LastPriceSource = some "defillama" then
    { s with llamaIDsSetSource := setAdd s.llamaIDsSetSource id }
  else if coin.LastPriceSource = some "coinGeckoOnChain" then
    { s with geckoOnChainIDsSetSource := setAdd s.geckoOnChainIDsSetSource id }
  else s

/-- One iteration of `for _, id := range ids` (price_service.go 626-653). -/
def fillStep (coinMap : List (String × Coins)) (excludeRoute : Bool) (s : SourceSets)
    (id : String) : Option SourceSets :=
  match coinIDOf id with
  | none => none
  | some coinID =>
    let s1 :=
      match mapGet coinMap coinID with
      | some coin =>
        let s0 := pinSource coin id s
        { s0 with geckoIDsSet := setAdd s0.geckoIDsSet id }
      | none => s
    let s2 :=
      { s1 with
        terminalIDsSet := setAdd s1.terminalIDsSet id
        llamaIDsSet := setAdd s1.llamaIDsSet id
        geckoOnChainIDsSet := setAdd s1.geckoOnChainIDsSet id }
    some (if excludeRoute then s2 else { s2 with dodoexIDsSet := setAdd s2.dodoexIDsSet id })

/-- The whole loop filling the source sets. -/
def fillSets (coinMap : List (String × Coins)) (excludeRoute : Bool) :
    List String → SourceSets → Option SourceSets
  | [], s => some s
  | id :: rest, s =>
    match fillStep coinMap excludeRoute s id with
    | none => none
    | some s1 => fillSets coinMap excludeRoute rest s1

/-- Mutable state of a run: `resultsMap`, the shrinking sets, the trace and the number of
provider calls made so far. -/
structure FetchState where
  resultsMap : List (String × PriceResult)
  sets : SourceSets
  trace : List Event
  calls : Nat
deriving Repr

/-- Arguments gathered so far by the loop `for id := range idSet`. -/
structure Gathered where
  bChainIds : List String
  bAddresses : List String
  bSymbols : List String
  bNetworks : List String
  bUnixTimeStamps : List Int
deriving Repr, DecidableEq

/-- Nothing gathered. -/
def Gathered.empty : Gathered :=
  { bChainIds := [], bAddresses := [], bSymbols := [], bNetworks := [], bUnixTimeStamps := [] }

/-- The loop `for id := range idSet` of `batchQuery` (price_service.go 661-677) over the ids in
visiting order. `index` is always in range, so the slice reads use a default. -/
def gather (env : Env) (ctx : FetchCtx) :
    List String → Gathered → FetchState → Option (Gathered × FetchState)
  | [], g, st => some (g, st)
  | id :: rest, g, st =>
    let index := (mapGet ctx.idToIndexMap id).getD 0
    if env.throttled id then
      let r : PriceResult :=
        { ChainID := ctx.chainIds.getD index "", Address := ctx.lowerAddresses.getD index "",
          Price := none, Symbol := GetOrNil ctx.symbols index,
          Network := GetOrNil ctx.networks index, TimeStamp := "0",
          RequestStatus := none, Serial := 0 }
      gather env ctx rest g
        { st with
          resultsMap := mapSet st.resultsMap id r
          trace := st.trace ++ [Event.saveLog "priceService-GetBatchPrice"
            (ctx.chainIds.getD index "") (ctx.lowerAddresses.getD index "")] }
    else
      let target : Option (String × String) :=
        match mapGet ctx.maps.retrunCoinMap id with
        | some retrunCoinId => splitPair retrunCoinId
        | none => some (ctx.chainIds.getD index "", ctx.lowerAddresses.getD index "")
      match target with
      | none => none
      | some (c, a) =>
        gather env ctx rest
          { g with
            bChainIds := g.bChainIds ++ [c]
            bAddresses := g.bAddresses ++ [a]
            bSymbols := g.bSymbols ++ [GetOrDefault ctx.symbols index ""]
            bNetworks := g.bNetworks ++ [GetOrDefault ctx.networks index ""] } st

/-- Go `delete(set, key)` on the five shrinking sets (price_service.go 708-712). -/
def deleteFromSets (s : SourceSets) (key : String) : SourceSets :=
  { s with
    geckoIDsSet := setDelete s.geckoIDsSet key
    terminalIDsSet := setDelete s.terminalIDsSet key
    llamaIDsSet := setDelete s.llamaIDsSet key
    dodoexIDsSet := setDelete s.dodoexIDsSet key
    geckoOnChainIDsSet := setDelete s.geckoOnChainIDsSet key }

/-- The inner loop `for _, coinId := range coinIds` copying a priced result under every alias
(price_service.go 701-705); `none` is the panic of `strings.Split(coinId, "_")[1]`. -/
def copyToAliases (result : PriceResult) :
    List String → List (String × PriceResult) → Option (List (String × PriceResult))
  | [], m => some m
  | coinId :: rest, m =>
    match splitPair coinId with
    | none => none
    | some (c, a) =>
      copyToAliases result rest (mapSet m coinId { result with ChainID := c, Address := a })

/-- The loop `for _, result := range results` of `batchQuery` (price_service.go 696-714). -/
def absorb (ctx : FetchCtx) : List PriceResult → FetchState → Option FetchState
  | [], st => some st
  | result :: rest, st =>
    let key := result.ChainID ++ "_" ++ result.Address
    if nonEmpty result.Price then
      let m1 := mapSet st.resultsMap key result
      match copyToAliases result ((mapGet ctx.maps.retrunCoinToMap key).getD []) m1 with
      | none => none
      | some m2 =>
        absorb ctx rest { st with resultsMap := m2, sets := deleteFromSets st.sets key }
    else absorb ctx rest st

/-- Go `switch source` of `batchQuery`: the five adapters; any other name calls nothing and
leaves `results` and `err` nil. -/
def callProvider (env : Env) (n : Nat) (source : String) (args : ProviderArgs) :
    Except String (List PriceResult) :=
  if source = "coingecko" ∨ source = "geckoterminal" ∨ source = "defillama"
      ∨ source = "coinGeckoOnChain" ∨ source = "dodoexRoute" then
    env.provider n source args
  else .ok []

/-- Closure `batchQuery(source, idSet)` of `FetchAndProcessBatchPrices`. -/
def batchQuery (env : Env) (ctx : FetchCtx) (source : String) (idSet : List String)
    (st : FetchState) : Option FetchState :=
  if isProhibited env.prohibitedSourcesCurrent source then some st
  else
    match gather env ctx (env.iter idSet) Gathered.empty st with
    | none => none
    | some (g, st1) =>
      let args : ProviderArgs :=
        { addresses := g.bAddresses, chainIds := g.bChainIds, symbols := g.bSymbols,
          networks := g.bNetworks, isCache := ctx.isCache, unixTimeStamps := [] }
      let st2 : FetchState :=
        { st1 with trace := st1.trace ++ [Event.call source args], calls := st1.calls + 1 }
      match callProvider env st1.calls source args with
      | .ok results => absorb ctx results st2
      | .error _ => some st2

/-- Go `if len(idSet) > 0 { batchQuery(source, idSet) }`. -/
def stage (env : Env) (ctx : FetchCtx) (source : String) (sel : SourceSets → List String)
    (st : FetchState) : Option FetchState :=
  if (sel st.sets).length > 0 then batchQuery env ctx source (sel st.sets) st else some st

/-- The eight guarded `batchQuery` calls in program order (price_service.go 720-746). -/
def runStages (env : Env) (ctx : FetchCtx) (st : FetchState) : Option FetchState :=
  (stage env ctx "coingecko" (fun s => s.geckoIDsSetSource) st).bind fun st1 =>
  (stage env ctx "geckoterminal" (fun s => s.terminalIDsSetSource) st1).bind fun st2 =>
  (stage env ctx "defillama" (fun s => s.llamaIDsSetSource) st2).bind fun st3 =>
  (stage env ctx "coingecko" (fun s => s.geckoIDsSet) st3).bind fun st4 =>
  (stage env ctx "defillama" (fun s => s.llamaIDsSet) st4).bind fun st5 =>
  (stage env ctx "geckoterminal" (fun s => s.terminalIDsSet) st5).bind fun st6 =>
  (stage env ctx "coinGeckoOnChain" (fun s => s.geckoOnChainIDsSet) st6).bind fun st7 =>
  stage env ctx "dodoexRoute" (fun s => s.dodoexIDsSet) st7

/-- Result built for index `i` in the final loop (price_service.go 749-767). -/
def assemble (env : Env) (resultsMap : List (String × PriceResult)) (symbols networks : List String)
    (i : Nat) (chainId addr : String) : PriceResult :=
  let key := chainId ++ "_" ++ env.lower addr
  match mapGet resultsMap key with
  | none =>
    { ChainID := chainId, Address := addr, Price := none, Symbol := GetOrNil symbols i,
      Network := GetOrNil networks i, TimeStamp := "0", RequestStatus := none, Serial := i }
  | some result =>
    { result with Serial := i, Symbol := GetOrNil symbols i, Network := GetOrNil networks i,
                  Address := addr }

/-- Status handed to `CoinsThrottle`: `"200"` unless the result carries a request status. -/
def throttleStatus (result : PriceResult) : String :=
  match result.RequestStatus with
  | some s => if s = "" then "200" else s
  | none => "200"

/-- Throttle and alert events of the final loop, for the results from index `i` on;
`n` counts the `CoinsThrottle` calls made so far. -/
def finalEvents (env : Env) (tag : String) (keyOf : Nat → String) :
    Nat → Nat → List PriceResult → List Event
  | _, _, [] => []
  | i, n, result :: rest =>
    if nonEmpty result.Price then finalEvents env tag keyOf (i + 1) n rest
    else
      let status := throttleStatus result
      let alert :=
        if env.coinsThrottle n (keyOf i) status then
          [Event.saveLog tag result.ChainID result.Address]
        else []
      Event.throttle (keyOf i) status :: alert ++ finalEvents env tag keyOf (i + 1) (n + 1) rest

/-- Go `ids[i] = chainIds[i] + "_" + strings.ToLower(addresses[i])`, the coin ids of a batch. -/
def requestIds (env : Env) (chainIds addresses : List String) : List String :=
  List.zipWith (fun c a => c ++ "_" ++ a) chainIds (addresses.map env.lower)

/-- Go `priceService.FetchAndProcessBatchPrices`: the results and the trace of provider calls,
alert logs and throttle calls. `panic` stands for an index out of range. -/
def FetchAndProcessBatchPrices (env : Env) (chainIds addresses symbols networks : List String)
    (isCache excludeRoute : Bool) : Outcome (List PriceResult × List Event) :=
  if chainIds.length < addresses.length then .panic
  else
    let lowerAddresses := addresses.map env.lower
    let ids := requestIds env chainIds addresses
    let idToIndexMap := buildIndexMap 0 ids []
    match env.getCoinsByID ids with
    | .error e => .error e
    | .ok coins =>
      let maps := buildAliasMaps coins
      let ctx : FetchCtx :=
        { chainIds := chainIds, lowerAddresses := lowerAddresses, symbols := symbols,
          networks := networks, unixTimeStamp := [], datesStr := [],
          idToIndexMap := idToIndexMap, maps := maps, isCache := isCache }
      match fillSets maps.coinMap excludeRoute ids SourceSets.empty with
      | none => .panic
      | some sets =>
        match runStages env ctx { resultsMap := [], sets := sets, trace := [], calls := 0 } with
        | none => .panic
        | some st =>
          let results := (List.range addresses.length).map fun i =>
            assemble env st.resultsMap symbols networks i (chainIds.getD i "") (addresses.getD i "")
          let keyOf := fun i => chainIds.getD i "" ++ "_" ++ env.lower (addresses.getD i "")
          .ok (results,
            st.trace ++ finalEvents env "priceService-GetBatchPrice" keyOf 0 0 results)

/-! ## Price resolver: historical prices -/

/-- The `if / else if` chain of `GetBatchHistoricalPrice` (price_service.go 932-942). -/
def pinSourceHistorical (coin : Coins) (id : String) (s : SourceSets) : SourceSets :=
  if coin.PriceSource = some "coingecko" then
    { s with geckoIDsSetSource := setAdd s.geckoIDsSetSource id }
  else if coin.PriceSource = some "geckoterminal" then
    { s with terminalIDsSetSource := setAdd s.terminalIDsSetSource id }
  else if coin.LastPriceSource = some "coingecko" then
    { s with geckoIDsSetSource := setAdd s.geckoIDsSetSource id }
  else if coin.LastPriceSource = some "geckoterminal" then
    { s with terminalIDsSetSource := setAdd s.terminalIDsSetSource id }
  else if coin.LastPriceSource = some "defillama" then
    { s with llamaIDsSetSource := setAdd s.llamaIDsSetSource id }
  else s

/-- One iteration of `for _, id := range ids` (price_service.go 928-947). -/
def fillStepHistorical (coinMap : List (String × Coins)) (s : SourceSets) (id : String) :
    Option SourceSets :=
  match coinIDOf id with
  | none => none
  | some coinID =>
    let s1 :=
      match mapGet coinMap coinID with
      | some coin =>
        let s0 := pinSourceHistorical coin id s
        { s0 with geckoIDsSet := setAdd s0.geckoIDsSet id }
      | none => s
    some { s1 with
      terminalIDsSet := setAdd s1.terminalIDsSet id
      llamaIDsSet := setAdd s1.llamaIDsSet id }

/-- The whole loop filling the historical source sets. -/
def fillSetsHistorical (coinMap : List (String × Coins)) :
    List String → SourceSets → Option SourceSets
  | [], s => some s
  | id :: rest, s =>
    match fillStepHistorical coinMap s id with
    | none => none
    | some s1 => fillSetsHistorical coinMap rest s1

/-- The loop `for id := range idSet` of `batchQueryHistorical` (price_service.go 959-985). -/
def gatherHistorical (env : Env) (ctx : FetchCtx) :
    List String → Gathered → FetchState → Option (Gathered × FetchState)
  | [], g, st => some (g, st)
  | id :: rest, g, st =>
    let index := (mapGet ctx.idToIndexMap id).getD 0
    if env.throttled id then
      let r : PriceResult :=
        { ChainID := ctx.chainIds.getD index "", Address := ctx.lowerAddresses.getD index "",
          TimeStamp := ctx.datesStr.getD index "", Price := none,
          Symbol := GetOrNil ctx.symbols index, Network := GetOrNil ctx.networks index,
          RequestStatus := none, Serial := 0 }
      gatherHistorical env ctx rest g
        { st with
          resultsMap := mapSet st.resultsMap id r
          trace := st.trace ++ [Event.saveLog "priceService-GetBatchHistoricalPrice"
            (ctx.chainIds.getD index "") (ctx.lowerAddresses.getD index "")] }
    else
      let coinId := ctx.chainIds.getD index "" ++ "_" ++ ctx.lowerAddresses.getD index ""
      let target : Option (String × String) :=
        match mapGet ctx.maps.retrunCoinMap coinId with
        | some retrunCoinId => splitPair retrunCoinId
        | none => some (ctx.chainIds.getD index "", ctx.lowerAddresses.getD index "")
      match target with
      | none => none
      | some (c, a) =>
        gatherHistorical env ctx rest
          { bChainIds := g.bChainIds ++ [c]
            bAddresses := g.bAddresses ++ [a]
            bSymbols := g.bSymbols ++ [GetOrDefault ctx.symbols index ""]
            bNetworks := g.bNetworks ++ [GetOrDefault ctx.networks index ""]
            bUnixTimeStamps := g.bUnixTimeStamps ++ [ctx.unixTimeStamp.getD index 0] } st

/-- Go `delete(set, key)` on the three shrinking sets (price_service.go 1013-1015). -/
def deleteFromSetsHistorical (s : SourceSets) (key : String) : SourceSets :=
  { s with
    geckoIDsSet := setDelete s.geckoIDsSet key
    terminalIDsSet := setDelete s.terminalIDsSet key
    llamaIDsSet := setDelete s.llamaIDsSet key }

/-- The inner alias loop of `batchQueryHistorical` (price_service.go 1006-1010). -/
def copyToAliasesHistorical (result : PriceResult) :
    List String → List (String × PriceResult) → Option (List (String × PriceResult))
  | [], m => some m
  | coinId :: rest, m =>
    match splitPair coinId with
    | none => none
    | some (c, a) =>
      copyToAliasesHistorical result rest
        (mapSet m (coinId ++ "_" ++ result.TimeStamp) { result with ChainID := c, Address := a })

/-- The loop `for _, result := range results` of `batchQueryHistorical`
(price_service.go 1000-1017). -/
def absorbHistorical (ctx : FetchCtx) : List PriceResult → FetchState → Option FetchState
  | [], st => some st
  | result :: rest, st =>
    let key := result.ChainID ++ "_" ++ result.Address ++ "_" ++ result.TimeStamp
    if nonEmpty result.Price then
      let m1 := mapSet st.resultsMap key result
      let returnCoinId := result.ChainID ++ "_" ++ result.Address
      match copyToAliasesHistorical result
          ((mapGet ctx.maps.retrunCoinToMap returnCoinId).getD []) m1 with
      | none => none
      | some m2 =>
        absorbHistorical ctx rest
          { st with resultsMap := m2, sets := deleteFromSetsHistorical st.sets key }
    else absorbHistorical ctx rest st

/-- Go `switch source` of `batchQueryHistorical`: three adapters. -/
def callProviderHistorical (env : Env) (n : Nat) (source : String) (args : ProviderArgs) :
    Except String (List PriceResult) :=
  if source = "coingecko" ∨ source = "geckoterminal" ∨ source = "defillama" then
    env.providerHistorical n source args
  else .ok []

/-- Closure `batchQueryHistorical(source, idSet)` of `GetBatchHistoricalPrice`. -/
def batchQueryHistorical (env : Env) (ctx : FetchCtx) (source : String) (idSet : List String)
    (st : FetchState) : Option FetchState :=
  if isProhibited env.prohibitedSourcesHistorical source then some st
  else
    match gatherHistorical env ctx (env.iter idSet) Gathered.empty st with
    | none => none
    | some (g, st1) =>
      let args : ProviderArgs :=
        { addresses := g.bAddresses, chainIds := g.bChainIds, symbols := g.bSymbols,
          networks := g.bNetworks, isCache := false, unixTimeStamps := g.bUnixTimeStamps }
      let st2 : FetchState :=
        { st1 with trace := st1.trace ++ [Event.call source args], calls := st1.calls + 1 }
      match callProviderHistorical env st1.calls source args with
      | .ok results => absorbHistorical ctx results st2
      | .error _ => some st2

/-- Go `if len(idSet) > 0 { batchQueryHistorical(source, idSet) }`. -/
def stageHistorical (env : Env) (ctx : FetchCtx) (source : String)
    (sel : SourceSets → List String) (st : FetchState) : Option FetchState :=
  if (sel st.sets).length > 0 then batchQueryHistorical env ctx source (sel st.sets) st
  else some st

/-- The six guarded `batchQueryHistorical` calls in program order (price_service.go 1024-1044). -/
def runStagesHistorical (env : Env) (ctx : FetchCtx) (st : FetchState) : Option FetchState :=
  (stageHistorical env ctx "coingecko" (fun s => s.geckoIDsSetSource) st).bind fun st1 =>
  (stageHistorical env ctx "geckoterminal" (fun s => s.terminalIDsSetSource) st1).bind fun st2 =>
  (stageHistorical env ctx "defillama" (fun s => s.llamaIDsSetSource) st2).bind fun st3 =>
  (stageHistorical env ctx "coingecko" (fun s => s.geckoIDsSet) st3).bind fun st4 =>
  (stageHistorical env ctx "defillama" (fun s => s.llamaIDsSet) st4).bind fun st5 =>
  stageHistorical env ctx "geckoterminal" (fun s => s.terminalIDsSet) st5

/-- Result built for index `i` in the final loop of `GetBatchHistoricalPrice`
(price_service.go 1048-1064). -/
def assembleHistorical (env : Env) (resultsMap : List (String × PriceResult))
    (symbols networks : List String) (i : Nat) (chainId addr : String) (ts : Int)
    (dateStr : String) : PriceResult :=
  let key := chainId ++ "_" ++ env.lower addr ++ "_" ++ toString ts
  let result : PriceResult :=
    match mapGet resultsMap key with
    | none =>
      { ChainID := chainId, Address := addr, Price := none, Symbol := GetOrNil symbols i,
        Network := GetOrNil networks i, TimeStamp := "", RequestStatus := none, Serial := 0 }
    | some r => r
  { result with Serial := i, TimeStamp := dateStr, Symbol := GetOrNil symbols i,
                Network := GetOrNil networks i, Address := addr }

/-- Go `priceService.GetBatchHistoricalPrice`. `panic` stands for an index out of range
(a slice shorter than `addresses`, or an alias id without `_`). -/
def GetBatchHistoricalPrice (env : Env) (chainIds addresses symbols networks : List String)
    (unixTimeStamp : List Int) (datesStr : List String) :
    Outcome (List PriceResult × List Event) :=
  if chainIds.length < addresses.length ∨ unixTimeStamp.length < addresses.length then .panic
  else
    let lowerAddresses := addresses.map env.lower
    let coinIds := requestIds env chainIds addresses
    let ids := List.zipWith (fun ca t => ca ++ "_" ++ toString t) coinIds unixTimeStamp
    let idToIndexMap := buildIndexMap 0 ids []
    match env.getCoinsByID coinIds with
    | .error e => .error e
    | .ok coins =>
      let maps := buildAliasMaps coins
      let ctx : FetchCtx :=
        { chainIds := chainIds, lowerAddresses := lowerAddresses, symbols := symbols,
          networks := networks, unixTimeStamp := unixTimeStamp, datesStr := datesStr,
          idToIndexMap := idToIndexMap, maps := maps, isCache := false }
      match fillSetsHistorical maps.coinMap ids SourceSets.empty with
      | none => .panic
      | some sets =>
        match runStagesHistorical env ctx
            { resultsMap := [], sets := sets, trace := [], calls := 0 } with
        | none => .panic
        | some st =>
          if datesStr.length < addresses.length then .panic
          else
            let results := (List.range addresses.length).map fun i =>
              assembleHistorical env st.resultsMap symbols networks i (chainIds.getD i "")
                (addresses.getD i "") (unixTimeStamp.getD i 0) (datesStr.getD i "")
            let keyOf := fun i =>
              chainIds.getD i "" ++ "_" ++ env.lower (addresses.getD i "") ++ "_"
                ++ toString (unixTimeStamp.getD i 0)
            .ok (results,
              st.trace ++ finalEvents env "priceService-GetBatchHistoricalPrice" keyOf 0 0 results)

/-! ## Coalesced path: reading the batch results back -/

/-- Reply of one pipelined `GET`: a value, `redis.Nil`, or another error. -/
inductive Reply where
  | val (v : String)
  | nil
  | err (e : String)
deriving Repr, DecidableEq

/-- Error returned by `pipe.Exec`: that of the first command that failed. -/
def execError : List Reply → Option Reply
  | [] => none
  | Reply.val _ :: rest => execError rest
  | r :: _ => some r

/-- Go `price, err := cmd.Result()`: the value, or the empty string on any error. -/
def Reply.price : Reply → String
  | Reply.val v => v
  | _ => ""

/-- Go `priceService.WaitForBatchResults`; `redisGet key` is the reply of `GET key` in the
pipeline and `resultMap` the prices the caller already holds, by index. -/
def WaitForBatchResults (now : Int) (lower : String → String) (redisGet : String → Reply)
    (chainIds addresses symbols networks : List String)
    (resultMap : List (Nat × Option String)) : Outcome (List PriceResult) :=
  if chainIds.length < addresses.length then .panic
  else
    let missing := (List.range addresses.length).filter fun idx =>
      (mapGet resultMap idx).isNone
    let replies := missing.map fun idx =>
      redisGet ("price_result:" ++ chainIds.getD idx "" ++ "_" ++ lower (addresses.getD idx ""))
    match execError replies with
    | some (Reply.err e) => .error e
    | _ =>
      .ok ((List.range chainIds.length).map fun idx =>
        if idx < addresses.length then
          match mapGet resultMap idx with
          | some result =>
            { ChainID := chainIds.getD idx "", Address := addresses.getD idx "", Price := result,
              Symbol := GetOrNil symbols idx, Network := GetOrNil networks idx,
              TimeStamp := toString now, RequestStatus := none, Serial := idx }
          | none =>
            let price :=
              (redisGet ("price_result:" ++ chainIds.getD idx "" ++ "_"
                ++ lower (addresses.getD idx ""))).price
            if price ≠ "-1" then
              { ChainID := chainIds.getD idx "", Address := addresses.getD idx "",
                Price := some price, Symbol := GetOrNil symbols idx,
                Network := GetOrNil networks idx, TimeStamp := toString now,
                RequestStatus := none, Serial := idx }
            else
              { ChainID := chainIds.getD idx "", Address := addresses.getD idx "", Price := none,
                Symbol := GetOrNil symbols idx, Network := GetOrNil networks idx,
                TimeStamp := "0", RequestStatus := none, Serial := idx }
        else
          { ChainID := "", Address := "", Price := none, Symbol := none, Network := none,
            TimeStamp := "", RequestStatus := none, Serial := 0 })

/-- The string contains the separator `_`. -/
def HasUnderscore (s : String) : Prop := '_' ∈ s.data

/-- Alias maps whose stored ids can be split at `_` without a panic. -/
def GoodAliasMaps (m : AliasMaps) : Prop :=
  (∀ k v, mapGet m.retrunCoinMap k = some v → HasUnderscore v) ∧
  (∀ k l, mapGet m.retrunCoinToMap k = some l → ∀ x ∈ l, HasUnderscore x)

/-- Conclusion of the ordering contract: as many results as addresses, and the `i`-th result
carries `Serial = i` and the `i`-th input address. -/
def KeepsOrder (addresses : List String) (results : List PriceResult) : Prop :=
  results.length = addresses.length ∧
  ∀ i a, addresses.get? i = some a →
    ∃ r, results.get? i = some r ∧ r.Serial = (i : Int) ∧ r.Address = a

/-- ASCII lower-casing, which is what `strings.ToLower` does on hexadecimal addresses. -/
def asciiLower (s : String) : String :=
  String.mk (s.data.map fun c => if 'A' ≤ c ∧ c ≤ 'Z' then Char.ofNat (c.toNat + 32) else c)

/-- A sample environment: nothing prohibited or throttled, no coin cached, `defillama` prices
every requested token at `"1.5"` and every other adapter fails. -/
def sampleEnv : Env :=
  { lower := asciiLower
    now := 1700000000
    iter := fun l => l
    prohibitedSourcesCurrent := []
    prohibitedSourcesHistorical := []
    throttled := fun _ => false
    provider := fun _ source args =>
      if source = "defillama" then
        .ok (List.zipWith (fun c a =>
          { ChainID := c, Address := a, Price := some "1.5", Symbol := none, Network := none,
            TimeStamp := "1700000000", RequestStatus := none, Serial := 0 })
          args.chainIds args.addresses)
      else .error "upstream unavailable"
    providerHistorical := fun _ _ _ => .error "upstream unavailable"
    coinsThrottle := fun _ _ _ => false
    getCoinsByID := fun _ => .ok [] }

/-- Coin record of token `1_0xb`, without any price source. -/
def coinB : Coins := { Coins.zero with ID := "1_0xb", ChainID := "1", Address := "0xb" }

/-- Coin record returned for the alias `1_0xa` of `1_0xb`: the record of the target under the
id of the alias, as `GetCoinsByID` rewrites it. -/
def coinA : Coins := { Coins.zero with ID := "1_0xa", ChainID := "1", Address := "0xb" }

/-- An environment in which `1_0xa` is an alias of `1_0xb`, `defillama` prices every requested
token at `"1"`, `geckoterminal` at `"2"`, and the other adapters fail. -/
def aliasEnv : Env :=
  { sampleEnv with
    getCoinsByID := fun _ => .ok [coinB, coinA]
    provider := fun _ source args =>
      if source = "defillama" ∨ source = "geckoterminal" then
        .ok (List.zipWith (fun c a =>
          { ChainID := c, Address := a, Price := some (if source = "defillama" then "1" else "2"),
            Symbol := none, Network := none, TimeStamp := "1700000000", RequestStatus := none,
            Serial := 0 })
          args.chainIds args.addresses)
      else .error "upstream unavailable" }

/-- Prices of the results and, per provider call, the adapter and the addresses it was given. -/
def summary (o : Outcome (List PriceResult × List Event)) :
    List (Option String) × List (String × List String) :=
  match o with
  | .ok (out, tr) =>
    (out.map (fun r => r.Price),
      tr.filterMap fun e =>
        match e with
        | Event.call s a => some (s, a.addresses)
        | _ => none)
  | _ => ([], [])

/-! ## Coalescing queue in the shared cache -/

/-- The set `unique_price_requests` and the list `price_requests_queue`. -/
structure QueueState where
  unique_price_requests : List String
  price_requests_queue : List String
deriving Repr, DecidableEq

/-- Both keys absent. -/
def QueueState.empty : QueueState :=
  { unique_price_requests := [], price_requests_queue := [] }

/-- Lua script of `EnqueueUniqueRequest`: `SADD` the key and, when it was new, `RPUSH` the
record; the state after it and Go `result.(int64) == 1`. -/
def EnqueueUniqueRequest (st : QueueState) (requestKey requestInfo : String) :
    QueueState × Bool :=
  if requestKey ∈ st.unique_price_requests then (st, false)
  else
    ({ unique_price_requests := st.unique_price_requests ++ [requestKey]
       price_requests_queue := st.price_requests_queue ++ [requestInfo] }, true)

/-- Loop `for i = 1, #ARGV, 2` of the batched Lua script over the (key, record) pairs. -/
def enqueueLoop : List (String × String) → QueueState → Int → QueueState × Int
  | [], st, count => (st, count)
  | (requestKey, requestInfo) :: rest, st, count =>
    if requestKey ∈ st.unique_price_requests then enqueueLoop rest st count
    else
      enqueueLoop rest
        { unique_price_requests := st.unique_price_requests ++ [requestKey]
          price_requests_queue := st.price_requests_queue ++ [requestInfo] } (count + 1)

/-- Go `EnqueueUniqueRequests`: the length check, then one run of the batched script. -/
def EnqueueUniqueRequests (st : QueueState) (requestKeys requestInfos : List String) :
    QueueState × Except String Int :=
  if requestKeys.length ≠ requestInfos.length then
    (st, .error "requestKeys and requestInfos must have the same length")
  else
    let r := enqueueLoop (List.zip requestKeys requestInfos) st 0
    (r.1, .ok r.2)

/-- Redis list range `start..stop` (both inclusive, negative counts from the tail), as used by
`LRANGE`; `LTRIM` keeps exactly this range. -/
def listRange (l : List String) (start stop : Int) : List String :=
  let llen : Int := l.length
  let s0 := if start < 0 then llen + start else start
  let e0 := if stop < 0 then llen + stop else stop
  let s := if s0 < 0 then 0 else s0
  if s > e0 ∨ s ≥ llen then []
  else
    let e := if e0 ≥ llen then llen - 1 else e0
    (l.drop s.toNat).take (e - s + 1).toNat

/-- Lua `s:match("([^|]+)")` on characters: the first non-empty run without `|`. -/
def firstField (cs : List Char) : Option (List Char) :=
  match cs.dropWhile (fun c => decide (c = '|')) with
  | [] => none
  | c :: rest => some ((c :: rest).takeWhile (fun c => decide (c ≠ '|')))

/-- Fingerprint the drain script reads off a queue record. -/
def requestKeyOf (record : String) : Option String :=
  (firstField record.data).map String.mk

/-- Loop of the drain script: `SREM` the fingerprint of every drained record. -/
def sremAll : List String → List String → List String
  | [], set => set
  | r :: rest, set =>
    match requestKeyOf r with
    | some k => sremAll rest (setDelete set k)
    | none => sremAll rest set

/-- Atomic-drain Lua script of `ProcessPriceRequests` with `ARGV[1] = fetchSize`:
the state after it and the records returned. -/
def drainScript (st : QueueState) (fetchSize : Int) : QueueState × List String :=
  let requests := listRange st.price_requests_queue 0 (fetchSize - 1)
  if requests.length > 0 then
    ({ price_requests_queue := listRange st.price_requests_queue fetchSize (-1)
       unique_price_requests := sremAll requests st.unique_price_requests }, requests)
  else (st, requests)

/-- `fetchSize` as set up by `NewPriceService`: the configured value, 2000 when it is 0. -/
def fetchSizeOf (configured : Int) : Int :=
  if configured = 0 then 2000 else configured

/-- One operation on the shared queue. -/
inductive QueueOp where
  | enqueue (requestKey requestInfo : String)
  | enqueueBatch (requestKeys requestInfos : List String)
  | drain
deriving Repr, DecidableEq

/-- State after one operation. -/
def QueueOp.apply (fetchSize : Int) (st : QueueState) : QueueOp → QueueState
  | .enqueue k i => (EnqueueUniqueRequest st k i).1
  | .enqueueBatch ks is => (EnqueueUniqueRequests st ks is).1
  | .drain => (drainScript st fetchSize).1

/-- What the queue scripts need of a fingerprint: it is not empty and holds no `|`, as is the
case for the 32 hexadecimal digits that `generateHashKey` returns. -/
def IsFingerprint (k : String) : Prop :=
  k.data ≠ [] ∧ ∀ c ∈ k.data, c ≠ '|'

/-- The record `fingerprint|chainId|address|symbol|network` built by `GetPrice` and
`GetBatchPrice` for its fingerprint. -/
def IsRecordOf (requestKey requestInfo : String) : Prop :=
  IsFingerprint requestKey ∧
  ∃ chainId address symbol network : String,
    requestInfo = requestKey ++ "|" ++ chainId ++ "|" ++ address ++ "|" ++ symbol ++ "|" ++ network

/-- Every pair handed to the enqueue scripts is a fingerprint with its record. -/
def QueueOp.WellFormed : QueueOp → Prop
  | .enqueue k i => IsRecordOf k i
  | .enqueueBatch ks is => ∀ p ∈ List.zip ks is, IsRecordOf p.1 p.2
  | .drain => True

/-- Value of a string key and the instant (unix seconds) at which it expires, if any. -/
structure Entry where
  val : String
  expireAt : Option Nat
deriving Repr, DecidableEq

/-- String keys of the shared cache. -/
abbrev Store := String → Option Entry

/-- The entry of `key` unless it has expired at instant `now`. -/
def Store.live (s : Store) (now : Nat) (key : String) : Option Entry :=
  match s key with
  | none => none
  | some e =>
    match e.expireAt with
    | none => some e
    | some t => if now < t then some e else none

/-- Redis `GET key`: the value, `none` for `redis.Nil`. -/
def Store.get (s : Store) (now : Nat) (key : String) : Option String :=
  (s.live now key).map fun e => e.val

/-- Redis `SET key val EX ttl`. -/
def Store.set (s : Store) (now : Nat) (key val : String) (ttl : Nat) : Store :=
  fun k => if k = key then some { val := val, expireAt := some (now + ttl) } else s k

/-- Redis `DEL key`. -/
def Store.del (s : Store) (key : String) : Store :=
  fun k => if k = key then none else s k

/-- Redis `EXPIRE key ttl`: only a live key gets the new expiry. -/
def Store.expire (s : Store) (now : Nat) (key : String) (ttl : Nat) : Store :=
  match s.live now key with
  | none => s
  | some e => fun k => if k = key then some { e with expireAt := some (now + ttl) } else s k

/-- Value of a string of decimal digits. -/
def digitsValue : List Char → Nat → Option Nat
  | [], acc => some acc
  | c :: cs, acc =>
    if '0' ≤ c ∧ c ≤ '9' then digitsValue cs (acc * 10 + (c.toNat - '0'.toNat)) else none

/-- Integer held by a Redis string, as `INCR` reads it: canonical decimal form only. -/
def parseInt (v : String) : Option Int :=
  match v.data with
  | [] => none
  | ['0'] => some 0
  | '-' :: c :: cs =>
    if '1' ≤ c ∧ c ≤ '9' then (digitsValue (c :: cs) 0).map fun n => -(n : Int) else none
  | c :: cs =>
    if '1' ≤ c ∧ c ≤ '9' then (digitsValue (c :: cs) 0).map fun n => (n : Int) else none

/-- Redis `INCR key`: the new store and the new value; `none` is the error reply for a value
that is not an integer or would leave the signed 64-bit range. An absent key counts as 0 and
the expiry of a live key is kept. -/
def Store.incr (s : Store) (now : Nat) (key : String) : Store × Option Int :=
  match s.live now key with
  | none => (fun k => if k = key then some { val := "1", expireAt := none } else s k, some 1)
  | some e =>
    match parseInt e.val with
    | none => (s, none)
    | some v =>
      if v < -(2 ^ 63) ∨ v + 1 > 2 ^ 63 - 1 then (s, none)
      else (fun k => if k = key then some { e with val := toString (v + 1) } else s k, some (v + 1))

/-! ## Throttler -/

/-- Go `RefuseChainIdMap` as env.go initialises it. -/
def RefuseChainIdMap : List (String × Int) := [("128", 1)]

/-- Key `coins_throttle:{coinsId}`. -/
def throttleKey (coinsId : String) : String := "coins_throttle:" ++ coinsId

/-- Key `coins_throttle_count:{coinsId}`. -/
def throttleCountKey (coinsId : String) : String := "coins_throttle_count:" ++ coinsId

/-- Go `CoinsThrottler.GetAlertedKey`. -/
def GetAlertedKey (coinsId : String) : String :=
  if coinsId = "" then "" else "coins_throttle_count:" ++ coinsId ++ ":alerted"

/-- Go `strings.Split(coinsId, "_")[0]`. -/
def chainOf (coinsId : String) : String :=
  match splitUnderscore coinsId with
  | [] => ""
  | p :: _ => p

/-- Go `CoinsThrottler.IsCoinsThrottled` at instant `now`, with `refuse` the current value of
the global `RefuseChainIdMap`. -/
def IsCoinsThrottled (refuse : List (String × Int)) (s : Store) (now : Nat) (coinsId : String) :
    Bool :=
  if (mapGet refuse (chainOf coinsId)).isSome then true
  else (s.get now (throttleKey coinsId)).isSome

/-- Go `RedisClient.HasHistoricalPriceCache` with a cache that answers. -/
def HasHistoricalPriceCache (s : Store) (now : Nat) (coinID : String) : Bool :=
  match s.get now ("price:historical:exists:" ++ coinID) with
  | some have_ => decide (have_ = "1")
  | none => false

/-- Lockout chosen by `CoinsThrottle` on the third failure, in seconds: 1 minute when a
historical price is cached, 24 hours when the coin does not exist, 30 minutes otherwise. -/
def lockoutSeconds (s : Store) (now : Nat) (coinsId : String) (coinExists : Bool) : Nat :=
  if HasHistoricalPriceCache s now coinsId then 60
  else if !coinExists then 24 * 3600
  else 30 * 60

/-- Go `CoinsThrottler.CoinsThrottle` at instant `now` on a cache that answers every command;
`checkCoinExists` is `coinChecker.CheckCoinExists`. Durations are in seconds:
`CoinsThrottleDuration` 60, `CoinsThrottleCountResetDuration` 1800,
`SlackNotificationResetDuration` (slack.go) 86400. -/
def CoinsThrottle (checkCoinExists : String → Except String Bool) (s : Store) (now : Nat)
    (coinsId reqeusetStatus : String) : Store × Bool :=
  if reqeusetStatus = "429" then (s.set now (throttleKey coinsId) "1" (3 * 60), false)
  else
    let alertedKey := GetAlertedKey coinsId
    match s.incr now (throttleCountKey coinsId) with
    | (_, none) => (s, false)
    | (s1, some count) =>
      let s2 := if count = 1 then s1.expire now (throttleCountKey coinsId) (30 * 60) else s1
      if count ≥ 3 then
        match checkCoinExists coinsId with
        | .error _ => (s2, false)
        | .ok coinExists =>
          let duration := lockoutSeconds s2 now coinsId coinExists
          let s3 := s2.set now (throttleKey coinsId) "1" duration
          let r := s3.incr now alertedKey
          let s5 := if r.2 = some 1 then r.1.expire now alertedKey (60 * 24 * 60) else r.1
          (s5.del (throttleCountKey coinsId), true)
      else (s2.set now (throttleKey coinsId) "1" 60, false)

/-- Store after consecutive `CoinsThrottle` calls for one coin, all at instant `now` (no key
expires in between), one call per status in the list. -/
def storeAfter (checkCoinExists : String → Except String Bool) (now : Nat) (coinsId : String)
    (statuses : List String) (s : Store) : Store :=
  statuses.foldl (fun st status => (CoinsThrottle checkCoinExists st now coinsId status).1) s

/-- State of the failure counter `r` failures into a cycle of three: absent, `"1"` or `"2"`. -/
def CounterAt (s : Store) (now : Nat) (coinsId : String) (r : Nat) : Prop :=
  if r = 0 then s.live now (throttleCountKey coinsId) = none
  else ∃ e, s.live now (throttleCountKey coinsId) = some e ∧ e.val = (if r = 1 then "1" else "2")

/-- The empty cache. -/
def Store.empty : Store := fun _ => none

/-! ## Coin store: alias resolution in the cache -/

/-- What `json.Unmarshal` makes of the data cached under one key: the (possibly only partly
filled) record and whether decoding succeeded. Records written by the store decode to
themselves. -/
structure Cached where
  coin : Coins
  decodes : Bool
deriving Repr, DecidableEq

/-- The `coins:{id}` entries of the shared cache, by full key. -/
abbrev CoinCache := String → Option Cached

/-- Redis `SET coins:{id} json.Marshal(coin)`. -/
def CoinCache.set (cache : CoinCache) (key : String) (coin : Coins) : CoinCache :=
  fun k => if k = key then some { coin := coin, decodes := true } else cache k

/-- The alias branch shared by both halves of `GetCoinsByOneID` (coins_repository.go 245-254
and 261-270), given the outcome of the recursive call. -/
def finishAlias (coin : Coins) (cache1 : CoinCache) (res : Except String (Option Coins)) :
    CoinCache × Except String (Option Coins) :=
  match res with
  | .error e => (cache1, .error e)
  | .ok none => (cache1, .ok none)
  | .ok (some returnCoin) =>
    if returnCoin.Address = "" ∨ returnCoin.ChainID = "" then (cache1, .ok none)
    else
      let rc := { returnCoin with ID := coin.ID }
      (cache1.set ("coins:" ++ coin.ID) rc, .ok (some rc))

/-- Go `coinRepository.GetCoinsByOneID`: the cache after the call and the returned
`(*schema.Coins, error)`. The recursion follows `ReturnCoinsId`; `none` means the fuel ran
out. -/
def GetCoinsByOneID : Nat → CoinCache → String → Option (CoinCache × Except String (Option Coins))
  | 0, _, _ => none
  | fuel + 1, cache, id =>
    match cache ("coins:" ++ id) with
    | some { coin := coin, decodes := true } =>
      if nonEmpty coin.ReturnCoinsId then
        match GetCoinsByOneID fuel cache (coin.ReturnCoinsId.getD "") with
        | none => none
        | some (cache1, res) => some (finishAlias coin cache1 res)
      else some (cache, .ok (some coin))
    | some { coin := coin, decodes := false } =>
      if nonEmpty coin.ReturnCoinsId then
        match GetCoinsByOneID fuel cache (coin.ReturnCoinsId.getD "") with
        | none => none
        | some (cache1, res) => some (finishAlias coin cache1 res)
      else some (cache, .ok (some coin))
    | none => some (cache, .ok (some Coins.zero))

/-- The `returnCoinsId` chain of cached records from `id` reaches, after `n` steps, the cached
record `z`, which has no `returnCoinsId` and a non-empty address and chain id; every record of
the chain is cached under its own id. -/
inductive AliasChain (cache : CoinCache) : String → Coins → Nat → Prop where
  | last (id : String) (z : Coins) :
      cache ("coins:" ++ id) = some { coin := z, decodes := true } → z.ID = id →
      nonEmpty z.ReturnCoinsId = false → z.Address ≠ "" → z.ChainID ≠ "" →
      AliasChain cache id z 0
  | step (id next : String) (c z : Coins) (n : Nat) :
      cache ("coins:" ++ id) = some { coin := c, decodes := true } → c.ID = id →
      c.ReturnCoinsId = some next → next ≠ "" → AliasChain cache next z n →
      AliasChain cache id z (n + 1)

/-- The record at the end of the sample chain. -/
def chainEnd : Coins :=
  { Coins.zero with ID := "1_0xz", ChainID := "1", Address := "0xz", Symbol := some "ZED" }

/-- The alias record at the head of the sample chain. -/
def chainHead : Coins :=
  { Coins.zero with ID := "1_0xa", ChainID := "1", Address := "0xa",
                    ReturnCoinsId := some "1_0xm" }

/-- The alias record in the middle of the sample chain. -/
def chainMid : Coins :=
  { Coins.zero with ID := "1_0xm", ChainID := "1", Address := "0xm",
                    ReturnCoinsId := some "1_0xz" }

/-- A cache with the chain `1_0xa → 1_0xm → 1_0xz`. -/
def chainCache : CoinCache := fun k =>
  if k = "coins:1_0xa" then
    some { coin := chainHead, decodes := true }
  else if k = "coins:1_0xm" then
    some { coin := chainMid, decodes := true }
  else if k = "coins:1_0xz" then
    some { coin := chainEnd, decodes := true }
  else none

/-! ## Historical-price store -/

/-- Shared-cache state the historical-price store works on. The keyspace is split by data
type, which the fixed key names keep apart: string keys (price cache, existence markers,
locks), the sets `historical_prices:set:…`, and the list `historical_prices:queue` with its
JSON records decoded. -/
structure HistState where
  strings : Store
  sets : String → List String
  queue : List CoinHistoricalPrice

/-- Collaborators of the historical-price store: `today` is `time.Now().Format("02-01-2006")`,
`dayOf t` is `time.Unix(t, 0).Format("02-01-2006")`, `now` the instant in unix seconds,
`order n keys` the order in which the `n`-th `range` loop visits the keys of a Go map,
`commit n prices` the error of the `n`-th attempt of `processQueueTransaction` (relational
upsert and hand-over to the coin queue), `dbFind coinID day` the relational query of
`GetHistoricalPrices`. -/
structure HistEnv where
  today : String
  dayOf : Int → String
  now : Nat
  order : Nat → List String → List String
  commit : Nat → List CoinHistoricalPrice → Option String
  dbFind : String → String → Except String (List CoinHistoricalPrice)

/-- Key `price:historical:{coinID}_{dayDate}`. -/
def historicalPriceKey (coinID dayDate : String) : String :=
  "price:historical:" ++ coinID ++ "_" ++ dayDate

/-- Time to live of a cached historical price in seconds: 24 h for today, 72 h otherwise. -/
def historicalTtl (today dayDate : String) : Nat :=
  if dayDate = today then 24 * 3600 else 72 * 3600

/-- Go `RedisClient.SetHistoricalPriceCache`: the existence marker (7 days), then the price. -/
def SetHistoricalPriceCache (today : String) (s : Store) (now : Nat)
    (coinID dayDate price : String) : Store :=
  (s.set now ("price:historical:exists:" ++ coinID) "1" (24 * 7 * 3600)).set now
    (historicalPriceKey coinID dayDate) price (historicalTtl today dayDate)

/-- Go `RedisClient.GetHistoricalPriceCache`: the value, `none` for `redis.Nil`. -/
def GetHistoricalPriceCache (s : Store) (now : Nat) (coinID dayDate : String) : Option String :=
  s.get now (historicalPriceKey coinID dayDate)

/-- Key of the companion set of a record, `historical_prices:set:{CoinID}_{DayDate}`. -/
def historicalSetKey (price : CoinHistoricalPrice) : String :=
  "historical_prices:set:" ++ price.CoinID ++ "_" ++ price.DayDate

/-- Commands `SaveHistoricalPrices` queues on its second pipeline. -/
inductive PipeCmd where
  | lrange
  | lset (index : Nat) (price : CoinHistoricalPrice)
  | sadd (key member : String)
  | rpush (price : CoinHistoricalPrice)
deriving Repr, DecidableEq

/-- What `queueItemsCmd.Result()` yields for the `LRANGE` that was only queued on the pipeline
and not executed yet: the zero value of the command, an empty slice and a nil error. -/
def unexecutedLRange : List CoinHistoricalPrice := []

/-- The loop `for i, item := range queueItems` (coin_historical_price_repository.go 96-110):
an `LSET` for the first queued record with the same coin and day. -/
def replaceInQueue (price : CoinHistoricalPrice) : Nat → List CoinHistoricalPrice → List PipeCmd
  | _, [] => []
  | i, oldPrice :: rest =>
    if oldPrice.CoinID = price.CoinID ∧ oldPrice.DayDate = price.DayDate then
      [PipeCmd.lset i price]
    else replaceInQueue price (i + 1) rest

/-- `pipe.Exec`: the queued commands applied in order. -/
def execPipe : List PipeCmd → HistState → HistState
  | [], st => st
  | PipeCmd.lrange :: rest, st => execPipe rest st
  | PipeCmd.lset i p :: rest, st => execPipe rest { st with queue := st.queue.set i p }
  | PipeCmd.sadd key member :: rest, st =>
    execPipe rest
      { st with sets := fun k => if k = key then setAdd (st.sets k) member else st.sets k }
  | PipeCmd.rpush p :: rest, st => execPipe rest { st with queue := st.queue ++ [p] }

/-- Go `RedisClient.AcquireLock`: `SETNX lockKey "locked"` with a TTL. -/
def AcquireLock (s : Store) (now : Nat) (lockKey : String) (ttl : Nat) : Store × Bool :=
  match s.live now lockKey with
  | some _ => (s, false)
  | none => (s.set now lockKey "locked" ttl, true)

/-- The retry loop of `processQueueWithTransaction`, from attempt `attempt` with `left`
attempts to go: stop on success, go on after a deadlock, return any other error. -/
def retryCommit (commit : Nat → List CoinHistoricalPrice → Option String)
    (prices : List CoinHistoricalPrice) : Nat → Nat → Option String
  | _, 0 => none
  | attempt, left + 1 =>
    match commit attempt prices with
    | none => none
    | some e =>
      if e = "ERROR: deadlock detected (SQLSTATE 40P01)" then
        retryCommit commit prices (attempt + 1) left
      else some e

/-- Go `coinHistoricalPriceRepository.processQueueWithTransaction`: when the list is not
empty, the relational commit with at most `maxRetries = 3` attempts, and (deferred) the list
and every `historical_prices:set:` key deleted. -/
def processQueueWithTransaction (env : HistEnv) (st : HistState) : HistState × Option String :=
  if st.queue.length = 0 then (st, none)
  else
    ({ st with
       queue := []
       sets := fun k =>
         if "historical_prices:set:".data.isPrefixOf k.data then [] else st.sets k },
      retryCommit env.commit st.queue 1 3)

/-- Go `coinHistoricalPriceRepository.ProcessQueue` from instant `t` with `left` lock attempts
to go, one second apart; without the lock it returns nil. -/
def processQueueFrom (env : HistEnv) (st : HistState) : Nat → Nat → HistState × Option String
  | _, 0 => (st, none)
  | t, left + 1 =>
    match AcquireLock st.strings t "lock:historical_prices_queue" 15 with
    | (s1, true) =>
      let r := processQueueWithTransaction env { st with strings := s1 }
      ({ r.1 with strings := r.1.strings.del "lock:historical_prices_queue" }, r.2)
    | (_, false) => processQueueFrom env st (t + 1) left

/-- Go `coinHistoricalPriceRepository.ProcessQueue` (`lockRetryCount = 3`). -/
def HistProcessQueue (env : HistEnv) (st : HistState) : HistState × Option String :=
  processQueueFrom env st env.now 3

/-- The third loop of `SaveHistoricalPrices` (coin_historical_price_repository.go 83-122) over
the keys in visiting order: the cache writes happen at once, the queue commands are collected
on the pipeline. -/
def savePass (env : HistEnv) (uniquePrices : List (String × CoinHistoricalPrice))
    (existsMap : List (String × Bool)) :
    List String → Store → List PipeCmd → Store × List PipeCmd
  | [], s, pipe => (s, pipe)
  | key :: rest, s, pipe =>
    match mapGet uniquePrices key with
    | none => savePass env uniquePrices existsMap rest s pipe
    | some price =>
      let s1 := SetHistoricalPriceCache env.today s env.now price.CoinID price.DayDate price.Price
      if (mapGet existsMap key).getD false then
        savePass env uniquePrices existsMap rest s1
          (pipe ++ PipeCmd.lrange :: replaceInQueue price 0 unexecutedLRange)
      else
        savePass env uniquePrices existsMap rest s1
          (pipe ++ [PipeCmd.sadd key price.CoinID, PipeCmd.rpush price])

/-- Go `coinHistoricalPriceRepository.SaveHistoricalPrices` on a cache that answers every
command: the state after the call and the error returned. -/
def SaveHistoricalPrices (env : HistEnv) (st : HistState) (prices : List CoinHistoricalPrice) :
    HistState × Option String :=
  if prices.length = 0 then (st, none)
  else
    let uniquePrices := prices.foldl (fun m price => mapSet m (historicalSetKey price) price) []
    let keys := uniquePrices.map fun kv => kv.1
    let results := (env.order 0 keys).map fun key =>
      match mapGet uniquePrices key with
      | some price => decide (price.CoinID ∈ st.sets key)
      | none => false
    let existsMap :=
      (List.zip (env.order 1 keys) results).foldl (fun m kv => mapSet m kv.1 kv.2) []
    let r := savePass env uniquePrices existsMap (env.order 2 keys) st.strings []
    let st1 := execPipe r.2 { st with strings := r.1 }
    if st1.queue.length ≥ 1000 then HistProcessQueue env st1 else (st1, none)

/-- The first loop of `GetHistoricalPrices` (coin_historical_price_repository.go 269-278) over
the pairs (coin id, day): cached prices go to `priceMap`, other pairs to `missingPrices`
unless the day is today. -/
def readPass (currentDay : String) (s : Store) (now : Nat) :
    List (String × String) → List (String × String) → List (String × List String) →
    List (String × String) × List (String × List String)
  | [], priceMap, missingPrices => (priceMap, missingPrices)
  | (coinID, dayDate) :: rest, priceMap, missingPrices =>
    match GetHistoricalPriceCache s now coinID dayDate with
    | some price =>
      if price ≠ "" then
        readPass currentDay s now rest (mapSet priceMap (coinID ++ "_" ++ dayDate) price)
          missingPrices
      else if dayDate ≠ currentDay then
        readPass currentDay s now rest priceMap
          (mapSet missingPrices coinID ((mapGet missingPrices coinID).getD [] ++ [dayDate]))
      else readPass currentDay s now rest priceMap missingPrices
    | none =>
      if dayDate ≠ currentDay then
        readPass currentDay s now rest priceMap
          (mapSet missingPrices coinID ((mapGet missingPrices coinID).getD [] ++ [dayDate]))
      else readPass currentDay s now rest priceMap missingPrices

/-- What `GetHistoricalPrices` has built so far: the price map, the cache and the relational
queries issued. -/
structure ReadState where
  priceMap : List (String × String)
  strings : Store
  queries : List (String × String)

/-- The loop `for _, price := range existingPrices` (coin_historical_price_repository.go
291-295). -/
def absorbRows (env : HistEnv) : List CoinHistoricalPrice → ReadState → ReadState
  | [], rs => rs
  | price :: rest, rs =>
    absorbRows env rest
      { rs with
        priceMap := mapSet rs.priceMap (price.CoinID ++ "_" ++ price.DayDate) price.Price
        strings := SetHistoricalPriceCache env.today rs.strings env.now price.CoinID
          price.DayDate price.Price }

/-- The relational queries for the missing days of one coin. -/
def queryDays (env : HistEnv) (coinID : String) : List String → ReadState → ReadState
  | [], rs => rs
  | day :: rest, rs =>
    let rs1 := { rs with queries := rs.queries ++ [(coinID, day)] }
    match env.dbFind coinID day with
    | .error _ => queryDays env coinID rest rs1
    | .ok existingPrices => queryDays env coinID rest (absorbRows env existingPrices rs1)

/-- The loop over `missingPrices` in visiting order. -/
def queryMissing (env : HistEnv) (missingPrices : List (String × List String)) :
    List String → ReadState → ReadState
  | [], rs => rs
  | coinID :: rest, rs =>
    queryMissing env missingPrices rest
      (queryDays env coinID ((mapGet missingPrices coinID).getD []) rs)

/-- Go `coinHistoricalPriceRepository.GetHistoricalPrices`: the returned map, the cache after
the call and the relational queries issued; `panic` when `dates` is shorter than `coinIDs`. -/
def GetHistoricalPrices (env : HistEnv) (s : Store) (coinIDs : List String) (dates : List Int) :
    Outcome ReadState :=
  if dates.length < coinIDs.length then .panic
  else
    let dayDates := dates.map env.dayOf
    let r := readPass env.today s env.now (List.zip coinIDs dayDates) [] []
    .ok (queryMissing env r.2 (env.order 0 (r.2.map fun kv => kv.1))
      { priceMap := r.1, strings := s, queries := [] })

/-- Every `range` loop visits each key of its map exactly once. -/
def VisitsAll (order : Nat → List String → List String) : Prop :=
  ∀ n keys, (order n keys).Perm keys

/-- A sample environment of the historical-price store: `range` visits keys in insertion
order, the relational store is empty and commits succeed. -/
def sampleHistEnv : HistEnv :=
  { today := "01-11-2026", dayOf := fun _ => "31-10-2026", now := 1793491200,
    order := fun _ keys => keys, commit := fun _ _ => none, dbFind := fun _ _ => .ok [] }

/-- The empty cache of the historical-price store. -/
def HistState.empty : HistState :=
  { strings := Store.empty, sets := fun _ => [], queue := [] }

/-- A historical price of coin `1_0xab` for 31-10-2026. -/
def samplePrice (price : String) : CoinHistoricalPrice :=
  { CoinID := "1_0xab", Date := 1793404800, DayDate := "31-10-2026", Price := price,
    Source := "coingecko", QueryInfo := none,
    base := { ID := 0, CreatedAt := 0, UpdatedAt := 0, DeletedAt := none } }

/-- No provider ever answers with a non-empty price for `id`: every answer of every adapter is
an error, or holds no priced result under the key `id` nor, when `id` is an alias, under the key
of its target. -/
def NoPriceFor (env : Env) (coins : List Coins) (id : String) : Prop :=
  ∀ n source args results, env.provider n source args = .ok results →
    ∀ r ∈ results, nonEmpty r.Price = true →
      r.ChainID ++ "_" ++ r.Address ≠ id ∧
      ∀ c ∈ coins, c.ID = id → c.ChainID ++ "_" ++ c.Address ≠ r.ChainID ++ "_" ++ r.Address

/-- The entry of `id` in `resultsMap`, if any, carries a nil price. -/
def NilPriceAt (id : String) (m : List (String × PriceResult)) : Prop :=
  ∀ v, mapGet m id = some v → v.Price = none

/-- An environment in which every adapter fails. -/
def downEnv : Env :=
  { sampleEnv with provider := fun _ _ _ => .error "upstream unavailable" }

/-! ## Coalescing engine: callers, shared cache and worker as interleaved atomic steps -/

/-- A price request of a caller: the fingerprint `generateHashKey(chainId, address, symbol,
network)` and the fields it is computed from, the address already lower-cased. -/
structure Request where
  requestKey : String
  chainId : String
  address : String
  symbol : String
  network : String
deriving Repr, DecidableEq

/-- Record `requestKey|chainId|address|symbol|network` pushed for a request. -/
def Request.info (r : Request) : String :=
  r.requestKey ++ "|" ++ r.chainId ++ "|" ++ r.address ++ "|" ++ r.symbol ++ "|" ++ r.network

/-- Key `price_result:{chainId}_{address}` under which the worker caches the answer. -/
def Request.resultKey (r : Request) : String :=
  "price_result:" ++ r.chainId ++ "_" ++ r.address

/-- The engine as seen from the shared cache: the unique-request set and queue, the
`price_result:*` keys (their 5-minute expiry is not modelled), and every group of records the
worker has handed to a `FetchAndProcessBatchPrices` run, oldest first. -/
structure Coalescer where
  shared : QueueState
  results : List (String × String)
  runs : List (List String)
deriving Repr, DecidableEq

/-- Engine right after start-up. -/
def Coalescer.init : Coalescer :=
  { shared := QueueState.empty, results := [], runs := [] }

/-- Configured `price.fetchSize` and `price.batchSize`. -/
structure WorkerConfig where
  fetchSize : Int
  batchSize : Nat
deriving Repr, DecidableEq

/-- `batchSize` as set up by `NewPriceService`: the configured value, 200 when it is 0. -/
def batchSizeOf (configured : Nat) : Nat :=
  if configured = 0 then 200 else configured

/-- Consecutive groups of `n` records (the last one may be shorter), `cur` being the group
under construction: the slices `requests[start:end]` of `ProcessPriceRequests`. -/
def chunkFrom (n : Nat) : List String → List String → List (List String)
  | [], cur => if cur.length = 0 then [] else [cur]
  | x :: xs, cur =>
    if cur.length + 1 = n then (cur ++ [x]) :: chunkFrom n xs []
    else chunkFrom n xs (cur ++ [x])

/-- The pair `GetBatchPrice` passes to `EnqueueUniqueRequests` for one item: empty strings when
the pre-check found `price_result` (price or `"-1"`), the fingerprint and record otherwise. -/
def batchPair (results : List (String × String)) (r : Request) : String × String :=
  if (mapGet results r.resultKey).isSome then ("", "") else (r.requestKey, r.info)

/-- Whether the pre-check of `GetPrice` answers at once: a value other than `"-1"` and `""`. -/
def singleAnswered (results : List (String × String)) (r : Request) : Bool :=
  match mapGet results r.resultKey with
  | some v => decide (v ≠ "-1" ∧ v ≠ "")
  | none => false

/-- Go `strings.Split(req, "|")` with the test `len(parts) == 5` of the worker. -/
def parseRecord (record : String) : Option Request :=
  match (splitChars '|' record.data).map String.mk with
  | [k, c, a, s, n] =>
    some { requestKey := k, chainId := c, address := a, symbol := s, network := n }
  | _ => none

/-- The worker caching the results of one run: `SET price_result:{chainId}_{address}` to the
price, or to `"-1"` for a nil or empty price. -/
def cacheResults : List (Request × Option String) → List (String × String) →
    List (String × String)
  | [], results => results
  | (r, price) :: rest, results =>
    cacheResults rest (mapSet results r.resultKey (safeDereferenceString price "-1"))

/-- One atomic step of the engine. `arriveSingle` / `arriveBatch`: a `GetPrice` /
`GetBatchPrice` caller with `isCache = excludeRoute = true` runs its pre-check and its enqueue
script. `drain`: the worker runs the atomic-drain script and starts one
`FetchAndProcessBatchPrices` run per group of `batchSize` records. `finish i prices`: run `i`
has returned `prices` and the worker caches them. -/
inductive Step where
  | arriveSingle (r : Request)
  | arriveBatch (rs : List Request)
  | drain
  | finish (i : Nat) (prices : List (Option String))
deriving Repr, DecidableEq

/-- State after one step. -/
def Step.apply (cfg : WorkerConfig) (st : Coalescer) : Step → Coalescer
  | .arriveSingle r =>
    if singleAnswered st.results r then st
    else { st with shared := (EnqueueUniqueRequest st.shared r.requestKey r.info).1 }
  | .arriveBatch rs =>
    let pairs := rs.map (batchPair st.results)
    { st with
      shared := (EnqueueUniqueRequests st.shared (pairs.map fun p => p.1)
        (pairs.map fun p => p.2)).1 }
  | .drain =>
    let r := drainScript st.shared (fetchSizeOf cfg.fetchSize)
    { st with shared := r.1, runs := st.runs ++ chunkFrom (batchSizeOf cfg.batchSize) r.2 [] }
  | .finish i prices =>
    match st.runs.get? i with
    | none => st
    | some batch =>
      { st with results := cacheResults (List.zip (batch.filterMap parseRecord) prices) st.results }

/-- State after a sequence of steps. -/
def exec (cfg : WorkerConfig) (steps : List Step) (st : Coalescer) : Coalescer :=
  steps.foldl (Step.apply cfg) st

/-- Number of worker runs of `FetchAndProcessBatchPrices` whose group holds a record with
fingerprint `k`. -/
def runsFor (k : String) (runs : List (List String)) : Nat :=
  runs.countP fun batch => decide (k ∈ batch.filterMap requestKeyOf)

/-- What a caller reads for its item once woken by `"ok"` (`WaitForBatchResults`): the value of
`price_result:{chainId}_{address}`, nil for `"-1"`. -/
def readAfterOk (results : List (String × String)) (r : Request) : Option String :=
  let price := (mapGet results r.resultKey).getD ""
  if price ≠ "-1" then some price else none

/-- The requests a step enqueues for. -/
def Step.requests : Step → List Request
  | .arriveSingle r => [r]
  | .arriveBatch rs => rs
  | _ => []

/-- Every request of the step carries a fingerprint as `generateHashKey` produces it. -/
def Step.WellFormed (s : Step) : Prop :=
  ∀ r ∈ s.requests, IsFingerprint r.requestKey

/-- Invariant of the shared queue under the engine: the fingerprints of the queued records are
pairwise different, and a non-empty key is in the set exactly when a queued record carries
it. -/
def EngineInv (st : QueueState) : Prop :=
  (st.price_requests_queue.filterMap requestKeyOf).Nodup ∧
  ∀ k, k ≠ "" →
    (k ∈ st.unique_price_requests ↔ k ∈ st.price_requests_queue.filterMap requestKeyOf)

/-- Number of queued records with fingerprint `k`. -/
def pendingFor (k : String) (st : QueueState) : Nat :=
  (st.price_requests_queue.filterMap requestKeyOf).countP fun o => decide (o = k)

/-- The step is not the caching of a finished run. -/
def Step.isFinish : Step → Bool
  | .finish _ _ => true
  | _ => false

/-- A request for token `0xab` on chain 1 with symbol `ETH`. -/
def requestEth : Request :=
  { requestKey := "0123456789abcdef0123456789abcdef", chainId := "1", address := "0xab",
    symbol := "ETH", network := "ethereum" }

/-- A request for the same token under the symbol `WETH`: another fingerprint, the same
`price_result` key. -/
def requestWeth : Request :=
  { requestKey := "fedcba9876543210fedcba9876543210", chainId := "1", address := "0xab",
    symbol := "WETH", network := "ethereum" }

/-- Default worker configuration (`fetchSize` 2000, `batchSize` 200). -/
def defaultConfig : WorkerConfig := { fetchSize := 0, batchSize := 0 }

/-! ## Coalesced entry points: `GetPrice` and `GetBatchPrice` -/

/-- Go `strings.Join(parts, "_")`. -/
def joinUnderscore : List String → String
  | [] => ""
  | [p] => p
  | p :: rest => p ++ "_" ++ joinUnderscore rest

/-- Go `priceService.WaitForResult(parts...)`: the value and `found`; `redisGet key` is the
reply of `GET key`. -/
def WaitForResult (redisGet : String → Reply) (parts : List String) : Option String × Bool :=
  match redisGet ("price_result:" ++ joinUnderscore parts) with
  | Reply.val price => if price ≠ "-1" then (some price, true) else (none, true)
  | _ => (none, false)

/-- The three `sync.Map`s of a `priceService`: fingerprint to waiting request ids, the request
ids that hold a result channel, and request id to the fingerprints it still waits for. -/
structure Bookkeeping where
  keysRequestIDMap : List (String × List String)
  requestIDChannelMap : List String
  requestIDKeysMap : List (String × List String)
deriving Repr, DecidableEq

/-- No request in flight. -/
def Bookkeeping.empty : Bookkeeping :=
  { keysRequestIDMap := [], requestIDChannelMap := [], requestIDKeysMap := [] }

/-- What a caller acts on: the bookkeeping of its process and the shared queue. -/
structure Caller where
  books : Bookkeeping
  shared : QueueState
deriving Repr, DecidableEq

/-- A process without requests in flight on an empty shared queue. -/
def Caller.init : Caller :=
  { books := Bookkeeping.empty, shared := QueueState.empty }

/-- Go `keysRequestIDMap.Load(requestKey)` followed by the `Store` of the extended slice
(price_service.go 146-159 and 249-259). -/
def registerKey (m : List (String × List String)) (requestKey requestID : String) :
    List (String × List String) :=
  match mapGet m requestKey with
  | some requestIDSlice => mapSet m requestKey (requestIDSlice ++ [requestID])
  | none => mapSet m requestKey [requestID]

/-- The deferred `requestIDChannelMap.Delete(requestID)` and
`requestIDKeysMap.Delete(requestID)`. -/
def Bookkeeping.release (b : Bookkeeping) (requestID : String) : Bookkeeping :=
  { b with
    requestIDChannelMap := setDelete b.requestIDChannelMap requestID
    requestIDKeysMap := mapDelete b.requestIDKeysMap requestID }

/-- How far a call has come: it has returned, or it has registered itself and now blocks in
`select` on its result channel and the `processTimeOut` timer. -/
inductive Entered (α : Type) where
  | returned (out : Outcome (α × List Event))
  | waiting
deriving Repr, DecidableEq

/-- What `select` yields: a flag from the result channel, or the timeout. -/
inductive Wake where
  | flag (f : String)
  | timeout
deriving Repr, DecidableEq

/-- Value `GetPrice` returns from a direct resolver call: the error, or `results[0].Price`,
nil when there is no result. -/
def firstPrice (o : Outcome (List PriceResult × List Event)) :
    Outcome (Option String × List Event) :=
  match o with
  | .ok (r :: _, tr) => .ok (r.Price, tr)
  | .ok ([], tr) => .ok (none, tr)
  | .error e => .error e
  | .panic => .panic

/-- Go `priceService.GetPrice` up to its `select` (price_service.go 117-165):
`generateHashKey` is the MD5 fingerprint function, `requestID` the value drawn by
`generateRequestID`, `redisGet` the reply of the pre-check `GET`. -/
def GetPrice (env : Env) (generateHashKey : List String → String) (redisGet : String → Reply)
    (requestID : String) (st : Caller) (chainId address symbol network : String)
    (useCache excludeRoute : Bool) : Caller × Entered (Option String) :=
  if !useCache then
    (st, .returned (firstPrice (FetchAndProcessBatchPrices env [chainId] [address]
      [safeDereferenceString (some symbol) ""] [network] useCache excludeRoute)))
  else
    let address := env.lower address
    let requestKey :=
      generateHashKey [chainId, env.lower address, safeDereferenceString (some symbol) "", network]
    let pre := WaitForResult redisGet [chainId, env.lower address]
    if pre.2 = true ∧ nonEmpty pre.1 = true then (st, .returned (.ok (pre.1, [])))
    else
      let books : Bookkeeping :=
        { requestIDChannelMap := setAdd st.books.requestIDChannelMap requestID
          requestIDKeysMap := mapSet st.books.requestIDKeysMap requestID [requestKey]
          keysRequestIDMap := registerKey st.books.keysRequestIDMap requestKey requestID }
      let requestInfo :=
        requestKey ++ "|" ++ chainId ++ "|" ++ address ++ "|"
          ++ safeDereferenceString (some symbol) "" ++ "|" ++ network
      ({ books := books, shared := (EnqueueUniqueRequest st.shared requestKey requestInfo).1 },
        .waiting)

/-- Go `priceService.GetPrice` from its `select` on (price_service.go 166-197), for a call that
was left waiting: `redisGet` is the reply of the second `GET`; the deferred clean-up runs on
return. -/
def GetPriceResume (env : Env) (redisGet : String → Reply) (requestID : String) (st : Caller)
    (chainId address symbol network : String) (useCache excludeRoute : Bool) (wake : Wake) :
    Caller × Outcome (Option String × List Event) :=
  let address := env.lower address
  let st1 : Caller := { st with books := st.books.release requestID }
  let direct := firstPrice (FetchAndProcessBatchPrices env [chainId] [address]
    [safeDereferenceString (some symbol) ""] [network] useCache excludeRoute)
  match wake with
  | .timeout => (st1, direct)
  | .flag f =>
    if f = "ok" then
      let post := WaitForResult redisGet [chainId, env.lower address]
      if post.2 = true then
        if nonEmpty post.1 = false ∧ excludeRoute = false then
          match FetchAndProcessBatchPrices env [chainId] [address]
              [safeDereferenceString (some symbol) ""] [network] useCache excludeRoute with
          | .error e => (st1, .error e)
          | .panic => (st1, .panic)
          | .ok (r :: _, tr) => (st1, .ok (r.Price, tr))
          | .ok ([], tr) => (st1, .ok (post.1, tr))
        else (st1, .ok (post.1, []))
      else (st1, .ok (none, []))
    else (st1, .ok (none, []))

/-- What the pre-check of `GetBatchPrice` does with one pipelined reply
(price_service.go 236-262). -/
inductive PreChecked where
  | price (p : String)
  | noPrice
  | enqueue
deriving Repr, DecidableEq

/-- The `if / else if / else` on `price, err := resultFutures[i].Result()`. -/
def preCheck (r : Reply) : PreChecked :=
  match r with
  | Reply.val price => if price ≠ "-1" then .price price else .noPrice
  | _ => .enqueue

/-- What the loop over the pipelined replies leaves behind: `resultMap`, `requestKeys`,
`requestInfos`, `requestKeyMap`, and the updated `keysRequestIDMap`. -/
structure PreCheckOut where
  resultMap : List (Nat × Option String)
  requestKeys : List String
  requestInfos : List String
  requestKeyMap : List String
  keysRequestIDMap : List (String × List String)
deriving Repr, DecidableEq

/-- Fingerprint of item `i` of a batch. -/
def batchKey (env : Env) (generateHashKey : List String → String)
    (chainIds addresses symbols networks : List String) (i : Nat) : String :=
  generateHashKey [chainIds.getD i "", env.lower (addresses.getD i ""),
    GetOrDefault symbols i "", GetOrDefault networks i ""]

/-- Queue record of item `i` of a batch. -/
def batchInfo (env : Env) (generateHashKey : List String → String)
    (chainIds addresses symbols networks : List String) (i : Nat) : String :=
  batchKey env generateHashKey chainIds addresses symbols networks i ++ "|" ++ chainIds.getD i ""
    ++ "|" ++ env.lower (addresses.getD i "") ++ "|" ++ GetOrDefault symbols i "" ++ "|"
    ++ GetOrDefault networks i ""

/-- Key `price_result:{chainId}_{lower-case address}` of item `i` of a batch. -/
def batchResultKey (env : Env) (chainIds addresses : List String) (i : Nat) : String :=
  "price_result:" ++ joinUnderscore [chainIds.getD i "", env.lower (addresses.getD i "")]

/-- The loop `for i := 0; i < len(chainIds); i++` over the pipelined replies
(price_service.go 235-263), index by index. -/
def preCheckAll (env : Env) (generateHashKey : List String → String) (redisGet : String → Reply)
    (requestID : String) (keysRequestIDMap : List (String × List String))
    (chainIds addresses symbols networks : List String) : PreCheckOut :=
  let idx := List.range chainIds.length
  let verdict := fun i => preCheck (redisGet (batchResultKey env chainIds addresses i))
  let missing := idx.filter fun i => decide (verdict i = PreChecked.enqueue)
  let fp := batchKey env generateHashKey chainIds addresses symbols networks
  { resultMap := idx.filterMap fun i =>
      match verdict i with
      | .price p => some (i, some p)
      | .noPrice => some (i, none)
      | .enqueue => none
    requestKeys := idx.map fun i => if verdict i = PreChecked.enqueue then fp i else ""
    requestInfos := idx.map fun i =>
      if verdict i = PreChecked.enqueue then
        batchInfo env generateHashKey chainIds addresses symbols networks i
      else ""
    requestKeyMap := missing.foldl (fun m i => setAdd m (fp i)) []
    keysRequestIDMap := missing.foldl (fun m i => registerKey m (fp i) requestID) keysRequestIDMap }

/-- Go `priceService.GetBatchPrice` up to its `select` (price_service.go 199-291);
`requestID` is the value drawn by `generateRequestsID`, `redisGet` the replies of the pipelined
`GET`s. The deferred clean-up runs when the call returns. -/
def GetBatchPrice (env : Env) (generateHashKey : List String → String)
    (redisGet : String → Reply) (requestID : String) (st : Caller)
    (chainIds addresses symbols networks : List String) (isCache excludeRoute : Bool) :
    Caller × Entered (List PriceResult) :=
  if !isCache || !excludeRoute then
    (st, .returned (FetchAndProcessBatchPrices env chainIds addresses symbols networks isCache
      excludeRoute))
  else
    let opened : Bookkeeping :=
      { st.books with requestIDChannelMap := setAdd st.books.requestIDChannelMap requestID }
    if addresses.length < chainIds.length then
      ({ st with books := opened.release requestID }, .returned .panic)
    else
    let replies := (List.range chainIds.length).map fun i =>
      redisGet (batchResultKey env chainIds addresses i)
    match execError replies with
    | some (Reply.err e) => ({ st with books := opened.release requestID }, .returned (.error e))
    | _ =>
      let pre := preCheckAll env generateHashKey redisGet requestID st.books.keysRequestIDMap
        chainIds addresses symbols networks
      let books : Bookkeeping :=
        { requestIDChannelMap := opened.requestIDChannelMap
          requestIDKeysMap := mapSet st.books.requestIDKeysMap requestID pre.requestKeyMap
          keysRequestIDMap := pre.keysRequestIDMap }
      let queued := EnqueueUniqueRequests st.shared pre.requestKeys pre.requestInfos
      match queued.2 with
      | .error e => ({ books := books.release requestID, shared := queued.1 }, .returned (.error e))
      | .ok _ =>
        if pre.resultMap.length = chainIds.length then
          match WaitForBatchResults env.now env.lower redisGet chainIds addresses symbols networks
              pre.resultMap with
          | .ok results =>
            ({ books := books.release requestID, shared := queued.1 }, .returned (.ok (results, [])))
          | .error e =>
            ({ books := books.release requestID, shared := queued.1 }, .returned (.error e))
          | .panic => ({ books := books.release requestID, shared := queued.1 }, .returned .panic)
        else ({ books := books, shared := queued.1 }, .waiting)

/-- Go `priceService.GetBatchPrice` from its `select` on (price_service.go 292-322), for a call
that was left waiting with the answers `resultMap` of its pre-check. -/
def GetBatchPriceResume (env : Env) (redisGet : String → Reply) (requestID : String)
    (st : Caller) (chainIds addresses symbols networks : List String)
    (isCache excludeRoute : Bool) (resultMap : List (Nat × Option String)) (wake : Wake) :
    Caller × Outcome (List PriceResult × List Event) :=
  let st1 : Caller := { st with books := st.books.release requestID }
  let direct :=
    FetchAndProcessBatchPrices env chainIds addresses symbols networks isCache excludeRoute
  match wake with
  | .timeout => (st1, direct)
  | .flag f =>
    if f = "ok" then
      match WaitForBatchResults env.now env.lower redisGet chainIds addresses symbols networks
          resultMap with
      | .error e => (st1, .error e)
      | .panic => (st1, .panic)
      | .ok results =>
        if excludeRoute = false ∧ results.any (fun r => !nonEmpty r.Price) then (st1, direct)
        else (st1, .ok (results, []))
    else (st1, .ok ([], []))

/-- A stand-in for the MD5 fingerprint in examples: the joined parts. -/
def plainKey (parts : List String) : String := joinUnderscore parts

/-- Shared cache in which `price_result:1_0xab` holds the tombstone `"-1"`. -/
def tombstoneCache (key : String) : Reply :=
  if key = "price_result:1_0xab" then Reply.val "-1" else Reply.nil

/-- Shared cache without any `price_result` key. -/
def coldCache (_ : String) : Reply := Reply.nil

/-- Coin record of token `1_0xc`, pinned to the on-chain adapter of CoinGecko. -/
def coinOnChain : Coins :=
  { Coins.zero with ID := "1_0xc", ChainID := "1", Address := "0xc",
                    PriceSource := some "coinGeckoOnChain" }

/-- An environment in which `1_0xc` is pinned to `coinGeckoOnChain`, nothing is prohibited or
throttled, and every adapter fails. -/
def onChainEnv : Env :=
  { downEnv with getCoinsByID := fun _ => .ok [coinOnChain] }

/-! ## Price resolver: one historical price -/

/-- Collaborators of `GetHistoricalPrice` besides those in `Env`: `getCoinsByOneID` is
`coinRepository.GetCoinsByOneID`, `dateOf t` is `time.Unix(t, 0).Format("02-01-2006")`, and
`historical n adapter args` the `(price, err)` pair returned by the `n`-th call of the run, made
to the single-price method of `adapter`. -/
structure SingleSources where
  getCoinsByOneID : String → Except String (Option Coins)
  dateOf : Int → String
  historical : Nat → String → ProviderArgs → Option String × Option String

/-- The variables `price` and `err` of `GetHistoricalPrice`, the trace and the number of
adapter calls made so far. -/
structure SingleState where
  price : Option String
  err : Option String
  trace : List Event
  calls : Nat
deriving Repr, DecidableEq

/-- One call of the single historical-price method of `adapter`. -/
def callHistorical (one : SingleSources) (adapter : String) (args : ProviderArgs)
    (st : SingleState) : SingleState :=
  let r := one.historical st.calls adapter args
  { price := r.1, err := r.2, trace := st.trace ++ [Event.call adapter args],
    calls := st.calls + 1 }

/-- Closure `getHistoricalPriceFromSource(source)` (price_service.go 804-820): the prohibited
gate, then the `switch` with `geckoterminal` as its default. -/
def getHistoricalPriceFromSource (env : Env) (one : SingleSources) (args : ProviderArgs)
    (source : String) (st : SingleState) : SingleState :=
  if isProhibited env.prohibitedSourcesHistorical source then
    { st with price := none, err := none }
  else if source = "geckoterminal" then callHistorical one "geckoterminal" args st
  else if source = "coingecko" then callHistorical one "coingecko" args st
  else if source = "defillama" then callHistorical one "defillama" args st
  else callHistorical one "geckoterminal" args st

/-- Test `err == nil && price != nil` after an adapter call. -/
def SingleState.priced (st : SingleState) : Bool :=
  st.err.isNone && st.price.isSome

/-- Go `strings.Contains(s, sub)` on characters. -/
def containsChars (sub : List Char) : List Char → Bool
  | [] => sub.isEmpty
  | c :: cs => sub.isPrefixOf (c :: cs) || containsChars sub cs

/-- The three unconditional fallback calls and the throttle hook of `GetHistoricalPrice`
(price_service.go 837-877). -/
def historicalFallback (env : Env) (one : SingleSources) (args : ProviderArgs)
    (coindId chainId address : String) (st : SingleState) : Option String × List Event :=
  let st1 := callHistorical one "coingecko" args st
  if st1.priced then (st1.price, st1.trace)
  else
    let st2 := callHistorical one "defillama" args st1
    if st2.priced then (st2.price, st2.trace)
    else
      let st3 := callHistorical one "geckoterminal" args st2
      if st3.priced then (st3.price, st3.trace)
      else if st3.price.isNone then
        let requestStatus :=
          match st3.err with
          | some e => if containsChars "429".data e.data then "429" else "200"
          | none => "200"
        let alert :=
          if env.coinsThrottle 0 coindId requestStatus then
            [Event.saveLog "priceService-GetHistoricalPrice" chainId address]
          else []
        (none, st3.trace ++ Event.throttle coindId requestStatus :: alert)
      else (none, st3.trace)

/-- Go `priceService.GetHistoricalPrice`: the returned price and the trace of adapter calls,
alert logs and throttle calls. -/
def GetHistoricalPrice (env : Env) (one : SingleSources)
    (chainId address symbol network : String) (unixTimeStamp : Int) :
    Except String (Option String × List Event) :=
  let address := env.lower address
  match one.getCoinsByOneID (chainId ++ "_" ++ address) with
  | .error e => .error e
  | .ok coin =>
    let target : String × String :=
      match coin with
      | some c => if c.ChainID ≠ "" ∧ c.Address ≠ "" then (c.ChainID, c.Address)
                  else (chainId, address)
      | none => (chainId, address)
    let chainId := target.1
    let address := target.2
    let coindId := chainId ++ "_" ++ address ++ "_" ++ one.dateOf unixTimeStamp
    if env.throttled coindId then
      .ok (none, [Event.saveLog "priceService-GetHistoricalPrice" chainId address])
    else
      let args : ProviderArgs :=
        { addresses := [address], chainIds := [chainId], symbols := [symbol],
          networks := [network], isCache := false, unixTimeStamps := [unixTimeStamp] }
      let st0 : SingleState := { price := none, err := none, trace := [], calls := 0 }
      let pinned := (coin.bind fun c => c.PriceSource).getD ""
      let st1 := if pinned ≠ "" then getHistoricalPriceFromSource env one args pinned st0 else st0
      if pinned ≠ "" ∧ st1.priced = true then .ok (st1.price, st1.trace)
      else
        let last := (coin.bind fun c => c.LastPriceSource).getD ""
        let st2 :=
          if last ≠ "" ∧ st1.price.isNone = true then
            getHistoricalPriceFromSource env one args last st1
          else st1
        if (last ≠ "" ∧ st1.price.isNone = true) ∧ st2.priced = true then .ok (st2.price, st2.trace)
        else .ok (historicalFallback env one args coindId chainId address st2)

/-- A configuration that prohibits `coingecko` for historical prices, with every adapter
answering `(nil, nil)` and no coin known. -/
def noGeckoEnv : Env :=
  { downEnv with prohibitedSourcesHistorical := [("coingecko", true)] }

/-- Adapters without any historical price, and no coin record. -/
def emptySources : SingleSources :=
  { getCoinsByOneID := fun _ => .ok none
    dateOf := fun _ => "31-10-2026"
    historical := fun _ _ _ => (none, none) }

/-- The adapters called by a run, in order. -/
def calledAdapters (o : Except String (Option String × List Event)) : List String :=
  match o with
  | .ok (_, tr) =>
    tr.filterMap fun e =>
      match e with
      | Event.call s _ => some s
      | _ => none
  | .error _ => []

/-! ## CoinGecko adapter: current prices -/

/-- Collaborators of `coinGeckoService.GetBatchPrice`: the clock (`nowTime` unix seconds,
`nowDay` as `02-01-2006`, `now` for the cache), `coinRepository.GetCoinsByID`, the upstream
`simple/price` request for a list of CoinGecko ids (per id the currencies with the price as
`strconv.FormatFloat(·, 'f', -1, 64)` renders it), and
`coinHistoricalPriceRepo.SaveHistoricalPrices`. -/
structure GeckoEnv where
  nowTime : Int
  nowDay : String
  now : Nat
  getCoinsByID : List String → Except String (List Coins)
  simplePrice : List String → Except String (List (String × List (String × String)))
  saveHistoricalPrices : List CoinHistoricalPrice → Option String

/-- Go `RedisClient.GetCurrentPricesCache`: the non-empty `price:current:{coinID}` values. -/
def GetCurrentPricesCache (s : Store) (now : Nat) (coinIDs : List String) :
    List (String × String) :=
  coinIDs.foldl (fun priceMap coinID =>
    match s.get now ("price:current:" ++ coinID) with
    | some price => if price ≠ "" then mapSet priceMap coinID price else priceMap
    | none => priceMap) []

/-- Go `RedisClient.SetCurrentPriceCache`: 10 minutes. -/
def SetCurrentPriceCache (s : Store) (now : Nat) (coinID price : String) : Store :=
  s.set now ("price:current:" ++ coinID) price (10 * 60)

/-- What the loop over `coins` collects: `coingeckoIDs`, `coingeckoIDMap`, `coinsMap`. -/
structure GeckoIds where
  coingeckoIDs : List String
  coingeckoIDMap : List (String × String)
  coinsMap : List (String × Coins)
deriving Repr, DecidableEq

/-- The loop `for i, coin := range coins` (coin_gecko_service.go 338-353) from index `i`;
`none` is the panic of `ids[i]`. -/
def collectIds (ids : List String) (existingPrices : List (String × String)) (nowDay : String)
    (isCache : Bool) : Nat → List Coins → GeckoIds → Option GeckoIds
  | _, [], g => some g
  | i, coin :: rest, g =>
    match coin.CoingeckoCoinID with
    | none => collectIds ids existingPrices nowDay isCache (i + 1) rest g
    | some coingeckoID =>
      if coin.ID = "" then collectIds ids existingPrices nowDay isCache (i + 1) rest g
      else
        match ids.get? i with
        | none => none
        | some coinID =>
          let priceExists := (mapGet existingPrices (coinID ++ "_" ++ nowDay)).isSome
          let g1 : GeckoIds :=
            if !priceExists || !isCache then
              { g with
                coingeckoIDs := g.coingeckoIDs ++ [coingeckoID]
                coingeckoIDMap := mapSet g.coingeckoIDMap coin.ID coingeckoID }
            else g
          collectIds ids existingPrices nowDay isCache (i + 1) rest
            { g1 with coinsMap := mapSet g1.coinsMap coin.ID coin }

/-- What `coinGeckoService.GetBatchPrice` has built so far: the results, the cache, the rows
to save. -/
structure GeckoOut where
  results : List PriceResult
  strings : Store
  pricesToSave : List CoinHistoricalPrice

/-- The loop `for i := range addresses` (coin_gecko_service.go 383-429) from index `i`. -/
def priceLoop (env : GeckoEnv) (chainIds addresses symbols networks : List String)
    (existingPrices : List (String × String)) (g : GeckoIds)
    (priceMap : List (String × List (String × String))) : List Nat → GeckoOut → GeckoOut
  | [], out => out
  | i :: rest, out =>
    let coinID := chainIds.getD i "" ++ "_" ++ addresses.getD i ""
    let fresh : Option String :=
      (mapGet g.coingeckoIDMap coinID).bind fun coingeckoCoinID =>
        (mapGet priceMap coingeckoCoinID).bind fun coinPrice => mapGet coinPrice "usd"
    let price : Option String :=
      match mapGet existingPrices coinID with
      | some historicalPrice => some historicalPrice
      | none => fresh
    let out1 : GeckoOut :=
      match mapGet existingPrices coinID, fresh with
      | none, some priceStr =>
        let saveID :=
          match mapGet g.coinsMap coinID with
          | some coin => coin.ChainID ++ "_" ++ coin.Address
          | none => coinID
        { out with
          strings := SetCurrentPriceCache out.strings env.now coinID priceStr
          pricesToSave := out.pricesToSave ++
            [{ CoinID := saveID, Date := env.nowTime, DayDate := env.nowDay, Price := priceStr,
               Source := "coingecko", QueryInfo := none,
               base := { ID := 0, CreatedAt := 0, UpdatedAt := 0, DeletedAt := none } }] }
      | _, _ => out
    priceLoop env chainIds addresses symbols networks existingPrices g priceMap rest
      { out1 with
        results := out1.results ++
          [{ ChainID := chainIds.getD i "", Address := addresses.getD i "", Price := price,
             Symbol := GetOrNil symbols i, Network := GetOrNil networks i,
             TimeStamp := toString env.nowTime, RequestStatus := none, Serial := 0 }] }

/-- Go `coinGeckoService.GetBatchPrice`: the results, the cache after the call, the rows handed
to `SaveHistoricalPrices`, and the list of CoinGecko ids requested upstream (empty when no
request was made). -/
def coinGeckoGetBatchPrice (env : GeckoEnv) (s : Store)
    (addresses chainIds symbols networks : List String) (isCache : Bool) :
    Outcome (GeckoOut × List String) :=
  if chainIds.length < addresses.length then .panic
  else
    let ids := List.zipWith (fun c a => c ++ "_" ++ a) chainIds addresses
    let existingPrices := GetCurrentPricesCache s env.now ids
    match env.getCoinsByID ids with
    | .error e => .error e
    | .ok coins =>
      match collectIds ids existingPrices env.nowDay isCache 0 coins
          { coingeckoIDs := [], coingeckoIDMap := [], coinsMap := [] } with
      | none => .panic
      | some g =>
        let fetched : Except String (List (String × List (String × String))) :=
          if g.coingeckoIDs.length > 0 then env.simplePrice g.coingeckoIDs else .ok []
        match fetched with
        | .error e => .error e
        | .ok priceMap =>
          let out := priceLoop env chainIds addresses symbols networks existingPrices g priceMap
            (List.range addresses.length) { results := [], strings := s, pricesToSave := [] }
          match env.saveHistoricalPrices out.pricesToSave with
          | some e => .error ("failed to save historical prices: " ++ e)
          | none => .ok (out, g.coingeckoIDs)

/-- Coin record of WETH with its CoinGecko id. -/
def coinWeth : Coins :=
  { Coins.zero with ID := "1_0xab", ChainID := "1", Address := "0xab",
                    CoingeckoCoinID := some "weth" }

/-- CoinGecko answering `2` for `weth`, at 31-10-2026. -/
def geckoEnv : GeckoEnv :=
  { nowTime := 1793404800, nowDay := "31-10-2026", now := 1793404800
    getCoinsByID := fun _ => .ok [coinWeth]
    simplePrice := fun _ => .ok [("weth", [("usd", "2")])]
    saveHistoricalPrices := fun _ => none }

/-- A cache in which `price:current:1_0xab` holds `"1"`. -/
def staleCache : Store :=
  Store.empty.set 1793404700 "price:current:1_0xab" "1" (10 * 60)

/-- Prices of the results and the CoinGecko ids requested upstream. -/
def geckoSummary (o : Outcome (GeckoOut × List String)) : List (Option String) × List String :=
  match o with
  | .ok (out, requested) => (out.results.map fun r => r.Price, requested)
  | _ => ([], [])


/-! ## Coin store: the upsert queue -/

/-- Shared-cache state of the coin queue: the string keys (the lock), the list `coins:queue`
with every element as `json.Unmarshal` reads it, and the sets `coins:set{id}` by full key. -/
structure CoinQueueState where
  strings : Store
  queue : List Cached
  sets : String → List String

/-- Collaborators of the coin queue: the instant `now`, the order in which `range` visits the
keys of `coinsMap`, and `upsertCoins n coins`, the error of the `n`-th `UpsertCoins` call of a
drain. -/
structure CoinQueueEnv where
  now : Nat
  order : List String → List String
  upsertCoins : Nat → List Coins → Option String

/-- The loop `for _, coinData := range coinsData` (coins_repository.go 460-467): the map
`coinsMap`, or the error of the first record that does not decode. -/
def decodeQueue : List Cached → List (String × Coins) → Except String (List (String × Coins))
  | [], coinsMap => .ok coinsMap
  | item :: rest, coinsMap =>
    if item.decodes then decodeQueue rest (mapSet coinsMap item.coin.ID item.coin)
    else .error "json: cannot unmarshal coin"

/-- The retry loop of `coinRepository.processQueueWithTransaction` (coins_repository.go
476-490) from attempt `attempt` with `left` attempts to go: every attempt hands `coins` to
`UpsertCoins`; the lists handed over and the error returned. -/
def retryUpsert (upsertCoins : Nat → List Coins → Option String) (coins : List Coins) :
    Nat → Nat → List (List Coins) × Option String
  | _, 0 => ([], none)
  | attempt, left + 1 =>
    match upsertCoins attempt coins with
    | none => ([coins], none)
    | some e =>
      if e = "ERROR: deadlock detected (SQLSTATE 40P01)" then
        let r := retryUpsert upsertCoins coins (attempt + 1) left
        (coins :: r.1, r.2)
      else ([coins], some e)

/-- The deferred clean-up of the drain: `DEL coins:queue` and every key with the prefix
`coins:set` deleted. -/
def CoinQueueState.cleared (st : CoinQueueState) : CoinQueueState :=
  { st with
    queue := []
    sets := fun k => if "coins:set".data.isPrefixOf k.data then [] else st.sets k }

/-- Go `coinRepository.processQueueWithTransaction`: the state after the drain, the lists of
coins handed to `UpsertCoins` (one per attempt) and the error returned. -/
def coinRepository.processQueueWithTransaction (env : CoinQueueEnv) (st : CoinQueueState) :
    CoinQueueState × List (List Coins) × Option String :=
  if st.queue.length = 0 then (st, [], none)
  else
    match decodeQueue st.queue [] with
    | .error e => (st.cleared, [], some e)
    | .ok coinsMap =>
      let coins := (env.order (coinsMap.map fun kv => kv.1)).filterMap fun k => mapGet coinsMap k
      let r := retryUpsert env.upsertCoins coins 1 3
      (st.cleared, r.1, r.2)

/-- Go `coinRepository.ProcessQueue` from instant `t` with `left` lock attempts to go, one
second apart (`lockRetryCount = 3`, `lockTTL` 15 s). -/
def coinRepository.processQueueFrom (env : CoinQueueEnv) (st : CoinQueueState) :
    Nat → Nat → CoinQueueState × List (List Coins) × Option String
  | _, 0 => (st, [], some "failed to acquire lock after 3 attempts")
  | t, left + 1 =>
    match AcquireLock st.strings t "lock:coins_queue" 15 with
    | (s1, true) =>
      let r := coinRepository.processQueueWithTransaction env { st with strings := s1 }
      ({ r.1 with strings := r.1.strings.del "lock:coins_queue" }, r.2)
    | (_, false) => coinRepository.processQueueFrom env st (t + 1) left

/-- Go `coinRepository.ProcessQueue`. -/
def coinRepository.ProcessQueue (env : CoinQueueEnv) (st : CoinQueueState) :
    CoinQueueState × List (List Coins) × Option String :=
  coinRepository.processQueueFrom env st env.now 3

/-- Commands `AddToQueue` queues on its pipeline. -/
inductive CoinCmd where
  | sismember (key member : String)
  | sadd (key member : String)
  | rpush (coin : Coins)
deriving Repr, DecidableEq

/-- What `exists.Val()` yields for the `SISMEMBER` that was only queued on the pipeline and
not executed yet: the zero value of the command, `false`. -/
def unexecutedSIsMember : Bool := false

/-- The loop `for _, coin := range coins` of `AddToQueue` (coins_repository.go 375-398): the
commands queued on the pipeline. -/
def queueCommands : List Coins → List CoinCmd
  | [] => []
  | coin :: rest =>
    if coin.ChainID = "" ∨ coin.Address = "" ∨ coin.ID = "" then queueCommands rest
    else
      let setKey := "coins:set" ++ coin.ID
      if unexecutedSIsMember then CoinCmd.sismember setKey coin.ID :: queueCommands rest
      else
        CoinCmd.sismember setKey coin.ID :: CoinCmd.sadd setKey coin.ID :: CoinCmd.rpush coin
          :: queueCommands rest

/-- `pipe.Exec` of `AddToQueue`: the queued commands applied in order. -/
def execCoinPipe : List CoinCmd → CoinQueueState → CoinQueueState
  | [], st => st
  | CoinCmd.sismember _ _ :: rest, st => execCoinPipe rest st
  | CoinCmd.sadd key member :: rest, st =>
    execCoinPipe rest
      { st with sets := fun k => if k = key then setAdd (st.sets k) member else st.sets k }
  | CoinCmd.rpush coin :: rest, st =>
    execCoinPipe rest { st with queue := st.queue ++ [{ coin := coin, decodes := true }] }

/-- Go `coinRepository.AddToQueue` on a cache that answers every command: the state after the
call, the lists handed to `UpsertCoins` by a drain it triggers, and the error returned. -/
def coinRepository.AddToQueue (env : CoinQueueEnv) (st : CoinQueueState) (coins : List Coins) :
    CoinQueueState × List (List Coins) × Option String :=
  let st1 := execCoinPipe (queueCommands coins) st
  if st1.queue.length ≥ 1000 then coinRepository.ProcessQueue env st1 else (st1, [], none)

/-- The empty coin queue. -/
def CoinQueueState.empty : CoinQueueState :=
  { strings := Store.empty, queue := [], sets := fun _ => [] }

/-- A sample environment of the coin queue: `range` visits keys in insertion order and every
upsert succeeds. -/
def sampleQueueEnv : CoinQueueEnv :=
  { now := 1793491200, order := fun keys => keys, upsertCoins := fun _ _ => none }

/-- The record at the end of the list that carries id `c.ID`: none of the records after it has
that id. -/
def IsLastWithId (queue : List Coins) (c : Coins) : Prop :=
  ∃ before after, queue = before ++ c :: after ∧ ∀ x ∈ after, x.ID ≠ c.ID

/-! ## Rate limiter -/

/-- Go `schema.AppToken`. `Rate` is a `float64` in the source; the model covers whole-number
rates, which a `float64` and a Lua number hold exactly below `2 ^ 53`. -/
structure AppToken where
  Name : String
  Token : String
  Rate : Int
deriving Repr, DecidableEq

/-- Lua script of `RateLimiterService.Allow` on `KEYS[1] = key`, `ARGV = limit, interval`:
the cache after it and the integer it returns; `none` is a script error (a counter that is not
a number, or an `INCR` that fails). -/
def rateLimitScript (s : Store) (now : Nat) (key : String) (limit : Int) (interval : Nat) :
    Store × Option Int :=
  let bump : Store × Option Int :=
    match s.incr now key with
    | (s1, some _) => (s1.expire now key interval, some 1)
    | (_, none) => (s, none)
  match s.get now key with
  | some current =>
    match parseInt current with
    | none => (s, none)
    | some c => if c ≥ limit then (s, some 0) else bump
  | none => bump

/-- Go `RateLimiterService.Allow` at instant `now`: `getAppTokenByToken` is the token
repository, `defaultRate` is `shared.AllowApiKeyNilRateLimiter`; the interval is one second. -/
def RateLimiterService.Allow (getAppTokenByToken : String → Except String AppToken)
    (defaultRate : Int) (s : Store) (now : Nat) (token : String) : Store × Except String Bool :=
  let appToken : Except String AppToken :=
    if token = "" then .ok { Name := "", Token := "DEFAULT_TOKEN", Rate := defaultRate }
    else getAppTokenByToken token
  match appToken with
  | .error e => (s, .error e)
  | .ok t =>
    match rateLimitScript s now ("rate_limit:" ++ token) t.Rate 1 with
    | (s1, some allowed) => (s1, .ok (decide (allowed = 1)))
    | (s1, none) => (s1, .error "ERR Error running script")

/-- Cache after `n` consecutive `Allow` calls for one token, all at instant `now` (within one
window of the key). -/
def allowCalls (getAppTokenByToken : String → Except String AppToken) (defaultRate : Int)
    (now : Nat) (token : String) : Nat → Store → Store
  | 0, s => s
  | n + 1, s =>
    (RateLimiterService.Allow getAppTokenByToken defaultRate
      (allowCalls getAppTokenByToken defaultRate now token n s) now token).1

/-- A token repository that knows `limited_token` with rate 1. -/
def sampleTokens (token : String) : Except String AppToken :=
  if token = "limited_token" then .ok { Name := "", Token := "limited_token", Rate := 1 }
  else .error "record not found"
/-- The counter `rate_limit:{token}` stands at `c`: absent for 0, otherwise a live key holding
the decimal form of `c`. -/
def RateCounterAt (s : Store) (now : Nat) (token : String) (c : Nat) : Prop :=
  if c = 0 then s.live now ("rate_limit:" ++ token) = none
  else ∃ e, s.live now ("rate_limit:" ++ token) = some e ∧ e.val = toString (c : Int)

/-! ## Coin store: refreshing the cache -/

/-- The cache without any entry. -/
def CoinCache.empty : CoinCache := fun _ => none

/-! ## Environment variables -/

/-- White space as `strings.Fields` sees it on Latin-1 text: space, the controls 9 to 13,
NEL and the no-break space. -/
def isSpace (c : Char) : Bool :=
  decide (c.toNat = 32 ∨ (9 ≤ c.toNat ∧ c.toNat ≤ 13) ∨ c.toNat = 133 ∨ c.toNat = 160)

/-- Characters of `strings.Fields(s)`: the maximal runs without white space; `cur` is the run
being read. -/
def fieldsChars : List Char → List Char → List (List Char)
  | [], cur => if cur = [] then [] else [cur]
  | c :: cs, cur =>
    if isSpace c then
      if cur = [] then fieldsChars cs [] else cur :: fieldsChars cs []
    else fieldsChars cs (cur ++ [c])

/-- Go `strings.Fields(s)`. -/
def Fields (s : String) : List String :=
  (fieldsChars s.data []).map String.mk

/-- Go `LoadRefuseChainId` (env.go 183-201). `refuse` is the package variable
`RefuseChainIdMap` before the call. The map that the loop fills is the variable declared inside
the function by `RefuseChainIdMap := make(map[string]int)`; the result pairs the package
variable after the call with that local map (`none` when `REFUSE_CHAIN_IDS` is empty). -/
def LoadRefuseChainId (getenv : String → String) (refuse : List (String × Int)) :
    List (String × Int) × Option (List (String × Int)) :=
  let chainIds := getenv "REFUSE_CHAIN_IDS"
  if chainIds = "" then (refuse, none)
  else
    let chainIdList := Fields chainIds
    let localMap := chainIdList.foldl (fun m key => mapSet m key (1 : Int)) []
    (refuse, some localMap)

/-- A process environment with `REFUSE_CHAIN_IDS="56 137"`. -/
def refuseEnv (name : String) : String :=
  if name = "REFUSE_CHAIN_IDS" then "56 137" else ""

/-! ## Coalesced path: the result subscriber -/

/-- State the result subscriber works on: the bookkeeping of the process, the values buffered
in the result channels (capacity 1) by request id, the sends made so far (the request id, and
whether the send found the buffer of the channel full), and whether a goroutine is blocked in
such a send while it holds the mutex `mu`. -/
structure Subscriber where
  books : Bookkeeping
  buffered : List (String × List String)
  sends : List (String × Bool)
  blocked : Bool
deriving Repr, DecidableEq

/-- The subscriber before any message, with all result channels empty. -/
def Subscriber.start (books : Bookkeeping) : Subscriber :=
  { books := books, buffered := [], sends := [], blocked := false }

/-- Body of the goroutine that `processMessage` starts for one entry of the slice of request
ids (price_service.go 553-571): `delete(keyMap, requestKey)` on the map stored for the request,
and `channel <- "ok"` when that map is empty. While a send is blocked the mutex is held and no
other goroutine of the message gets past `mu.Lock()`. -/
def notifyRequest (requestKey : String) (st : Subscriber) (requestId : String) : Subscriber :=
  if st.blocked then st
  else
    match mapGet st.books.requestIDKeysMap requestId with
    | none => st
    | some keyMap =>
      let keyMap1 := setDelete keyMap requestKey
      let st1 : Subscriber :=
        { st with
          books := { st.books with
            requestIDKeysMap := mapSet st.books.requestIDKeysMap requestId keyMap1 } }
      if keyMap1.length = 0 then
        if requestId ∈ st.books.requestIDChannelMap then
          let buf := (mapGet st.buffered requestId).getD []
          if buf.length < 1 then
            { st1 with
              buffered := mapSet st.buffered requestId (buf ++ ["ok"])
              sends := st.sends ++ [(requestId, false)] }
          else { st1 with sends := st.sends ++ [(requestId, true)], blocked := true }
        else st1
      else st1

/-- Go `priceService.processMessage` (price_service.go 534-578) for the payload of one
message, with the goroutines taking the mutex in the order of the slice. The deferred
`keysRequestIDMap.Delete(requestKey)` runs once every goroutine is done. -/
def processMessage (payload : String) (st : Subscriber) : Subscriber :=
  match (splitChars '|' payload.data).map String.mk with
  | [_, requestKey] =>
    match mapGet st.books.keysRequestIDMap requestKey with
    | none => st
    | some requestIDs =>
      let st1 := requestIDs.foldl (notifyRequest requestKey) st
      if st1.blocked then st1
      else
        { st1 with
          books := { st1.books with
            keysRequestIDMap := mapDelete st1.books.keysRequestIDMap requestKey } }
  | _ => st

/-- A batch that names the token `1_0xab` twice, entering `GetBatchPrice` as request `req-1`
on a cache without results. -/
def duplicateBatch : Caller × Entered (List PriceResult) :=
  GetBatchPrice sampleEnv plainKey coldCache "req-1" Caller.init ["1", "1"] ["0xab", "0xab"]
    [] [] true true
/-- An environment in which only the alias `1_0xa` of `1_0xb` is requested: `GetCoinsByID`
returns its record, `defillama` prices every requested token at `"1"`, `geckoterminal` at
`"2"`, and the other adapters fail. -/
def aliasOnlyEnv : Env :=
  { aliasEnv with getCoinsByID := fun _ => .ok [coinA] }

/-- An environment in which `geckoterminal` answers every token without a price and with
request status `"429"`, as `GetBatchCurrentPrices` does when the upstream limits the rate, and
every other adapter fails. -/
def rateLimitedEnv : Env :=
  { sampleEnv with
    provider := fun _ source args =>
      if source = "geckoterminal" then
        .ok (List.zipWith (fun c a =>
          { ChainID := c, Address := a, Price := none, Symbol := none, Network := none,
            TimeStamp := "1700000000", RequestStatus := some "429", Serial := 0 })
          args.chainIds args.addresses)
      else .error "upstream unavailable"
    providerHistorical := fun _ source args =>
      if source = "geckoterminal" then
        .ok (List.zipWith (fun c a =>
          { ChainID := c, Address := a, Price := none, Symbol := none, Network := none,
            TimeStamp := "1700000000", RequestStatus := some "429", Serial := 0 })
          args.chainIds args.addresses)
      else .error "upstream unavailable" }

/-- The `CoinsThrottle` calls of a run: coin id and status, in program order. -/
def throttleCalls (o : Outcome (List PriceResult × List Event)) : List (String × String) :=
  match o with
  | .ok (_, tr) =>
    tr.filterMap fun e =>
      match e with
      | Event.throttle k s => some (k, s)
      | _ => none
  | _ => []

/-! ## Coin store: the relational upsert -/

/-- Column names of the `INSERT` that `upsertCoins` builds: the JSON tags of the fields of
`schema.Coins` other than `Base`, in field order. -/
def coinColumns : List String :=
  ["id", "address", "chain_id", "symbol", "name", "coingecko_coin_id", "coingecko_platforms",
   "geckoterminal_network", "extra", "decimals", "total_supply", "label", "pool_name",
   "base_token_address", "quote_token_address", "pool_created_at", "pool_attributes",
   "last_price_source", "price_source", "return_coins_id"]

/-- The tests of the loop that builds `updateColumns` (coins_repository.go 100-112) for the
field behind `column`: the three names that are never updated, a nil pointer, an empty string
field. The map `coingecko_platforms` is neither a pointer nor a string and is never skipped. -/
def skipsColumn (coin : Coins) (column : String) : Bool :=
  if column = "created_at" ∨ column = "updated_at" ∨ column = "id" then true
  else if column = "address" then decide (coin.Address = "")
  else if column = "chain_id" then decide (coin.ChainID = "")
  else if column = "symbol" then coin.Symbol.isNone
  else if column = "name" then coin.Name.isNone
  else if column = "coingecko_coin_id" then coin.CoingeckoCoinID.isNone
  else if column = "coingecko_platforms" then false
  else if column = "geckoterminal_network" then coin.GeckoterminalNetwork.isNone
  else if column = "extra" then coin.Extra.isNone
  else if column = "decimals" then coin.Decimals.isNone
  else if column = "total_supply" then coin.TotalSupply.isNone
  else if column = "label" then decide (coin.Label = "")
  else if column = "pool_name" then coin.PoolName.isNone
  else if column = "base_token_address" then coin.BaseTokenAddress.isNone
  else if column = "quote_token_address" then coin.QuoteTokenAddress.isNone
  else if column = "pool_created_at" then coin.PoolCreatedAt.isNone
  else if column = "pool_attributes" then coin.PoolAttributes.isNone
  else if column = "last_price_source" then coin.LastPriceSource.isNone
  else if column = "price_source" then coin.PriceSource.isNone
  else if column = "return_coins_id" then coin.ReturnCoinsId.isNone
  else false

/-- Columns named in `ON CONFLICT (id) DO UPDATE SET …` before `updated_at = NOW()`
(coins_repository.go 97-114): the loop over `coins` ends with `break` after the first coin. -/
def updateColumns (coins : List Coins) : List String :=
  match coins with
  | [] => []
  | coin :: _ => coinColumns.filter fun column => !skipsColumn coin column

/-- Row left by `DO UPDATE SET column = EXCLUDED.column, …, updated_at = NOW()` for the
columns named: `stored` is the row in the table, `incoming` the row proposed for insertion. -/
def assignColumns (now : Int) (columns : List String) (stored incoming : Coins) : Coins :=
  { ID := stored.ID
    Address := if "address" ∈ columns then incoming.Address else stored.Address
    ChainID := if "chain_id" ∈ columns then incoming.ChainID else stored.ChainID
    Symbol := if "symbol" ∈ columns then incoming.Symbol else stored.Symbol
    Name := if "name" ∈ columns then incoming.Name else stored.Name
    CoingeckoCoinID := if "coingecko_coin_id" ∈ columns then incoming.CoingeckoCoinID else stored.CoingeckoCoinID
    CoingeckoPlatforms := if "coingecko_platforms" ∈ columns then incoming.CoingeckoPlatforms else stored.CoingeckoPlatforms
    GeckoterminalNetwork := if "geckoterminal_network" ∈ columns then incoming.GeckoterminalNetwork else stored.GeckoterminalNetwork
    Extra := if "extra" ∈ columns then incoming.Extra else stored.Extra
    Decimals := if "decimals" ∈ columns then incoming.Decimals else stored.Decimals
    TotalSupply := if "total_supply" ∈ columns then incoming.TotalSupply else stored.TotalSupply
    Label := if "label" ∈ columns then incoming.Label else stored.Label
    PoolName := if "pool_name" ∈ columns then incoming.PoolName else stored.PoolName
    BaseTokenAddress := if "base_token_address" ∈ columns then incoming.BaseTokenAddress else stored.BaseTokenAddress
    QuoteTokenAddress := if "quote_token_address" ∈ columns then incoming.QuoteTokenAddress else stored.QuoteTokenAddress
    PoolCreatedAt := if "pool_created_at" ∈ columns then incoming.PoolCreatedAt else stored.PoolCreatedAt
    PoolAttributes := if "pool_attributes" ∈ columns then incoming.PoolAttributes else stored.PoolAttributes
    LastPriceSource := if "last_price_source" ∈ columns then incoming.LastPriceSource else stored.LastPriceSource
    PriceSource := if "price_source" ∈ columns then incoming.PriceSource else stored.PriceSource
    ReturnCoinsId := if "return_coins_id" ∈ columns then incoming.ReturnCoinsId else stored.ReturnCoinsId
    base := { stored.base with UpdatedAt := now } }

/-- One row of `INSERT … ON CONFLICT (id) DO UPDATE`: a stored row with the id is updated, else
the row is inserted with the `Base` columns `fresh` that the table assigns. -/
def upsertRow (now : Int) (fresh : Base) (columns : List String) (table : List Coins)
    (coin : Coins) : List Coins :=
  if table.any (fun r => decide (r.ID = coin.ID)) then
    table.map fun r => if r.ID = coin.ID then assignColumns now columns r coin else r
  else table ++ [{ coin with base := fresh }]

/-- What the table `coins` of the relational store adds to the statement: `now` is `NOW()`,
`fresh` the `Base` columns of a newly inserted row, `validJson` whether a text is accepted by
a `json` column, `validTime` whether an instant is within the range of a timestamp column. -/
structure CoinsTable where
  now : Int
  fresh : Base
  validJson : String → Bool
  validTime : Int → Bool

/-- A text fits a `varchar(255)` column: at most 255 characters, none of them NUL. -/
def fitsVarchar (v : String) : Bool :=
  decide (v.length ≤ 255) && !(v.data.contains (Char.ofNat 0))

/-- A nullable column takes NULL and every value that its type takes. -/
def nullOr {α : Type} (ok : α → Bool) (v : Option α) : Bool :=
  match v with
  | none => true
  | some x => ok x

/-- The column definitions of `schema.Coins` (schema/coins.go, created by `AutoMigrate`)
applied to a row proposed for insertion. `symbol` and `name` are `notNull` and a nil pointer
is sent as NULL (the other `notNull` columns are Go strings, never NULL); fifteen columns are
`varchar(255)`; `decimals` is a 32-bit `int`; `extra` and `pool_attributes` are `json`;
`pool_created_at` is a timestamp. PostgreSQL checks them before it looks for a conflict. -/
def rowAccepted (db : CoinsTable) (coin : Coins) : Bool :=
  coin.Symbol.isSome && coin.Name.isSome &&
  fitsVarchar coin.ID && fitsVarchar coin.Address && fitsVarchar coin.ChainID &&
  fitsVarchar coin.Label &&
  nullOr fitsVarchar coin.Symbol && nullOr fitsVarchar coin.Name &&
  nullOr fitsVarchar coin.CoingeckoCoinID && nullOr fitsVarchar coin.GeckoterminalNetwork &&
  nullOr fitsVarchar coin.TotalSupply && nullOr fitsVarchar coin.PoolName &&
  nullOr fitsVarchar coin.BaseTokenAddress && nullOr fitsVarchar coin.QuoteTokenAddress &&
  nullOr fitsVarchar coin.LastPriceSource && nullOr fitsVarchar coin.PriceSource &&
  nullOr fitsVarchar coin.ReturnCoinsId &&
  nullOr (fun d => decide (-(2 ^ 31) ≤ d ∧ d < 2 ^ 31)) coin.Decimals &&
  nullOr db.validJson coin.Extra && nullOr db.validJson coin.PoolAttributes &&
  nullOr db.validTime coin.PoolCreatedAt

/-- Go `coinRepository.upsertCoins` (coins_repository.go 57-139) on a table that answers, for
one of the slices of at most 1000 coins that `UpsertCoins` passes: the rows of `coins` after
the statement, or the error of the statement, which then changes nothing. PostgreSQL rejects a
statement with a row that violates a column definition, and a statement that proposes the
same id twice. -/
def coinRepository.upsertCoins (db : CoinsTable) (table coins : List Coins) :
    Except String (List Coins) :=
  if coins.length = 0 then .ok table
  else if coins.all (rowAccepted db) then
    if (coins.map fun c => c.ID).Nodup then
      .ok (coins.foldl (upsertRow db.now db.fresh (updateColumns coins)) table)
    else .error "ERROR: ON CONFLICT DO UPDATE command cannot affect row a second time"
  else .error "ERROR: a proposed row violates a column definition of coins"

/-- The row with the given id after an upsert, if the upsert succeeded and there is one. -/
def rowWithId (r : Except String (List Coins)) (id : String) : Option Coins :=
  match r with
  | .ok table => table.find? fun c => decide (c.ID = id)
  | .error _ => none

/-- The update in words: every column takes the incoming value unless it is a nil pointer or
an empty string in `template`, in which case the stored value stays; `coingecko_platforms`
always takes the incoming value, `id` and `created_at` stay, `updated_at` becomes `now`. -/
def templateUpdate (now : Int) (template stored incoming : Coins) : Coins :=
  { ID := stored.ID
    Address := if template.Address = "" then stored.Address else incoming.Address
    ChainID := if template.ChainID = "" then stored.ChainID else incoming.ChainID
    Symbol := if template.Symbol.isNone then stored.Symbol else incoming.Symbol
    Name := if template.Name.isNone then stored.Name else incoming.Name
    CoingeckoCoinID := if template.CoingeckoCoinID.isNone then stored.CoingeckoCoinID else incoming.CoingeckoCoinID
    CoingeckoPlatforms := incoming.CoingeckoPlatforms
    GeckoterminalNetwork := if template.GeckoterminalNetwork.isNone then stored.GeckoterminalNetwork else incoming.GeckoterminalNetwork
    Extra := if template.Extra.isNone then stored.Extra else incoming.Extra
    Decimals := if template.Decimals.isNone then stored.Decimals else incoming.Decimals
    TotalSupply := if template.TotalSupply.isNone then stored.TotalSupply else incoming.TotalSupply
    Label := if template.Label = "" then stored.Label else incoming.Label
    PoolName := if template.PoolName.isNone then stored.PoolName else incoming.PoolName
    BaseTokenAddress := if template.BaseTokenAddress.isNone then stored.BaseTokenAddress else incoming.BaseTokenAddress
    QuoteTokenAddress := if template.QuoteTokenAddress.isNone then stored.QuoteTokenAddress else incoming.QuoteTokenAddress
    PoolCreatedAt := if template.PoolCreatedAt.isNone then stored.PoolCreatedAt else incoming.PoolCreatedAt
    PoolAttributes := if template.PoolAttributes.isNone then stored.PoolAttributes else incoming.PoolAttributes
    LastPriceSource := if template.LastPriceSource.isNone then stored.LastPriceSource else incoming.LastPriceSource
    PriceSource := if template.PriceSource.isNone then stored.PriceSource else incoming.PriceSource
    ReturnCoinsId := if template.ReturnCoinsId.isNone then stored.ReturnCoinsId else incoming.ReturnCoinsId
    base := { stored.base with UpdatedAt := now } }

/-- The table holds the row `x`, and no other row with its id. -/
def RowIs (table : List Coins) (x : Coins) : Prop :=
  x ∈ table ∧ ∀ r ∈ table, r.ID = x.ID → r = x

/-- A sample table: the `json` columns take `{}` only, every instant is in range, and an
inserted row gets the zero `Base`. -/
def sampleCoinsTable : CoinsTable :=
  { now := 1700000000
    fresh := Coins.zero.base
    validJson := fun v => decide (v = "{}")
    validTime := fun _ => true }

/-- Stored row of the token `1_0xb`, with a CoinGecko id and without decimals. -/
def storedB : Coins :=
  { coinB with Symbol := some "OLD", Name := some "Old name", CoingeckoCoinID := some "old-id" }

/-- Incoming row of the token `1_0xa`: symbol, name and CoinGecko id, no decimals. -/
def incomingA : Coins :=
  { Coins.zero with ID := "1_0xa", ChainID := "1", Address := "0xa", Symbol := some "AAA",
                    Name := some "Token A", CoingeckoCoinID := some "aaa" }

/-- Incoming row of the token `1_0xb`: symbol, name and decimals, no CoinGecko id. -/
def incomingB : Coins :=
  { coinB with Symbol := some "BBB", Name := some "Token B", Decimals := some 18 }

/-- A historical-price environment in which the first three attempts of the relational write
fail with the deadlock error of PostgreSQL; a fourth attempt would fail with another error. -/
def deadlockHistEnv : HistEnv :=
  { sampleHistEnv with
    commit := fun n _ =>
      if n ≤ 3 then some "ERROR: deadlock detected (SQLSTATE 40P01)"
      else some "ERROR: fourth attempt" }

/-! ## Provider adapters: the upstream request -/

/-- What one HTTP request meets upstream: the transport fails, a response arrives whose body
cannot be read, or a response arrives with a status code and a body. -/
inductive Upstream where
  | failed (e : String)
  | unreadable (statusCode : Nat) (e : String)
  | response (statusCode : Nat) (body : String)
deriving Repr, DecidableEq

/-- Go `shared.DoRequest` (util.go 38-73): body, status code and error. A response with any
status other than 200 comes back with its body, its status and an error. -/
def DoRequest (up : Upstream) : String × Nat × Option String :=
  match up with
  | .failed e => ("", 0, some ("failed to execute request: " ++ e))
  | .unreadable statusCode e => ("", statusCode, some ("failed to read response body: " ++ e))
  | .response statusCode body =>
    if statusCode ≠ 200 then
      (body, statusCode, some ("failed to get response, status code: " ++ toString statusCode))
    else (body, statusCode, none)

/-- The request of `coinGeckoService.GetBatchPrice` with its error handling
(coin_gecko_service.go 362-372): the keys handed to `HandleErrorWithThrottling`, and the body
or the error returned. -/
def coinGeckoRequest (up : Upstream) : List String × Except String String :=
  match DoRequest up with
  | (_, _, some err) => ([], .error ("failed to execute request: " ++ err))
  | (body, statusCode, none) =>
    if statusCode ≠ 200 then
      (if statusCode ≠ 429 then ["CoinGeckoService-GetBatchPrice"] else [],
        .error ("failed to get prices, status code: " ++ toString statusCode ++ ", response: "
          ++ body))
    else ([], .ok body)

/-- The request of `geckoTerminalService.GetCurrentPrice` with its error handling
(gecko_terminal_service.go 158-168); a 404 is parsed like a 200. -/
def geckoTerminalRequest (up : Upstream) : List String × Except String String :=
  match DoRequest up with
  | (_, _, some err) => ([], .error err)
  | (body, statusCode, none) =>
    if statusCode ≠ 200 ∧ statusCode ≠ 404 then
      (if statusCode ≠ 429 then ["GeckoTerminalService-GetCurrentPrice"] else [],
        .error ("failed to get prices, status code: " ++ toString statusCode ++ ", response: "
          ++ body))
    else ([], .ok body)

/-- The request of `defiLlamaService.GetCurrentPrice` with its error handling
(defi_llama_service.go 168-178). -/
def defiLlamaRequest (up : Upstream) : List String × Except String String :=
  match DoRequest up with
  | (_, _, some err) => ([], .error err)
  | (body, statusCode, none) =>
    if statusCode ≠ 200 then
      (if statusCode ≠ 429 then ["DefiLlamaService-GetCurrentPrice"] else [],
        .error ("failed to get prices, status code: " ++ toString statusCode ++ ", response: "
          ++ body))
    else ([], .ok body)

/-- The request of one batch of `defiLlamaService.GetBatchCurrentPrices` with its error
handling (defi_llama_service.go 367-379); `none` stands for the goroutine giving up. -/
def defiLlamaBatchRequest (up : Upstream) : List String × Option String :=
  match DoRequest up with
  | (_, _, some _) => ([], none)
  | (body, statusCode, none) =>
    if statusCode ≠ 200 then
      (if statusCode ≠ 429 then ["DefiLlamaService-GetBatchCurrentPrices"] else [], none)
    else ([], some body)

/-! ## Controller: the batch-historical endpoint -/

/-- A date in the JSON body of a POST request: a string, a number (as `int64(v)` reads it), or
any other JSON value. -/
inductive JsonDate where
  | str (v : String)
  | num (v : Int)
  | other
deriving Repr, DecidableEq

/-- What the controller reads from a request to the batch-historical endpoint: the query
arguments of a GET, the decoded body of a POST, or another method. -/
inductive BatchHistoricalRequest where
  | get (addresses networks symbols chainIds dates : List String)
  | post (addresses networks chainIds symbols : List String) (dates : List JsonDate)
  | other (method : String)
deriving Repr, DecidableEq

/-- Collaborators of the controller: `parseDay` is `time.Parse("2006-01-02", ds)` as unix
seconds, `parseInt` is `strconv.ParseInt(ds, 10, 64)`, `getChainID` and `getChainName` are
`shared.GetChainID` and `shared.GetChainName`. -/
structure ControllerEnv where
  parseDay : String → Option Int
  parseInt : String → Option Int
  getChainID : String → Except String String
  getChainName : String → Except String String

/-- The variables of `priceController.GetBatchHistoricalPrice` after the request has been
read; `datesStr` is the variable declared at the top of the handler. -/
structure HistoricalArgs where
  chainIds : List String
  addresses : List String
  symbols : List String
  networks : List String
  dates : List Int
  datesStr : List String
deriving Repr, DecidableEq

/-- One date string turned into unix seconds (price_controller.go 253-265), on ASCII text:
`YYYY-MM-DD` goes through `time.Parse`, anything else through `strconv.ParseInt`. -/
def parseDate (env : ControllerEnv) (ds : String) : Except String Int :=
  if ds.length = 10 ∧ ds.data.get? 4 = some '-' ∧ ds.data.get? 7 = some '-' then
    match env.parseDay ds with
    | some date => .ok date
    | none => .error ("failed to parse date: " ++ ds)
  else
    match env.parseInt ds with
    | some date => .ok date
    | none => .error ("failed to parse date: " ++ ds)

/-- The loop `for i, ds := range datesStr` of the GET branch. -/
def parseDates (env : ControllerEnv) : List String → Except String (List Int)
  | [] => .ok []
  | ds :: rest =>
    match parseDate env ds with
    | .error e => .error e
    | .ok date =>
      match parseDates env rest with
      | .error e => .error e
      | .ok dates => .ok (date :: dates)

/-- The loop `for i, d := range requestData.Dates` of the POST branch: `dates` and
`datesStr`. -/
def readJsonDates (env : ControllerEnv) : List JsonDate → Except String (List Int × List String)
  | [] => .ok ([], [])
  | d :: rest =>
    let one : Except String (Int × String) :=
      match d with
      | .str v =>
        match parseDate env v with
        | .error e => .error e
        | .ok date => .ok (date, v)
      | .num v => .ok (v, toString v)
      | .other => .error "invalid date format"
    match one with
    | .error e => .error e
    | .ok (date, s) =>
      match readJsonDates env rest with
      | .error e => .error e
      | .ok (dates, datesStr) => .ok (date :: dates, s :: datesStr)

/-- The branch on the method (price_controller.go 246-311). In the GET branch the date strings
go into a variable declared there by `datesStr := …`; the `datesStr` of the handler stays
nil. -/
def readRequest (env : ControllerEnv) (req : BatchHistoricalRequest) :
    Except String HistoricalArgs :=
  match req with
  | .get addresses networks symbols chainIds dates =>
    match parseDates env dates with
    | .error e => .error e
    | .ok parsed =>
      .ok { chainIds := chainIds, addresses := addresses, symbols := symbols,
            networks := networks, dates := parsed, datesStr := [] }
  | .post addresses networks chainIds symbols dates =>
    match readJsonDates env dates with
    | .error e => .error e
    | .ok (parsed, datesStr) =>
      .ok { chainIds := chainIds, addresses := addresses, symbols := symbols,
            networks := networks, dates := parsed, datesStr := datesStr }
  | .other method => .error ("Method not supported" ++ method)

/-- A loop that maps every element through a lookup that may fail; `wrap` turns the failure
of an element into the error returned. -/
def lookupAll (f : String → Except String String) (wrap : String → String → String) :
    List String → Except String (List String)
  | [] => .ok []
  | x :: rest =>
    match f x with
    | .error e => .error (wrap x e)
    | .ok y =>
      match lookupAll f wrap rest with
      | .error e => .error e
      | .ok ys => .ok (y :: ys)

/-- The rest of the handler up to the call of the resolver (price_controller.go 312-344):
chain ids and networks completed from one another, the length check, and `chainIds` rebuilt
from `networks`. The result holds the arguments of
`priceService.GetBatchHistoricalPrice(chainIds, addresses, symbols, networks, dates, datesStr)`. -/
def completeArgs (env : ControllerEnv) (p : HistoricalArgs) : Except String HistoricalArgs :=
  let filled : Except String (List String) :=
    if p.chainIds.length = 0 ∧ p.networks.length > 0 then
      match lookupAll env.getChainID (fun x _ => x ++ " Unsupported network") p.networks with
      | .error e => .error e
      | .ok _ => .ok p.networks
    else if p.networks.length = 0 ∧ p.chainIds.length > 0 then
      lookupAll env.getChainName (fun x _ => x ++ " Unsupported network") p.chainIds
    else .ok p.networks
  match filled with
  | .error e => .error e
  | .ok networks =>
    if p.addresses.length ≠ networks.length ∨ networks.length ≠ p.dates.length then
      .error "the lengths of the addresses and networks arrays must be the same"
    else
      match lookupAll env.getChainID (fun _ e => e) networks with
      | .error e => .error e
      | .ok chainIds =>
        .ok { chainIds := chainIds, addresses := p.addresses, symbols := p.symbols,
              networks := networks, dates := p.dates, datesStr := p.datesStr }

/-- Arguments with which the handler calls the resolver, or the error it returns before. -/
def batchHistoricalArgs (env : ControllerEnv) (req : BatchHistoricalRequest) :
    Except String HistoricalArgs :=
  match readRequest env req with
  | .error e => .error e
  | .ok p => completeArgs env p

/-- A sample controller environment: decimal dates only, and the one network `ethereum` with
chain id `1`. -/
def sampleControllerEnv : ControllerEnv :=
  { parseDay := fun _ => none
    parseInt := parseInt
    getChainID := fun network =>
      if network = "ethereum" then .ok "1" else .error "unsupported network"
    getChainName := fun chainId =>
      if chainId = "1" then .ok "ethereum" else .error "unsupported chain" }

/-! ## DefiLlama adapter: current prices of a batch -/

/-- Collaborators of `defiLlamaService.GetBatchCurrentPrices`: the clock (`nowUnix` for the
time stamps, `now` for the cache), `chainName` is `getChainNameById` (the empty string for a
chain that DefiLlama does not list; its error is always nil), `fetch batch` the `coins` object
of the upstream answer to `prices/current/{batch}` in visiting order (key, price as
`strconv.FormatFloat(·, 'f', -1, 64)` renders it, symbol), `none` when the request or its
decoding fails, and `ensureCoinExists chainId address` the error of that call. -/
structure LlamaEnv where
  nowUnix : Int
  now : Nat
  chainName : String → String
  fetch : List String → Option (List (String × String × String))
  ensureCoinExists : String → String → Option String

/-- Zero value of `PriceResult`, as `make([]PriceResult, n)` fills the slice. -/
def PriceResult.zero : PriceResult :=
  { ChainID := "", Address := "", Price := none, Symbol := none, Network := none,
    TimeStamp := "", RequestStatus := none, Serial := 0 }

/-- The first loop (defi_llama_service.go 309-320) from index `i`: the map `coinsToFetchMap`,
or `none` when a chain has no name and the function returns `nil, nil`. -/
def llamaKeyMap (env : LlamaEnv) :
    Nat → List (String × String) → List (String × Nat) → Option (List (String × Nat))
  | _, [], m => some m
  | i, (chainId, address) :: rest, m =>
    let chainName := env.chainName chainId
    if chainName = "" then none
    else llamaKeyMap env (i + 1) rest (mapSet m (chainName ++ ":" ++ address) i)

/-- The cache pass (defi_llama_service.go 327-343) from index `i`: the results so far and
`coinsToFetch`. -/
def llamaCachePass (env : LlamaEnv) (cachedPrices : List (String × String))
    (symbols networks : List String) (isCache : Bool) :
    Nat → List (String × String) → List PriceResult × List String
  | _, [] => ([], [])
  | i, (chainId, address) :: rest =>
    let r := llamaCachePass env cachedPrices symbols networks isCache (i + 1) rest
    match mapGet cachedPrices (chainId ++ "_" ++ address) with
    | some cachedPrice =>
      if isCache then
        ({ ChainID := chainId, Address := address, Price := some cachedPrice,
           Symbol := GetOrNil symbols i, Network := GetOrNil networks i,
           TimeStamp := toString env.nowUnix, RequestStatus := none, Serial := 0 } :: r.1, r.2)
      else
        (PriceResult.zero :: r.1,
          if env.chainName chainId ≠ "" then
            (env.chainName chainId ++ ":" ++ address) :: r.2
          else r.2)
    | none =>
      (PriceResult.zero :: r.1,
        if env.chainName chainId ≠ "" then (env.chainName chainId ++ ":" ++ address) :: r.2
        else r.2)

/-- The loop `for coinKey, data := range apiResult.Coins` (defi_llama_service.go 393-430): the
result is stored at `coinsToFetchMap[coinKey]`, index 0 for a key that is not in the map, and
the price is cached unless `ensureCoinExists` fails. -/
def llamaAbsorb (env : LlamaEnv) (chainIds addresses symbols networks : List String)
    (coinsToFetchMap : List (String × Nat)) :
    List (String × String × String) → Store × List PriceResult → Store × List PriceResult
  | [], acc => acc
  | (coinKey, priceStr, _) :: rest, (s, results) =>
    let i := (mapGet coinsToFetchMap coinKey).getD 0
    let results1 := results.set i
      { ChainID := chainIds.getD i "", Address := addresses.getD i "", Price := some priceStr,
        Symbol := GetOrNil symbols i, Network := GetOrNil networks i,
        TimeStamp := toString env.nowUnix, RequestStatus := none, Serial := 0 }
    match env.ensureCoinExists (chainIds.getD i "") (addresses.getD i "") with
    | some _ => llamaAbsorb env chainIds addresses symbols networks coinsToFetchMap rest (s, results1)
    | none =>
      llamaAbsorb env chainIds addresses symbols networks coinsToFetchMap rest
        (SetCurrentPriceCache s env.now (chainIds.getD i "" ++ "_" ++ addresses.getD i "") priceStr,
          results1)

/-- The slices `coinsToFetch[start:end]` of at most `size` keys; `fuel` bounds their number. -/
def llamaBatches (size : Nat) : Nat → List String → List (List String)
  | 0, _ => []
  | fuel + 1, l => if l = [] then [] else l.take size :: llamaBatches size fuel (l.drop size)

/-- Go `defiLlamaService.GetBatchCurrentPrices` (defi_llama_service.go 300-436) on a cache
that answers, with the goroutines of the batches of 50 taking the mutex in the order of the
batches: the cache afterwards and the `([]PriceResult, error)` returned. -/
def defiLlamaGetBatchCurrentPrices (env : LlamaEnv) (s : Store)
    (addresses chainIds symbols networks : List String) (isCache : Bool) :
    Store × Except String (List PriceResult) :=
  if chainIds.length ≠ addresses.length then
    (s, .error "chainIds 和 addresses 的长度必须相同")
  else
    let pairs := List.zip chainIds addresses
    match llamaKeyMap env 0 pairs [] with
    | none => (s, .ok [])
    | some coinsToFetchMap =>
      let coinIDs := pairs.map fun p => p.1 ++ "_" ++ p.2
      let cachedPrices := if isCache then GetCurrentPricesCache s env.now coinIDs else []
      let pass := llamaCachePass env cachedPrices symbols networks isCache 0 pairs
      let out := (llamaBatches 50 pass.2.length pass.2).foldl (fun acc batch =>
        match env.fetch batch with
        | none => acc
        | some coins =>
          llamaAbsorb env chainIds addresses symbols networks coinsToFetchMap coins acc)
        (s, pass.1)
      (out.1, .ok out.2)

/-- A sample environment: DefiLlama lists chain `1` as `ethereum` and no other chain, and
prices the token `ethereum:0xab` at `"1.5"`; it answers nothing for other keys. -/
def sampleLlamaEnv : LlamaEnv :=
  { nowUnix := 1700000000
    now := 1700000000
    chainName := fun chainId => if chainId = "1" then "ethereum" else ""
    fetch := fun batch =>
      some (batch.filterMap fun key =>
        if key = "ethereum:0xab" then some (key, "1.5", "TKN") else none)
    ensureCoinExists := fun _ _ => none }

/-- Chain, address and price of the results returned, `none` for an error. -/
def llamaSummary (r : Store × Except String (List PriceResult)) :
    Option (List (String × String × Option String)) :=
  match r.2 with
  | .ok results => some (results.map fun x => (x.ChainID, x.Address, x.Price))
  | .error _ => none

/-! # Theorems -/

/-! ## Go primitives -/

theorem splitChars_length_pos (sep : Char) (l : List Char) : 1 ≤ (splitChars sep l).length := by
  induction l with
  | nil => simp [splitChars]
  | cons c cs ih =>
    unfold splitChars
    split
    · simp
    · split
      · simp
      · simp

theorem splitChars_length_two (sep : Char) (l : List Char) (h : sep ∈ l) :
    2 ≤ (splitChars sep l).length := by
  induction l with
  | nil => simp at h
  | cons c cs ih =>
    unfold splitChars
    by_cases hc : c = sep
    · have := splitChars_length_pos sep cs
      simp [hc]; omega
    · have hmem : sep ∈ cs := by
        rcases List.mem_cons.1 h with h1 | h1
        · exact absurd h1.symm hc
        · exact h1
      have := ih hmem
      simp only [hc, if_false]
      split
      · rename_i heq; rw [heq] at this; simp at this
      · rename_i p ps heq; rw [heq] at this; simpa using this

theorem mapGet_filter_ne {κ β : Type} [DecidableEq κ] (m : List (κ × β)) (k k' : κ)
    (h : k' ≠ k) : mapGet (m.filter (fun p => decide (p.1 ≠ k))) k' = mapGet m k' := by
  induction m with
  | nil => rfl
  | cons p rest ih =>
    obtain ⟨k0, v⟩ := p
    simp only [ne_eq, decide_not] at ih ⊢
    by_cases h0 : k0 = k
    · subst h0
      have : k0 ≠ k' := fun e => h e.symm
      simp [List.filter, mapGet, this, ih]
    · simp [List.filter, h0, mapGet, ih]

theorem mapGet_mapSet {κ β : Type} [DecidableEq κ] (m : List (κ × β)) (k k' : κ) (v : β) :
    mapGet (mapSet m k v) k' = if k = k' then some v else mapGet m k' := by
  unfold mapSet
  by_cases h : k = k'
  · simp [mapGet, h]
  · have h' : k' ≠ k := fun e => h e.symm
    have := mapGet_filter_ne m k k' h'
    simp only [ne_eq, decide_not] at this
    simp [mapGet, h, this]

theorem hasUnderscore_join (c a : String) : HasUnderscore (c ++ "_" ++ a) := by
  unfold HasUnderscore
  simp [String.data_append]

theorem splitPair_isSome (x : String) (h : HasUnderscore x) : ∃ p, splitPair x = some p := by
  unfold splitPair splitUnderscore
  have h2 := splitChars_length_two '_' x.data h
  rcases hs : splitChars '_' x.data with _ | ⟨a, _ | ⟨b, tl⟩⟩
  · rw [hs] at h2; simp at h2
  · rw [hs] at h2; simp at h2
  · exact ⟨_, rfl⟩

theorem coinIDOf_isSome (x : String) (h : HasUnderscore x) : ∃ p, coinIDOf x = some p := by
  unfold coinIDOf splitUnderscore
  have h2 := splitChars_length_two '_' x.data h
  rcases hs : splitChars '_' x.data with _ | ⟨a, _ | ⟨b, tl⟩⟩
  · rw [hs] at h2; simp at h2
  · rw [hs] at h2; simp at h2
  · exact ⟨_, rfl⟩

/-! ## Resolver: no index panic -/

theorem aliasStep_good (m : AliasMaps) (coin : Coins) (hm : GoodAliasMaps m)
    (hc : HasUnderscore coin.ID) : GoodAliasMaps (aliasStep m coin) := by
  unfold aliasStep
  simp only
  split
  · refine ⟨?_, ?_⟩
    · intro k v hk
      simp only [mapGet_mapSet] at hk
      split at hk
      · cases hk; exact hasUnderscore_join _ _
      · exact hm.1 k v hk
    · intro k l hk x hx
      simp only [mapGet_mapSet] at hk
      split at hk
      · cases hk
        rcases List.mem_append.1 hx with h1 | h1
        · cases hg : mapGet m.retrunCoinToMap (coin.ChainID ++ "_" ++ coin.Address) with
          | none => rw [hg] at h1; simp at h1
          | some l0 => rw [hg] at h1; exact hm.2 _ l0 hg x h1
        · simp at h1; rw [h1]; exact hc
      · exact hm.2 k l hk x hx
  · exact ⟨hm.1, hm.2⟩

theorem foldl_aliasStep_good (coins : List Coins) (m : AliasMaps) (hm : GoodAliasMaps m)
    (hc : ∀ c ∈ coins, HasUnderscore c.ID) : GoodAliasMaps (coins.foldl aliasStep m) := by
  induction coins generalizing m with
  | nil => exact hm
  | cons c rest ih =>
    simp only [List.foldl_cons]
    exact ih _ (aliasStep_good m c hm (hc c (List.mem_cons_self _ _)))
      (fun c' h' => hc c' (List.mem_cons_of_mem _ h'))

theorem buildAliasMaps_good (coins : List Coins) (hc : ∀ c ∈ coins, HasUnderscore c.ID) :
    GoodAliasMaps (buildAliasMaps coins) := by
  unfold buildAliasMaps
  refine foldl_aliasStep_good coins _ ⟨?_, ?_⟩ hc
  · intro k v h; simp [mapGet] at h
  · intro k l h; simp [mapGet] at h

theorem fillSets_isSome (coinMap : List (String × Coins)) (ex : Bool) (ids : List String)
    (s : SourceSets) (h : ∀ id ∈ ids, HasUnderscore id) :
    ∃ s1, fillSets coinMap ex ids s = some s1 := by
  induction ids generalizing s with
  | nil => exact ⟨s, rfl⟩
  | cons id rest ih =>
    obtain ⟨c, hc⟩ := coinIDOf_isSome id (h id (List.mem_cons_self _ _))
    unfold fillSets fillStep
    simp only [hc]
    exact ih _ (fun x hx => h x (List.mem_cons_of_mem _ hx))

theorem fillSetsHistorical_isSome (coinMap : List (String × Coins)) (ids : List String)
    (s : SourceSets) (h : ∀ id ∈ ids, HasUnderscore id) :
    ∃ s1, fillSetsHistorical coinMap ids s = some s1 := by
  induction ids generalizing s with
  | nil => exact ⟨s, rfl⟩
  | cons id rest ih =>
    obtain ⟨c, hc⟩ := coinIDOf_isSome id (h id (List.mem_cons_self _ _))
    unfold fillSetsHistorical fillStepHistorical
    simp only [hc]
    exact ih _ (fun x hx => h x (List.mem_cons_of_mem _ hx))

theorem gather_isSome (env : Env) (ctx : FetchCtx) (hm : GoodAliasMaps ctx.maps)
    (l : List String) (g : Gathered) (st : FetchState) :
    ∃ r, gather env ctx l g st = some r := by
  induction l generalizing g st with
  | nil => exact ⟨_, rfl⟩
  | cons id rest ih =>
    unfold gather
    simp only
    split
    · exact ih _ _
    · cases hg : mapGet ctx.maps.retrunCoinMap id with
      | none => simp only; exact ih _ _
      | some v =>
        obtain ⟨p, hp⟩ := splitPair_isSome v (hm.1 id v hg)
        simp only [hp]
        exact ih _ _

theorem gatherHistorical_isSome (env : Env) (ctx : FetchCtx) (hm : GoodAliasMaps ctx.maps)
    (l : List String) (g : Gathered) (st : FetchState) :
    ∃ r, gatherHistorical env ctx l g st = some r := by
  induction l generalizing g st with
  | nil => exact ⟨_, rfl⟩
  | cons id rest ih =>
    unfold gatherHistorical
    simp only
    split
    · exact ih _ _
    · cases hg : mapGet ctx.maps.retrunCoinMap
          (ctx.chainIds.getD ((mapGet ctx.idToIndexMap id).getD 0) "" ++ "_"
            ++ ctx.lowerAddresses.getD ((mapGet ctx.idToIndexMap id).getD 0) "") with
      | none => simp only; exact ih _ _
      | some v =>
        obtain ⟨p, hp⟩ := splitPair_isSome v (hm.1 _ v hg)
        simp only [hp]
        exact ih _ _

theorem copyToAliases_isSome (result : PriceResult) (l : List String)
    (m : List (String × PriceResult)) (h : ∀ x ∈ l, HasUnderscore x) :
    ∃ m1, copyToAliases result l m = some m1 := by
  induction l generalizing m with
  | nil => exact ⟨_, rfl⟩
  | cons x rest ih =>
    obtain ⟨p, hp⟩ := splitPair_isSome x (h x (List.mem_cons_self _ _))
    unfold copyToAliases
    simp only [hp]
    exact ih _ (fun y hy => h y (List.mem_cons_of_mem _ hy))

theorem copyToAliasesHistorical_isSome (result : PriceResult) (l : List String)
    (m : List (String × PriceResult)) (h : ∀ x ∈ l, HasUnderscore x) :
    ∃ m1, copyToAliasesHistorical result l m = some m1 := by
  induction l generalizing m with
  | nil => exact ⟨_, rfl⟩
  | cons x rest ih =>
    obtain ⟨p, hp⟩ := splitPair_isSome x (h x (List.mem_cons_self _ _))
    unfold copyToAliasesHistorical
    simp only [hp]
    exact ih _ (fun y hy => h y (List.mem_cons_of_mem _ hy))

theorem aliasList_good (m : AliasMaps) (hm : GoodAliasMaps m) (key : String) :
    ∀ x ∈ (mapGet m.retrunCoinToMap key).getD [], HasUnderscore x := by
  intro x hx
  cases hg : mapGet m.retrunCoinToMap key with
  | none => rw [hg] at hx; simp at hx
  | some l => rw [hg] at hx; exact hm.2 key l hg x hx

theorem absorb_isSome (ctx : FetchCtx) (hm : GoodAliasMaps ctx.maps)
    (results : List PriceResult) (st : FetchState) :
    ∃ st1, absorb ctx results st = some st1 := by
  induction results generalizing st with
  | nil => exact ⟨_, rfl⟩
  | cons r rest ih =>
    unfold absorb
    simp only
    split
    · obtain ⟨m2, h2⟩ := copyToAliases_isSome r
        ((mapGet ctx.maps.retrunCoinToMap (r.ChainID ++ "_" ++ r.Address)).getD [])
        (mapSet st.resultsMap (r.ChainID ++ "_" ++ r.Address) r) (aliasList_good _ hm _)
      simp only [h2]
      exact ih _
    · exact ih _

theorem absorbHistorical_isSome (ctx : FetchCtx) (hm : GoodAliasMaps ctx.maps)
    (results : List PriceResult) (st : FetchState) :
    ∃ st1, absorbHistorical ctx results st = some st1 := by
  induction results generalizing st with
  | nil => exact ⟨_, rfl⟩
  | cons r rest ih =>
    unfold absorbHistorical
    simp only
    split
    · obtain ⟨m2, h2⟩ := copyToAliasesHistorical_isSome r
        ((mapGet ctx.maps.retrunCoinToMap (r.ChainID ++ "_" ++ r.Address)).getD [])
        (mapSet st.resultsMap (r.ChainID ++ "_" ++ r.Address ++ "_" ++ r.TimeStamp) r)
        (aliasList_good _ hm _)
      simp only [h2]
      exact ih _
    · exact ih _

theorem batchQuery_isSome (env : Env) (ctx : FetchCtx) (hm : GoodAliasMaps ctx.maps)
    (source : String) (idSet : List String) (st : FetchState) :
    ∃ st1, batchQuery env ctx source idSet st = some st1 := by
  unfold batchQuery
  split
  · exact ⟨_, rfl⟩
  · obtain ⟨⟨g, st1⟩, hg⟩ := gather_isSome env ctx hm (env.iter idSet) Gathered.empty st
    simp only [hg]
    split
    · exact absorb_isSome ctx hm _ _
    · exact ⟨_, rfl⟩

theorem batchQueryHistorical_isSome (env : Env) (ctx : FetchCtx) (hm : GoodAliasMaps ctx.maps)
    (source : String) (idSet : List String) (st : FetchState) :
    ∃ st1, batchQueryHistorical env ctx source idSet st = some st1 := by
  unfold batchQueryHistorical
  split
  · exact ⟨_, rfl⟩
  · obtain ⟨⟨g, st1⟩, hg⟩ :=
      gatherHistorical_isSome env ctx hm (env.iter idSet) Gathered.empty st
    simp only [hg]
    split
    · exact absorbHistorical_isSome ctx hm _ _
    · exact ⟨_, rfl⟩

theorem stage_isSome (env : Env) (ctx : FetchCtx) (hm : GoodAliasMaps ctx.maps)
    (source : String) (sel : SourceSets → List String) (st : FetchState) :
    ∃ st1, stage env ctx source sel st = some st1 := by
  unfold stage
  split
  · exact batchQuery_isSome env ctx hm _ _ _
  · exact ⟨_, rfl⟩

theorem stageHistorical_isSome (env : Env) (ctx : FetchCtx) (hm : GoodAliasMaps ctx.maps)
    (source : String) (sel : SourceSets → List String) (st : FetchState) :
    ∃ st1, stageHistorical env ctx source sel st = some st1 := by
  unfold stageHistorical
  split
  · exact batchQueryHistorical_isSome env ctx hm _ _ _
  · exact ⟨_, rfl⟩

theorem runStages_isSome (env : Env) (ctx : FetchCtx) (hm : GoodAliasMaps ctx.maps)
    (st : FetchState) : ∃ st1, runStages env ctx st = some st1 := by
  unfold runStages
  obtain ⟨s1, h1⟩ := stage_isSome env ctx hm "coingecko" (fun s => s.geckoIDsSetSource) st
  obtain ⟨s2, h2⟩ := stage_isSome env ctx hm "geckoterminal" (fun s => s.terminalIDsSetSource) s1
  obtain ⟨s3, h3⟩ := stage_isSome env ctx hm "defillama" (fun s => s.llamaIDsSetSource) s2
  obtain ⟨s4, h4⟩ := stage_isSome env ctx hm "coingecko" (fun s => s.geckoIDsSet) s3
  obtain ⟨s5, h5⟩ := stage_isSome env ctx hm "defillama" (fun s => s.llamaIDsSet) s4
  obtain ⟨s6, h6⟩ := stage_isSome env ctx hm "geckoterminal" (fun s => s.terminalIDsSet) s5
  obtain ⟨s7, h7⟩ := stage_isSome env ctx hm "coinGeckoOnChain" (fun s => s.geckoOnChainIDsSet) s6
  obtain ⟨s8, h8⟩ := stage_isSome env ctx hm "dodoexRoute" (fun s => s.dodoexIDsSet) s7
  exact ⟨s8, by simp [h1, h2, h3, h4, h5, h6, h7, h8]⟩

theorem runStagesHistorical_isSome (env : Env) (ctx : FetchCtx) (hm : GoodAliasMaps ctx.maps)
    (st : FetchState) : ∃ st1, runStagesHistorical env ctx st = some st1 := by
  unfold runStagesHistorical
  obtain ⟨s1, h1⟩ := stageHistorical_isSome env ctx hm "coingecko" (fun s => s.geckoIDsSetSource) st
  obtain ⟨s2, h2⟩ :=
    stageHistorical_isSome env ctx hm "geckoterminal" (fun s => s.terminalIDsSetSource) s1
  obtain ⟨s3, h3⟩ := stageHistorical_isSome env ctx hm "defillama" (fun s => s.llamaIDsSetSource) s2
  obtain ⟨s4, h4⟩ := stageHistorical_isSome env ctx hm "coingecko" (fun s => s.geckoIDsSet) s3
  obtain ⟨s5, h5⟩ := stageHistorical_isSome env ctx hm "defillama" (fun s => s.llamaIDsSet) s4
  obtain ⟨s6, h6⟩ := stageHistorical_isSome env ctx hm "geckoterminal" (fun s => s.terminalIDsSet) s5
  exact ⟨s6, by simp [h1, h2, h3, h4, h5, h6]⟩

theorem zipWith_ids_underscore (cs as : List String) :
    ∀ id ∈ List.zipWith (fun c a => c ++ "_" ++ a) cs as, HasUnderscore id := by
  intro id hid
  rw [List.mem_iff_getElem] at hid
  obtain ⟨i, hi, rfl⟩ := hid
  simp only [List.getElem_zipWith]
  exact hasUnderscore_join _ _

/-! ## C1: batch results keep length, order and address -/

theorem assemble_serial_address (env : Env) (m : List (String × PriceResult))
    (symbols networks : List String) (i : Nat) (c a : String) :
    (assemble env m symbols networks i c a).Serial = (i : Int) ∧
    (assemble env m symbols networks i c a).Address = a := by
  unfold assemble
  simp only
  split <;> exact ⟨rfl, rfl⟩

theorem keepsOrder_of_map (addresses : List String) (f : Nat → PriceResult)
    (hf : ∀ i, (f i).Serial = (i : Int) ∧ (f i).Address = addresses.getD i "") :
    KeepsOrder addresses ((List.range addresses.length).map f) := by
  refine ⟨by simp, ?_⟩
  intro i a hia
  have hi : i < addresses.length := by
    rcases Nat.lt_or_ge i addresses.length with h | h
    · exact h
    · rw [List.get?_eq_none.2 h] at hia; cases hia
  refine ⟨f i, ?_, (hf i).1, ?_⟩
  · simp [List.get?_eq_getElem?, List.getElem?_map, List.getElem?_range hi]
  · rw [(hf i).2]
    simp only [List.get?_eq_getElem?] at hia
    simp [List.getD_eq_getElem?_getD, hia]

theorem fetch_ok_keepsOrder (env : Env) (chainIds addresses symbols networks : List String)
    (isCache excludeRoute : Bool) (out : List PriceResult) (tr : List Event)
    (h : FetchAndProcessBatchPrices env chainIds addresses symbols networks isCache excludeRoute
      = .ok (out, tr)) : KeepsOrder addresses out := by
  unfold FetchAndProcessBatchPrices at h
  simp only at h
  split at h
  · cases h
  · split at h
    · cases h
    · split at h
      · cases h
      · split at h
        · cases h
        · injection h with h
          injection h with h1 h2
          subst h1
          exact keepsOrder_of_map addresses _ (fun i => assemble_serial_address _ _ _ _ _ _ _)

theorem historical_ok_keepsOrder (env : Env) (chainIds addresses symbols networks : List String)
    (unixTimeStamp : List Int) (datesStr : List String) (out : List PriceResult)
    (tr : List Event)
    (h : GetBatchHistoricalPrice env chainIds addresses symbols networks unixTimeStamp datesStr
      = .ok (out, tr)) : KeepsOrder addresses out := by
  unfold GetBatchHistoricalPrice at h
  simp only at h
  split at h
  · cases h
  · split at h
    · cases h
    · split at h
      · cases h
      · split at h
        · cases h
        · split at h
          · cases h
          · injection h with h
            injection h with h1 h2
            subst h1
            exact keepsOrder_of_map addresses _ (fun i => ⟨rfl, rfl⟩)

theorem wait_ok_keepsOrder (now : Int) (lower : String → String) (redisGet : String → Reply)
    (chainIds addresses symbols networks : List String) (resultMap : List (Nat × Option String))
    (hlen : chainIds.length = addresses.length) (out : List PriceResult)
    (h : WaitForBatchResults now lower redisGet chainIds addresses symbols networks resultMap
      = .ok out) : KeepsOrder addresses out := by
  unfold WaitForBatchResults at h
  simp only at h
  split at h
  · cases h
  · split at h
    · cases h
    · injection h with h
      subst h
      rw [hlen]
      refine ⟨by simp, ?_⟩
      intro i a hia
      have hi : i < addresses.length := by
        rcases Nat.lt_or_ge i addresses.length with h | h
        · exact h
        · rw [List.get?_eq_none.2 h] at hia; cases hia
      have ha : addresses.getD i "" = a := by
        simp only [List.get?_eq_getElem?] at hia
        simp [List.getD_eq_getElem?_getD, hia]
      simp only [List.get?_eq_getElem?, List.getElem?_map, List.getElem?_range hi,
        Option.map_some', hi, if_true]
      refine ⟨_, rfl, ?_⟩
      split
      · exact ⟨rfl, ha⟩
      · split
        · exact ⟨rfl, ha⟩
        · exact ⟨rfl, ha⟩

theorem fetch_returns (env : Env) (chainIds addresses symbols networks : List String)
    (isCache excludeRoute : Bool) (hlen : chainIds.length = addresses.length)
    (coins : List Coins) (hcoins : env.getCoinsByID (requestIds env chainIds addresses) = .ok coins)
    (hids : ∀ c ∈ coins, HasUnderscore c.ID) :
    ∃ out tr, FetchAndProcessBatchPrices env chainIds addresses symbols networks isCache
      excludeRoute = .ok (out, tr) := by
  unfold FetchAndProcessBatchPrices
  have hlt : ¬ chainIds.length < addresses.length := by omega
  simp only [hlt, if_false, hcoins]
  obtain ⟨sets, hsets⟩ := fillSets_isSome (buildAliasMaps coins).coinMap excludeRoute
    (requestIds env chainIds addresses) SourceSets.empty (zipWith_ids_underscore _ _)
  simp only [hsets]
  obtain ⟨st, hst⟩ := runStages_isSome env
    { chainIds := chainIds, lowerAddresses := addresses.map env.lower, symbols := symbols,
      networks := networks, unixTimeStamp := [], datesStr := [],
      idToIndexMap := buildIndexMap 0 (requestIds env chainIds addresses) [],
      maps := buildAliasMaps coins, isCache := isCache }
    (buildAliasMaps_good coins hids)
    { resultsMap := [], sets := sets, trace := [], calls := 0 }
  simp only [hst]
  exact ⟨_, _, rfl⟩

theorem historical_returns (env : Env) (chainIds addresses symbols networks : List String)
    (unixTimeStamp : List Int) (datesStr : List String)
    (hlen : chainIds.length = addresses.length) (ht : unixTimeStamp.length = addresses.length)
    (hd : datesStr.length = addresses.length)
    (coins : List Coins) (hcoins : env.getCoinsByID (requestIds env chainIds addresses) = .ok coins)
    (hids : ∀ c ∈ coins, HasUnderscore c.ID) :
    ∃ out tr, GetBatchHistoricalPrice env chainIds addresses symbols networks unixTimeStamp
      datesStr = .ok (out, tr) := by
  unfold GetBatchHistoricalPrice
  have hlt : ¬ (chainIds.length < addresses.length ∨ unixTimeStamp.length < addresses.length) := by
    omega
  have hlt2 : ¬ datesStr.length < addresses.length := by omega
  simp only [hlt, if_false, hcoins]
  have hu : ∀ id ∈ List.zipWith (fun ca (t : Int) => ca ++ "_" ++ toString t)
      (requestIds env chainIds addresses) unixTimeStamp, HasUnderscore id := by
    intro id hid
    rw [List.mem_iff_getElem] at hid
    obtain ⟨i, hi, rfl⟩ := hid
    simp only [List.getElem_zipWith]
    exact hasUnderscore_join _ _
  obtain ⟨sets, hsets⟩ := fillSetsHistorical_isSome (buildAliasMaps coins).coinMap _
    SourceSets.empty hu
  simp only [hsets]
  obtain ⟨st, hst⟩ := runStagesHistorical_isSome env
    { chainIds := chainIds, lowerAddresses := addresses.map env.lower, symbols := symbols,
      networks := networks, unixTimeStamp := unixTimeStamp, datesStr := datesStr,
      idToIndexMap := buildIndexMap 0 (List.zipWith (fun ca (t : Int) => ca ++ "_" ++ toString t)
        (requestIds env chainIds addresses) unixTimeStamp) [],
      maps := buildAliasMaps coins, isCache := false }
    (buildAliasMaps_good coins hids)
    { resultsMap := [], sets := sets, trace := [], calls := 0 }
  simp only [hst, hlt2, if_false]
  exact ⟨_, _, rfl⟩

theorem wait_returns (now : Int) (lower : String → String) (redisGet : String → Reply)
    (chainIds addresses symbols networks : List String) (resultMap : List (Nat × Option String))
    (hlen : chainIds.length = addresses.length) :
    (∃ out, WaitForBatchResults now lower redisGet chainIds addresses symbols networks resultMap
      = .ok out) ∨
    (∃ e, WaitForBatchResults now lower redisGet chainIds addresses symbols networks resultMap
      = .error e) := by
  unfold WaitForBatchResults
  have hlt : ¬ chainIds.length < addresses.length := by omega
  simp only [hlt, if_false]
  split
  · exact Or.inr ⟨_, rfl⟩
  · exact Or.inl ⟨_, rfl⟩

/-- C1: for inputs of one common length, every slice returned by `FetchAndProcessBatchPrices`,
by `WaitForBatchResults` (the coalesced `GetBatchPrice` path) and by `GetBatchHistoricalPrice`
has the length of the input and its `i`-th entry has `Serial = i` and `Address = addresses[i]`,
whatever the providers, throttle state and alias records are; and the calls do return a slice
once the coin-store read succeeds (for `WaitForBatchResults`: unless the pipeline fails). -/
theorem batch_results_keep_order (env : Env) (redisGet : String → Reply)
    (chainIds addresses symbols networks : List String) (isCache excludeRoute : Bool)
    (unixTimeStamp : List Int) (datesStr : List String) (resultMap : List (Nat × Option String))
    (hlen : chainIds.length = addresses.length) (ht : unixTimeStamp.length = addresses.length)
    (hd : datesStr.length = addresses.length) :
    ((∀ out tr, FetchAndProcessBatchPrices env chainIds addresses symbols networks isCache
        excludeRoute = .ok (out, tr) → KeepsOrder addresses out) ∧
     (∀ coins, env.getCoinsByID (requestIds env chainIds addresses) = .ok coins →
        (∀ c ∈ coins, HasUnderscore c.ID) →
        ∃ out tr, FetchAndProcessBatchPrices env chainIds addresses symbols networks isCache
          excludeRoute = .ok (out, tr) ∧ KeepsOrder addresses out)) ∧
    ((∀ out, WaitForBatchResults env.now env.lower redisGet chainIds addresses symbols networks
        resultMap = .ok out → KeepsOrder addresses out) ∧
     ((∃ out, WaitForBatchResults env.now env.lower redisGet chainIds addresses symbols networks
        resultMap = .ok out ∧ KeepsOrder addresses out) ∨
      (∃ e, WaitForBatchResults env.now env.lower redisGet chainIds addresses symbols networks
        resultMap = .error e))) ∧
    ((∀ out tr, GetBatchHistoricalPrice env chainIds addresses symbols networks unixTimeStamp
        datesStr = .ok (out, tr) → KeepsOrder addresses out) ∧
     (∀ coins, env.getCoinsByID (requestIds env chainIds addresses) = .ok coins →
        (∀ c ∈ coins, HasUnderscore c.ID) →
        ∃ out tr, GetBatchHistoricalPrice env chainIds addresses symbols networks unixTimeStamp
          datesStr = .ok (out, tr) ∧ KeepsOrder addresses out)) := by
  refine ⟨⟨?_, ?_⟩, ⟨?_, ?_⟩, ⟨?_, ?_⟩⟩
  · intro out tr h
    exact fetch_ok_keepsOrder _ _ _ _ _ _ _ _ _ h
  · intro coins hcoins hids
    obtain ⟨out, tr, h⟩ := fetch_returns env chainIds addresses symbols networks isCache
      excludeRoute hlen coins hcoins hids
    exact ⟨out, tr, h, fetch_ok_keepsOrder _ _ _ _ _ _ _ _ _ h⟩
  · intro out h
    exact wait_ok_keepsOrder _ _ _ _ _ _ _ _ hlen _ h
  · rcases wait_returns env.now env.lower redisGet chainIds addresses symbols networks resultMap
      hlen with ⟨out, h⟩ | ⟨e, h⟩
    · exact Or.inl ⟨out, h, wait_ok_keepsOrder _ _ _ _ _ _ _ _ hlen _ h⟩
    · exact Or.inr ⟨e, h⟩
  · intro out tr h
    exact historical_ok_keepsOrder _ _ _ _ _ _ _ _ _ h
  · intro coins hcoins hids
    obtain ⟨out, tr, h⟩ := historical_returns env chainIds addresses symbols networks
      unixTimeStamp datesStr hlen ht hd coins hcoins hids
    exact ⟨out, tr, h, historical_ok_keepsOrder _ _ _ _ _ _ _ _ _ h⟩

/-- Witness for C1: a batch with a duplicate id in two spellings, run in `sampleEnv`. -/
theorem batch_results_keep_order_witness :
    ∃ out tr, FetchAndProcessBatchPrices sampleEnv ["1", "1"] ["0xAB", "0xab"] ["", ""]
        ["", ""] true true = .ok (out, tr) ∧ KeepsOrder ["0xAB", "0xab"] out :=
  (batch_results_keep_order sampleEnv (fun _ => Reply.nil) ["1", "1"] ["0xAB", "0xab"]
    ["", ""] ["", ""] true true [0, 0] ["01-01-1970", "01-01-1970"] []
    (by decide) (by decide) (by decide)).1.2 [] rfl (by simp)

/-! ## C3: the shared queue holds each fingerprint once -/

theorem takeWhile_append_stop {α : Type} (p : α → Bool) (cs : List α) (x : α) (rest : List α)
    (hcs : ∀ c ∈ cs, p c = true) (hx : p x = false) :
    (cs ++ x :: rest).takeWhile p = cs := by
  induction cs with
  | nil => simp [List.takeWhile, hx]
  | cons c cs ih =>
    have hc := hcs c (List.mem_cons_self _ _)
    rw [List.cons_append, List.takeWhile_cons, hc]
    simp only [if_true]
    rw [ih (fun c' h' => hcs c' (List.mem_cons_of_mem _ h'))]

theorem firstField_append (ks rest : List Char) (hne : ks ≠ []) (hks : ∀ c ∈ ks, c ≠ '|') :
    firstField (ks ++ '|' :: rest) = some ks := by
  cases ks with
  | nil => exact absurd rfl hne
  | cons c cs =>
    have hc : c ≠ '|' := hks c (List.mem_cons_self _ _)
    unfold firstField
    have hd : (c :: cs ++ '|' :: rest).dropWhile (fun c => decide (c = '|'))
        = c :: cs ++ '|' :: rest := by
      simp [List.dropWhile, hc]
    rw [hd]
    simp only [List.cons_append]
    have := takeWhile_append_stop (fun c => decide (c ≠ '|')) (c :: cs) '|' rest
      (by intro c' h'; simpa using hks c' h') (by simp)
    simp only [List.cons_append] at this
    rw [this]

theorem fingerprint_chars (k : String) (h : IsFingerprint k) :
    k.data ≠ [] ∧ ∀ c ∈ k.data, c ≠ '|' := h

theorem requestKeyOf_record (k i : String) (h : IsRecordOf k i) : requestKeyOf i = some k := by
  obtain ⟨hf, chainId, address, symbol, network, rfl⟩ := h
  obtain ⟨hne, hpipe⟩ := fingerprint_chars k hf
  unfold requestKeyOf
  have : (k ++ "|" ++ chainId ++ "|" ++ address ++ "|" ++ symbol ++ "|" ++ network).data
      = k.data ++ '|' :: (chainId.data ++ '|' :: (address.data ++ '|' :: (symbol.data ++ '|' ::
          network.data))) := by
    simp [String.data_append]
  rw [this, firstField_append _ _ hne hpipe]
  rfl

theorem listRange_split (q : List String) (f : Int) (hf : f ≠ 0)
    (hne : listRange q 0 (f - 1) ≠ []) :
    ∃ n, listRange q 0 (f - 1) = q.take n ∧ listRange q f (-1) = q.drop n := by
  rcases lt_or_gt_of_ne hf with hneg | hpos
  · -- negative fetch size: the range counts from the tail
    have h1 : listRange q 0 (f - 1) = q.take ((q.length : Int) + f).toNat := by
      unfold listRange
      simp only
      have e1 : ¬ ((0 : Int) < 0) := by omega
      have e2 : f - 1 < 0 := by omega
      simp only [e1, e2, if_true, if_false]
      split
      · rename_i hc
        rcases hc with hc | hc
        · have : ((q.length : Int) + f).toNat = 0 := by omega
          rw [this]; simp
        · have : q.length = 0 := by omega
          have hq : q = [] := List.length_eq_zero.1 this
          subst hq; simp
      · rename_i hc
        have e3 : ¬ ((q.length : Int) + (f - 1) ≥ q.length) := by omega
        simp only [e3, if_false]
        have : ((q.length : Int) + (f - 1) - 0 + 1).toNat = ((q.length : Int) + f).toNat := by
          congr 1; omega
        rw [this]; simp
    have hlen : 1 ≤ (q.length : Int) + f := by
      by_contra hcon
      apply hne
      rw [h1]
      have : ((q.length : Int) + f).toNat = 0 := by omega
      rw [this]; simp
    refine ⟨((q.length : Int) + f).toNat, h1, ?_⟩
    unfold listRange
    simp only
    have e1 : f < 0 := hneg
    have e2 : (-1 : Int) < 0 := by omega
    have e3 : ¬ ((q.length : Int) + f < 0) := by omega
    simp only [e1, e2, e3, if_true, if_false]
    have e4 : ¬ ((q.length : Int) + f > (q.length : Int) + -1 ∨ (q.length : Int) + f ≥ q.length) := by
      omega
    have e5 : ¬ ((q.length : Int) + -1 ≥ q.length) := by omega
    simp only [e4, e5, if_false]
    apply List.take_of_length_le
    simp only [List.length_drop]
    omega
  · -- positive fetch size
    have h1 : listRange q 0 (f - 1) = q.take f.toNat := by
      unfold listRange
      simp only
      have e1 : ¬ ((0 : Int) < 0) := by omega
      have e2 : ¬ (f - 1 < 0) := by omega
      simp only [e1, e2, if_false]
      split
      · rename_i hc
        have : q.length = 0 := by
          rcases hc with hc | hc
          · exact absurd hc (by simp)
          · omega
        have hq : q = [] := List.length_eq_zero.1 this
        subst hq; simp
      · rename_i hc
        split
        · rename_i hge
          have : ((q.length : Int) - 1 - 0 + 1).toNat = q.length := by omega
          rw [this]
          simp only [Int.toNat_zero, List.drop_zero, List.take_length]
          symm
          apply List.take_of_length_le
          omega
        · rename_i hge
          have : (f - 1 - 0 + 1).toNat = f.toNat := by congr 1; omega
          rw [this]; simp
    refine ⟨f.toNat, h1, ?_⟩
    unfold listRange
    simp only
    have e1 : ¬ (f < 0) := by omega
    have e2 : (-1 : Int) < 0 := by omega
    simp only [e1, e2, if_true, if_false]
    split
    · rename_i hc
      symm
      apply List.drop_of_length_le
      omega
    · rename_i hc
      have e5 : ¬ ((q.length : Int) + -1 ≥ q.length) := by omega
      simp only [e5, if_false]
      apply List.take_of_length_le
      simp only [List.length_drop]
      omega

theorem sremAll_mem (rs : List String) (set : List String) (x : String) :
    x ∈ sremAll rs set ↔ x ∈ set ∧ some x ∉ rs.map requestKeyOf := by
  induction rs generalizing set with
  | nil => simp [sremAll]
  | cons r rest ih =>
    unfold sremAll
    cases hr : requestKeyOf r with
    | none =>
      simp only [ih, List.map_cons, List.mem_cons, hr]
      simp
    | some k =>
      simp only [ih, List.map_cons, List.mem_cons, hr, setDelete, List.mem_filter]
      constructor
      · rintro ⟨⟨h1, h2⟩, h3⟩
        refine ⟨h1, ?_⟩
        rintro (h | h)
        · simp at h2; simp at h; exact h2 h
        · exact h3 h
      · rintro ⟨h1, h2⟩
        refine ⟨⟨h1, ?_⟩, fun h => h2 (Or.inr h)⟩
        simp
        intro h
        exact h2 (Or.inl (by rw [h]))

theorem enqueueLoop_grows (ps : List (String × String)) (st : QueueState) (c : Int) (x : String)
    (hx : x ∈ st.unique_price_requests) : x ∈ (enqueueLoop ps st c).1.unique_price_requests := by
  induction ps generalizing st c with
  | nil => exact hx
  | cons p rest ih =>
    obtain ⟨k, i⟩ := p
    unfold enqueueLoop
    split
    · exact ih st c hx
    · exact ih _ _ (by simp [hx])

theorem fetchSizeOf_ne_zero (configured : Int) : fetchSizeOf configured ≠ 0 := by
  unfold fetchSizeOf
  split
  · decide
  · assumption

theorem countP_nodup_mem {α : Type} [DecidableEq α] (l : List α) (a : α) (hnd : l.Nodup)
    (ha : a ∈ l) : l.countP (fun x => decide (x = a)) = 1 := by
  induction l with
  | nil => simp at ha
  | cons x xs ih =>
    rw [List.nodup_cons] at hnd
    by_cases hx : x = a
    · subst hx
      have : xs.countP (fun y => decide (y = x)) = 0 := by
        rw [List.countP_eq_zero]
        intro y hy
        simp only [decide_eq_true_eq]
        intro h; rw [h] at hy; exact hnd.1 hy
      simp [List.countP_cons, this]
    · have ha' : a ∈ xs := by
        rcases List.mem_cons.1 ha with h | h
        · exact absurd h.symm hx
        · exact h
      simp [List.countP_cons, hx, ih hnd.2 ha']

/-- C2, the code at the failing input: the batch holds the plain id `1_0xb` (coin record
without price source) and its alias `1_0xa`. `defillama` is the first provider to price
`1_0xb` (at `"1"`), yet `geckoterminal` and `coinGeckoOnChain` are still called with its address
on behalf of the alias, which was never removed from the sets, and the price returned for
`1_0xb` is the later `"2"`. -/
theorem alias_in_batch_overrides_first_price :
    summary (FetchAndProcessBatchPrices aliasEnv ["1", "1"] ["0xb", "0xa"] [] [] true true)
      = ([some "2", some "2"],
         [("coingecko", ["0xb", "0xb"]), ("defillama", ["0xb", "0xb"]),
          ("geckoterminal", ["0xb"]), ("coinGeckoOnChain", ["0xb"])]) := by
  decide

/-! ## C5 and C6: throttler -/

theorem throttleKey_ne_countKey (a b : String) : throttleKey a ≠ throttleCountKey b := by
  intro h
  have := congrArg String.data h
  simp [throttleKey, throttleCountKey, String.data_append] at this

theorem throttleKey_ne_alertedKey (a b : String) : throttleKey a ≠ GetAlertedKey b := by
  intro h
  unfold GetAlertedKey at h
  split at h
  · have := congrArg String.length h
    simp [throttleKey, String.length_append] at this
    exact absurd this.1 (by decide)
  · have := congrArg String.data h
    simp [throttleKey, String.data_append] at this

theorem alertedKey_ne_countKey (a : String) : GetAlertedKey a ≠ throttleCountKey a := by
  intro h
  unfold GetAlertedKey at h
  split at h
  · have := congrArg String.data h
    simp [throttleCountKey, String.data_append] at this
  · have := congrArg String.length h
    simp only [throttleCountKey, String.length_append] at this
    have h2 : ":alerted".length = 8 := by decide
    omega

theorem existsKey_ne_countKey (a b : String) :
    "price:historical:exists:" ++ a ≠ throttleCountKey b := by
  intro h
  have := congrArg String.data h
  simp [throttleCountKey, String.data_append] at this

theorem incr_other (s : Store) (now : Nat) (key k : String) (h : k ≠ key) :
    (s.incr now key).1 k = s k := by
  unfold Store.incr
  split
  · simp [h]
  · split
    · rfl
    · split
      · rfl
      · simp [h]

theorem expire_other (s : Store) (now : Nat) (key k : String) (ttl : Nat) (h : k ≠ key) :
    (s.expire now key ttl) k = s k := by
  unfold Store.expire
  cases s.live now key with
  | none => rfl
  | some e => simp [h]

theorem set_other (s : Store) (now : Nat) (key val k : String) (ttl : Nat) (h : k ≠ key) :
    (s.set now key val ttl) k = s k := by
  simp [Store.set, h]

theorem set_same (s : Store) (now : Nat) (key val : String) (ttl : Nat) :
    (s.set now key val ttl) key = some { val := val, expireAt := some (now + ttl) } := by
  simp [Store.set]

theorem del_other (s : Store) (key k : String) (h : k ≠ key) : (s.del key) k = s k := by
  simp [Store.del, h]

theorem live_congr (s s' : Store) (now : Nat) (k : String) (h : s' k = s k) :
    s'.live now k = s.live now k := by
  simp [Store.live, h]

theorem throttled_of_entry (refuse : List (String × Int)) (s : Store) (now ttl : Nat)
    (coinsId : String) (hpos : 0 < ttl)
    (h : s (throttleKey coinsId) = some { val := "1", expireAt := some (now + ttl) }) :
    IsCoinsThrottled refuse s now coinsId = true := by
  unfold IsCoinsThrottled
  split
  · rfl
  · have hlt : now < now + ttl := by omega
    simp [Store.get, Store.live, h, hlt]

theorem counter_cases (r : Nat) (hr : r < 3) : r = 0 ∨ r = 1 ∨ r = 2 := by omega

theorem throttle_first (check : String → Except String Bool) (s : Store) (now : Nat)
    (id status : String) (hst : status ≠ "429")
    (h0 : s.live now (throttleCountKey id) = none) :
    (CoinsThrottle check s now id status).2 = false ∧
    (CoinsThrottle check s now id status).1 (throttleKey id)
      = some { val := "1", expireAt := some (now + 60) } ∧
    (∃ e, (CoinsThrottle check s now id status).1.live now (throttleCountKey id) = some e
      ∧ e.val = "1") ∧
    (∀ k, k ≠ throttleKey id → k ≠ throttleCountKey id →
      (CoinsThrottle check s now id status).1 k = s k) := by
  have hincr : s.incr now (throttleCountKey id)
      = (fun k => if k = throttleCountKey id then some { val := "1", expireAt := none } else s k,
          some 1) := by
    unfold Store.incr; rw [h0]
  have hlive1 : Store.live (fun k => if k = throttleCountKey id then
      some { val := "1", expireAt := none } else s k) now (throttleCountKey id)
      = some { val := "1", expireAt := none } := by
    simp [Store.live]
  have hct : CoinsThrottle check s now id status
      = (Store.set (fun k => if k = throttleCountKey id then
            some { val := "1", expireAt := some (now + 30 * 60) }
          else if k = throttleCountKey id then some { val := "1", expireAt := none } else s k)
          now (throttleKey id) "1" 60, false) := by
    unfold CoinsThrottle
    simp only [hst, if_false, hincr]
    simp [Store.expire, hlive1]
  rw [hct]
  refine ⟨rfl, set_same _ _ _ _ _, ?_, ?_⟩
  · refine ⟨{ val := "1", expireAt := some (now + 30 * 60) }, ?_, rfl⟩
    have hne := (throttleKey_ne_countKey id id).symm
    simp [Store.live, Store.set, hne]
  · intro k hk1 hk2
    simp [Store.set, hk1, hk2]

theorem throttle_second (check : String → Except String Bool) (s : Store) (now : Nat)
    (id status : String) (hst : status ≠ "429") (e : Entry)
    (h1 : s.live now (throttleCountKey id) = some e) (hv : e.val = "1") :
    (CoinsThrottle check s now id status).2 = false ∧
    (CoinsThrottle check s now id status).1 (throttleKey id)
      = some { val := "1", expireAt := some (now + 60) } ∧
    (∃ e2, (CoinsThrottle check s now id status).1.live now (throttleCountKey id) = some e2
      ∧ e2.val = "2") ∧
    (∀ k, k ≠ throttleKey id → k ≠ throttleCountKey id →
      (CoinsThrottle check s now id status).1 k = s k) := by
  have hp : parseInt e.val = some 1 := by rw [hv]; decide
  have hincr : s.incr now (throttleCountKey id)
      = (fun k => if k = throttleCountKey id then some { e with val := "2" } else s k,
          some 2) := by
    unfold Store.incr; rw [h1]; simp only [hp]
    have hb : ¬ ((1 : Int) < -(2 ^ 63) ∨ (1 : Int) + 1 > 2 ^ 63 - 1) := by decide
    simp only [hb, if_false]
    have ht : toString ((1 : Int) + 1) = "2" := by decide
    rw [ht]; rfl
  have hct : CoinsThrottle check s now id status
      = (Store.set (fun k => if k = throttleCountKey id then some { e with val := "2" } else s k)
          now (throttleKey id) "1" 60, false) := by
    unfold CoinsThrottle
    simp only [hst, if_false, hincr]
    have c1 : ¬ ((2 : Int) = 1) := by decide
    have c2 : ¬ ((2 : Int) ≥ 3) := by decide
    simp only [c1, c2, if_false]
  rw [hct]
  refine ⟨rfl, set_same _ _ _ _ _, ?_, ?_⟩
  · refine ⟨{ e with val := "2" }, ?_, rfl⟩
    have hne := (throttleKey_ne_countKey id id).symm
    have hs : s (throttleCountKey id) = some e ∧
        (e.expireAt = none ∨ ∃ t, e.expireAt = some t ∧ now < t) := by
      unfold Store.live at h1
      cases hsk : s (throttleCountKey id) with
      | none => rw [hsk] at h1; simp at h1
      | some e0 =>
        rw [hsk] at h1
        simp only at h1
        cases hex : e0.expireAt with
        | none => rw [hex] at h1; simp at h1; subst h1; exact ⟨rfl, Or.inl hex⟩
        | some t =>
          rw [hex] at h1
          simp only at h1
          split at h1
          · rename_i hlt; simp at h1; subst h1; exact ⟨rfl, Or.inr ⟨t, hex, hlt⟩⟩
          · cases h1
    rcases hs.2 with hn | ⟨t, ht, hlt⟩
    · simp [Store.live, Store.set, hne, hn]
    · simp [Store.live, Store.set, hne, ht, hlt]
  · intro k hk1 hk2
    simp [Store.set, hk1, hk2]

theorem hasHistorical_congr (s s' : Store) (now : Nat) (id : String)
    (h : s' ("price:historical:exists:" ++ id) = s ("price:historical:exists:" ++ id)) :
    HasHistoricalPriceCache s' now id = HasHistoricalPriceCache s now id := by
  simp [HasHistoricalPriceCache, Store.get, Store.live, h]

theorem throttle_third (check : String → Except String Bool) (s : Store) (now : Nat)
    (id status : String) (hst : status ≠ "429") (e : Entry)
    (h1 : s.live now (throttleCountKey id) = some e) (hv : e.val = "2")
    (coinExists : Bool) (hcheck : check id = .ok coinExists) :
    (CoinsThrottle check s now id status).2 = true ∧
    (CoinsThrottle check s now id status).1 (throttleKey id)
      = some { val := "1", expireAt := some (now + lockoutSeconds s now id coinExists) } ∧
    (CoinsThrottle check s now id status).1 (throttleCountKey id) = none ∧
    (∀ k, k ≠ throttleKey id → k ≠ throttleCountKey id → k ≠ GetAlertedKey id →
      (CoinsThrottle check s now id status).1 k = s k) := by
  have hp : parseInt e.val = some 2 := by rw [hv]; decide
  have hincr : s.incr now (throttleCountKey id)
      = (fun k => if k = throttleCountKey id then some { e with val := "3" } else s k,
          some 3) := by
    unfold Store.incr; rw [h1]; simp only [hp]
    have hb : ¬ ((2 : Int) < -(2 ^ 63) ∨ (2 : Int) + 1 > 2 ^ 63 - 1) := by decide
    simp only [hb, if_false]
    have ht : toString ((2 : Int) + 1) = "3" := by decide
    rw [ht]; rfl
  have hlock : lockoutSeconds (fun k => if k = throttleCountKey id then
      some { e with val := "3" } else s k) now id coinExists = lockoutSeconds s now id coinExists := by
    unfold lockoutSeconds
    rw [hasHistorical_congr s _ now id (by simp [existsKey_ne_countKey])]
  have hct : CoinsThrottle check s now id status
      = (Store.del
          (if (Store.incr (Store.set (fun k => if k = throttleCountKey id then
                some { e with val := "3" } else s k) now (throttleKey id) "1"
                (lockoutSeconds s now id coinExists)) now (GetAlertedKey id)).2 = some 1 then
              Store.expire (Store.incr (Store.set (fun k => if k = throttleCountKey id then
                some { e with val := "3" } else s k) now (throttleKey id) "1"
                (lockoutSeconds s now id coinExists)) now (GetAlertedKey id)).1 now
                (GetAlertedKey id) (60 * 24 * 60)
            else (Store.incr (Store.set (fun k => if k = throttleCountKey id then
                some { e with val := "3" } else s k) now (throttleKey id) "1"
                (lockoutSeconds s now id coinExists)) now (GetAlertedKey id)).1)
          (throttleCountKey id), true) := by
    unfold CoinsThrottle
    simp only [hst, if_false, hincr]
    have c1 : ¬ ((3 : Int) = 1) := by decide
    have c2 : (3 : Int) ≥ 3 := by decide
    simp only [c1, c2, if_false, if_true, hcheck, hlock]
  rw [hct]
  dsimp only
  have hta := throttleKey_ne_alertedKey id id
  have htc := throttleKey_ne_countKey id id
  refine ⟨rfl, ?_, ?_, ?_⟩
  · rw [del_other _ _ _ htc]
    split
    · rw [expire_other _ _ _ _ _ hta, incr_other _ _ _ _ hta, set_same]
    · rw [incr_other _ _ _ _ hta, set_same]
  · simp [Store.del]
  · intro k hk1 hk2 hk3
    rw [del_other _ _ _ hk2]
    split
    · rw [expire_other _ _ _ _ _ hk3, incr_other _ _ _ _ hk3, set_other _ _ _ _ _ _ hk1]
      simp [hk2]
    · rw [incr_other _ _ _ _ hk3, set_other _ _ _ _ _ _ hk1]
      simp [hk2]

theorem lockoutSeconds_pos (s : Store) (now : Nat) (id : String) (ce : Bool) :
    0 < lockoutSeconds s now id ce := by
  unfold lockoutSeconds
  split
  · decide
  · split <;> decide

theorem storeAfter_snoc (check : String → Except String Bool) (now : Nat) (id : String)
    (pre : List String) (x : String) (s : Store) :
    storeAfter check now id (pre ++ [x]) s
      = (CoinsThrottle check (storeAfter check now id pre s) now id x).1 := by
  simp [storeAfter, List.foldl_append]

theorem live_none_of_none (s : Store) (now : Nat) (k : String) (h : s k = none) :
    s.live now k = none := by
  simp [Store.live, h]

theorem storeAfter_counter (check : String → Except String Bool) (now : Nat) (id : String)
    (ce : Bool) (hcheck : check id = .ok ce) (pre : List String) (s : Store)
    (hpre : ∀ st ∈ pre, st ≠ "429") (h0 : s.live now (throttleCountKey id) = none) :
    CounterAt (storeAfter check now id pre s) now id (pre.length % 3) := by
  induction pre using List.reverseRecOn with
  | nil => simp [CounterAt, storeAfter, h0]
  | append_singleton pre x ih =>
    have hx : x ≠ "429" := hpre x (by simp)
    have ih' := ih (fun st hst => hpre st (by simp [hst]))
    rw [storeAfter_snoc]
    have hm : pre.length % 3 < 3 := Nat.mod_lt _ (by decide)
    have hlen : (pre ++ [x]).length % 3 = (pre.length % 3 + 1) % 3 := by
      simp [List.length_append, Nat.add_mod]
    rw [hlen]
    rcases counter_cases _ hm with h | h | h
    · rw [h] at ih' ⊢
      simp only [CounterAt, if_true] at ih'
      obtain ⟨_, _, ⟨e, he, hv⟩, _⟩ := throttle_first check _ now id x hx ih'
      simp only [CounterAt]
      exact ⟨e, he, hv⟩
    · rw [h] at ih' ⊢
      simp only [CounterAt] at ih'
      obtain ⟨e, he, hv⟩ := ih'
      obtain ⟨_, _, ⟨e2, he2, hv2⟩, _⟩ := throttle_second check _ now id x hx e he hv
      simp only [CounterAt]
      exact ⟨e2, he2, hv2⟩
    · rw [h] at ih' ⊢
      simp only [CounterAt] at ih'
      obtain ⟨e, he, hv⟩ := ih'
      obtain ⟨_, _, hnone, _⟩ := throttle_third check _ now id x hx e he hv ce hcheck
      simp only [CounterAt]
      exact live_none_of_none _ _ _ hnone

/-- C5: with the counter key absent, no key expiring (all calls at one instant) and no failing
cache or store call, the `k`-th of consecutive `CoinsThrottle(id, status)` calls with
`status ≠ "429"` returns true exactly when `k` is a multiple of 3; the first and second call of
a cycle set `coins_throttle:{id}` with a 60-second TTL, the third sets it with the lockout TTL
and deletes the counter; and `IsCoinsThrottled(id)` is true after every such call. -/
theorem throttle_every_third_failure (check : String → Except String Bool) (s : Store)
    (now : Nat) (id : String) (pre : List String) (status : String) (coinExists : Bool)
    (hpre : ∀ st ∈ pre, st ≠ "429") (hst : status ≠ "429")
    (h0 : s.live now (throttleCountKey id) = none) (hcheck : check id = .ok coinExists) :
    ((CoinsThrottle check (storeAfter check now id pre s) now id status).2
        = decide ((pre.length + 1) % 3 = 0)) ∧
    ((pre.length + 1) % 3 ≠ 0 →
      (CoinsThrottle check (storeAfter check now id pre s) now id status).1 (throttleKey id)
        = some { val := "1", expireAt := some (now + 60) }) ∧
    ((pre.length + 1) % 3 = 0 →
      (CoinsThrottle check (storeAfter check now id pre s) now id status).1 (throttleKey id)
        = some { val := "1", expireAt := some (now +
            lockoutSeconds (storeAfter check now id pre s) now id coinExists) } ∧
      (CoinsThrottle check (storeAfter check now id pre s) now id status).1 (throttleCountKey id)
        = none) ∧
    (∀ refuse : List (String × Int),
      IsCoinsThrottled refuse
        (CoinsThrottle check (storeAfter check now id pre s) now id status).1 now id = true) := by
  have hc := storeAfter_counter check now id coinExists hcheck pre s hpre h0
  have hm : pre.length % 3 < 3 := Nat.mod_lt _ (by decide)
  rcases counter_cases _ hm with h | h | h
  · rw [h] at hc
    simp only [CounterAt, if_true] at hc
    obtain ⟨hr, hk, _, _⟩ := throttle_first check _ now id status hst hc
    have hk3 : (pre.length + 1) % 3 = 1 := by omega
    refine ⟨by rw [hr, hk3]; rfl, fun _ => hk, fun h3 => by omega, fun refuse => ?_⟩
    exact throttled_of_entry refuse _ now 60 id (by decide) hk
  · rw [h] at hc
    simp only [CounterAt] at hc
    obtain ⟨e, he, hv⟩ := hc
    obtain ⟨hr, hk, _, _⟩ := throttle_second check _ now id status hst e he hv
    have hk3 : (pre.length + 1) % 3 = 2 := by omega
    refine ⟨by rw [hr, hk3]; rfl, fun _ => hk, fun h3 => by omega, fun refuse => ?_⟩
    exact throttled_of_entry refuse _ now 60 id (by decide) hk
  · rw [h] at hc
    simp only [CounterAt] at hc
    obtain ⟨e, he, hv⟩ := hc
    obtain ⟨hr, hk, hnone, _⟩ := throttle_third check _ now id status hst e he hv coinExists hcheck
    have hk3 : (pre.length + 1) % 3 = 0 := by omega
    refine ⟨by rw [hr, hk3]; rfl, fun hne => absurd hk3 hne, fun _ => ⟨hk, hnone⟩,
      fun refuse => ?_⟩
    exact throttled_of_entry refuse _ now _ id (lockoutSeconds_pos _ _ _ _) hk

/-- Witness for C5: three failures of an unknown coin on an empty cache; the third call
returns true. -/
theorem throttle_every_third_failure_witness :
    (CoinsThrottle (fun _ => .ok false)
      (storeAfter (fun _ => .ok false) 0 "1_0xab" ["200", "200"] Store.empty) 0 "1_0xab" "200").2
      = true :=
  (throttle_every_third_failure (fun _ => .ok false) Store.empty 0 "1_0xab" ["200", "200"] "200"
    false (by decide) (by decide) rfl rfl).1

/-- C6 as stated fails on a refused chain: chain `128` is in `RefuseChainIdMap`, so after
`CoinsThrottle("128_0xab", "429")` at instant 0 the coin is still reported throttled at
second 181, after the 3-minute key has expired. -/
theorem refused_chain_throttled_after_three_minutes :
    IsCoinsThrottled RefuseChainIdMap
      (CoinsThrottle (fun _ => .ok true) Store.empty 0 "128_0xab" "429").1 181 "128_0xab"
      = true := by
  decide

/-- C6 amended: `CoinsThrottle(id, "429")` sets `coins_throttle:{id}` to `"1"` with a TTL of
3 minutes, returns false and leaves the failure counter and the alert flag unchanged; with no
other throttle call `IsCoinsThrottled(id)` is true during the next 3 minutes and afterwards it
is true exactly when the chain of `id` is in the refuse-list, so false for every other coin. -/
theorem throttle_429_three_minutes (check : String → Except String Bool)
    (refuse : List (String × Int)) (s : Store) (now : Nat) (id : String) :
    (CoinsThrottle check s now id "429").2 = false ∧
    (CoinsThrottle check s now id "429").1 (throttleKey id)
      = some { val := "1", expireAt := some (now + 3 * 60) } ∧
    (CoinsThrottle check s now id "429").1 (throttleCountKey id) = s (throttleCountKey id) ∧
    (CoinsThrottle check s now id "429").1 (GetAlertedKey id) = s (GetAlertedKey id) ∧
    (∀ t, t < now + 3 * 60 →
      IsCoinsThrottled refuse (CoinsThrottle check s now id "429").1 t id = true) ∧
    (∀ t, now + 3 * 60 ≤ t →
      IsCoinsThrottled refuse (CoinsThrottle check s now id "429").1 t id
        = (mapGet refuse (chainOf id)).isSome) := by
  have hct : CoinsThrottle check s now id "429"
      = (s.set now (throttleKey id) "1" (3 * 60), false) := by
    unfold CoinsThrottle; simp
  rw [hct]
  dsimp only
  refine ⟨rfl, set_same _ _ _ _ _, ?_, ?_, ?_, ?_⟩
  · exact set_other _ _ _ _ _ _ (throttleKey_ne_countKey id id).symm
  · exact set_other _ _ _ _ _ _ (throttleKey_ne_alertedKey id id).symm
  · intro t ht
    unfold IsCoinsThrottled
    split
    · rfl
    · simp [Store.get, Store.live, Store.set, ht]
  · intro t ht
    unfold IsCoinsThrottled
    split
    · rename_i h; rw [h]
    · rename_i h
      have hlt : ¬ t < now + 3 * 60 := by omega
      simp [Store.get, Store.live, Store.set, hlt, h]

/-- Witness for the amended C6: a coin on chain 1, throttled by a 429 at instant 100, is
reported throttled at second 279 and no longer at second 280. -/
theorem throttle_429_three_minutes_witness :
    IsCoinsThrottled RefuseChainIdMap
        (CoinsThrottle (fun _ => .ok true) Store.empty 100 "1_0xab" "429").1 279 "1_0xab" = true ∧
    IsCoinsThrottled RefuseChainIdMap
        (CoinsThrottle (fun _ => .ok true) Store.empty 100 "1_0xab" "429").1 280 "1_0xab"
      = (mapGet RefuseChainIdMap (chainOf "1_0xab")).isSome :=
  ⟨(throttle_429_three_minutes (fun _ => .ok true) RefuseChainIdMap Store.empty 100 "1_0xab").2.2.2.2.1
      279 (by decide),
   (throttle_429_three_minutes (fun _ => .ok true) RefuseChainIdMap Store.empty 100 "1_0xab").2.2.2.2.2
      280 (by decide)⟩

/-! ## C7: alias chains resolve to the final record under the looked-up id -/

theorem aliasChain_end (cache : CoinCache) (id : String) (z : Coins) (n : Nat)
    (h : AliasChain cache id z n) : ¬ (z.Address = "" ∨ z.ChainID = "") := by
  induction h with
  | last _ _ _ _ _ ha hcid => exact fun h => h.elim ha hcid
  | step _ _ _ _ _ _ _ _ _ _ ih => exact ih

/-- C7: when the `returnCoinsId` chain from `A` ends, after `n` steps, at a cached record `Z`
with empty `returnCoinsId` and non-empty address and chain id, `GetCoinsByOneID(A)` terminates
(any fuel above `n` suffices) and returns `Z` with its id replaced by `A`, and afterwards the
cache entry under `A`'s key is that returned copy. -/
theorem getCoinsByOneID_follows_chain (cache : CoinCache) (A : String) (Z : Coins) (n : Nat)
    (hchain : AliasChain cache A Z n) (fuel : Nat) (hfuel : n < fuel) :
    ∃ cache1, GetCoinsByOneID fuel cache A = some (cache1, .ok (some { Z with ID := A })) ∧
      cache1 ("coins:" ++ A) = some { coin := { Z with ID := A }, decodes := true } := by
  induction hchain generalizing fuel with
  | last id z hc hid hret ha hcid =>
    obtain ⟨f, rfl⟩ : ∃ f, fuel = f + 1 := ⟨fuel - 1, by omega⟩
    have hz : { z with ID := id } = z := by rw [← hid]
    refine ⟨cache, ?_, ?_⟩
    · unfold GetCoinsByOneID
      simp only [hc, hret, hz]
      rfl
    · rw [hz]; exact hc
  | step id next c z n hc hid hret hnext hrest ih =>
    obtain ⟨f, rfl⟩ : ∃ f, fuel = f + 1 := ⟨fuel - 1, by omega⟩
    obtain ⟨cache1, hrec, _⟩ := ih f (by omega)
    have hne : nonEmpty (some next) = true := by
      simp [nonEmpty, hnext]
    refine ⟨cache1.set ("coins:" ++ id) { z with ID := id }, ?_, ?_⟩
    · unfold GetCoinsByOneID
      simp only [hc, hret, hne, if_true, Option.getD_some, hrec]
      unfold finishAlias
      have hcond := aliasChain_end cache next z n hrest
      simp only [hcond, if_false, hid]
    · simp [CoinCache.set]

/-- Witness for C7: the chain `1_0xa → 1_0xm → 1_0xz` resolved with fuel 3. -/
theorem getCoinsByOneID_follows_chain_witness :
    ∃ cache1, GetCoinsByOneID 3 chainCache "1_0xa"
        = some (cache1, .ok (some { chainEnd with ID := "1_0xa" })) ∧
      cache1 ("coins:" ++ "1_0xa")
        = some { coin := { chainEnd with ID := "1_0xa" }, decodes := true } :=
  getCoinsByOneID_follows_chain chainCache "1_0xa" chainEnd 2
    (AliasChain.step "1_0xa" "1_0xm" chainHead chainEnd 1 (by decide) rfl rfl (by decide)
      (AliasChain.step "1_0xm" "1_0xz" chainMid chainEnd 0 (by decide) rfl rfl (by decide)
        (AliasChain.last "1_0xz" chainEnd (by decide) rfl rfl (by decide) (by decide))))
    3 (by decide)

/-! ## C8 and C9: historical-price store -/

theorem execPipe_strings (cmds : List PipeCmd) (st : HistState) :
    (execPipe cmds st).strings = st.strings := by
  induction cmds generalizing st with
  | nil => rfl
  | cons c rest ih =>
    cases c <;> simp [execPipe, ih]

theorem processQueueWithTransaction_strings (env : HistEnv) (st : HistState) :
    (processQueueWithTransaction env st).1.strings = st.strings := by
  unfold processQueueWithTransaction
  split <;> rfl

theorem processQueueFrom_strings (env : HistEnv) (st : HistState) (t left : Nat) (key : String)
    (hkey : key ≠ "lock:historical_prices_queue") :
    (processQueueFrom env st t left).1.strings key = st.strings key := by
  induction left generalizing t with
  | zero => rfl
  | succ left ih =>
    unfold processQueueFrom
    unfold AcquireLock
    cases hl : st.strings.live t "lock:historical_prices_queue" with
    | some e => simp only; exact ih (t + 1)
    | none =>
      simp only
      rw [del_other _ _ _ hkey, processQueueWithTransaction_strings]
      exact set_other _ _ _ _ _ _ hkey

theorem historicalPriceKey_ne_lock (c d : String) :
    historicalPriceKey c d ≠ "lock:historical_prices_queue" := by
  intro h
  have := congrArg String.data h
  simp [historicalPriceKey, String.data_append] at this

theorem setHistoricalPriceCache_key (today : String) (s : Store) (now : Nat) (c d p : String) :
    SetHistoricalPriceCache today s now c d p (historicalPriceKey c d)
      = some { val := p, expireAt := some (now + historicalTtl today d) } := by
  unfold SetHistoricalPriceCache
  exact set_same _ _ _ _ _

theorem order_singleton (order : Nat → List String → List String) (h : VisitsAll order)
    (n : Nat) (k : String) : order n [k] = [k] :=
  List.perm_singleton.1 (h n [k])

theorem save_single_caches (env : HistEnv) (st : HistState) (r : CoinHistoricalPrice)
    (horder : VisitsAll env.order) :
    (SaveHistoricalPrices env st [r]).1.strings (historicalPriceKey r.CoinID r.DayDate)
      = some { val := r.Price, expireAt := some (env.now + historicalTtl env.today r.DayDate) } := by
  have hpass : ∀ (b : List (String × Bool)) (s : Store) (pipe : List PipeCmd),
      (savePass env [(historicalSetKey r, r)] b [historicalSetKey r] s pipe).1
        = SetHistoricalPriceCache env.today s env.now r.CoinID r.DayDate r.Price := by
    intro b s pipe
    simp only [savePass, mapGet, if_true]
    split <;> rfl
  unfold SaveHistoricalPrices
  simp only [List.length_singleton, one_ne_zero, if_false, List.foldl_cons, List.foldl_nil,
    mapSet, List.filter_nil, List.map_cons, List.map_nil, order_singleton env.order horder]
  split
  · unfold HistProcessQueue
    rw [processQueueFrom_strings _ _ _ _ _ (historicalPriceKey_ne_lock _ _), execPipe_strings]
    simp only
    rw [hpass]
    exact setHistoricalPriceCache_key _ _ _ _ _ _
  · simp only
    rw [execPipe_strings]
    simp only
    rw [hpass]
    exact setHistoricalPriceCache_key _ _ _ _ _ _

theorem queryMissing_nil (env : HistEnv) (l : List String) (rs : ReadState) :
    queryMissing env [] l rs = rs := by
  induction l generalizing rs with
  | nil => rfl
  | cons c rest ih => simp [queryMissing, mapGet, queryDays, ih]

/-- C8: for a historical price record (coin `c`, unix date, day `d`, non-empty price `p`) and a
timestamp `t` whose `DD-MM-YYYY` day is `d`: after `SaveHistoricalPrices([record])`, on a cache
that answers every command and whether or not a drain it triggers fails,
`GetHistoricalPrices([c], [t])` returns a map whose entry for `c + "_" + d` is `p`, for `d`
today or a past day, as long as the cache entry has not expired (24 h for today, 72 h
otherwise). -/
theorem historical_price_round_trip (env env1 : HistEnv) (st : HistState)
    (r : CoinHistoricalPrice) (t : Int) (horder : VisitsAll env.order) (hp : r.Price ≠ "")
    (hday : env1.dayOf t = r.DayDate)
    (hlive : env1.now < env.now + historicalTtl env.today r.DayDate) :
    ∃ rs, GetHistoricalPrices env1 (SaveHistoricalPrices env st [r]).1.strings [r.CoinID] [t]
        = .ok rs ∧
      mapGet rs.priceMap (r.CoinID ++ "_" ++ r.DayDate) = some r.Price := by
  have hc := save_single_caches env st r horder
  have hget : GetHistoricalPriceCache (SaveHistoricalPrices env st [r]).1.strings env1.now
      r.CoinID r.DayDate = some r.Price := by
    simp [GetHistoricalPriceCache, Store.get, Store.live, hc, hlive]
  have hread : readPass env1.today (SaveHistoricalPrices env st [r]).1.strings env1.now
      [(r.CoinID, r.DayDate)] [] []
      = (mapSet [] (r.CoinID ++ "_" ++ r.DayDate) r.Price, []) := by
    simp only [readPass, hget, hp, ne_eq, not_false_eq_true, if_true]
  refine ⟨{ priceMap := mapSet [] (r.CoinID ++ "_" ++ r.DayDate) r.Price,
            strings := (SaveHistoricalPrices env st [r]).1.strings, queries := [] }, ?_, ?_⟩
  · unfold GetHistoricalPrices
    simp only [List.length_singleton, lt_irrefl, if_false, List.map_cons, List.map_nil,
      List.zip_cons_cons, List.zip_nil_right, hday, hread, queryMissing_nil]
  · simp [mapGet_mapSet]

/-- Witness for C8: yesterday's price of `1_0xab`, read back one hour after it was saved. -/
theorem historical_price_round_trip_witness :
    ∃ rs, GetHistoricalPrices { sampleHistEnv with now := sampleHistEnv.now + 3600 }
        (SaveHistoricalPrices sampleHistEnv HistState.empty [samplePrice "3500.25"]).1.strings
        ["1_0xab"] [1793404800] = .ok rs ∧
      mapGet rs.priceMap ("1_0xab" ++ "_" ++ "31-10-2026") = some "3500.25" :=
  historical_price_round_trip sampleHistEnv { sampleHistEnv with now := sampleHistEnv.now + 3600 }
    HistState.empty (samplePrice "3500.25") 1793404800 (fun _ _ => List.Perm.refl _)
    (by decide) rfl (by decide)

/-- C9, the code at the failing input: `SaveHistoricalPrices` called twice for the same coin
and day, first with price `"1.0"`, then with `"2.0"`, nothing drained in between. The
replacement loop runs over the result of an `LRANGE` that is still waiting on the pipeline, so
it sees no record and queues no `LSET`: the pending list still holds the one record with the
first price, while the cache already answers with the second. -/
theorem second_save_leaves_first_price_queued :
    ((SaveHistoricalPrices sampleHistEnv
        (SaveHistoricalPrices sampleHistEnv HistState.empty [samplePrice "1.0"]).1
        [samplePrice "2.0"]).1.queue.map fun p => (p.CoinID, p.DayDate, p.Price))
      = [("1_0xab", "31-10-2026", "1.0")] ∧
    GetHistoricalPriceCache
      (SaveHistoricalPrices sampleHistEnv
        (SaveHistoricalPrices sampleHistEnv HistState.empty [samplePrice "1.0"]).1
        [samplePrice "2.0"]).1.strings sampleHistEnv.now "1_0xab" "31-10-2026" = some "2.0" := by
  decide

/-! ## C10: errors come from the coin store only; unknown addresses yield a nil price -/

theorem aliasStep_members (coins : List Coins) (m : AliasMaps) (coin : Coins)
    (hcoin : coin ∈ coins)
    (hm : ∀ k l, mapGet m.retrunCoinToMap k = some l → ∀ x ∈ l,
      ∃ c ∈ coins, c.ID = x ∧ c.ChainID ++ "_" ++ c.Address = k) :
    ∀ k l, mapGet (aliasStep m coin).retrunCoinToMap k = some l → ∀ x ∈ l,
      ∃ c ∈ coins, c.ID = x ∧ c.ChainID ++ "_" ++ c.Address = k := by
  unfold aliasStep
  simp only
  split
  · intro k l hk x hx
    simp only [mapGet_mapSet] at hk
    split at hk
    · rename_i hkeq
      cases hk
      rcases List.mem_append.1 hx with h1 | h1
      · cases hg : mapGet m.retrunCoinToMap (coin.ChainID ++ "_" ++ coin.Address) with
        | none => rw [hg] at h1; simp at h1
        | some l0 =>
          rw [hg] at h1
          obtain ⟨c, hc, h2, h3⟩ := hm _ l0 hg x h1
          exact ⟨c, hc, h2, h3.trans hkeq⟩
      · simp at h1
        exact ⟨coin, hcoin, h1.symm, hkeq⟩
    · exact hm k l hk x hx
  · exact hm

theorem foldl_aliasStep_members (coins all : List Coins) (m : AliasMaps)
    (hsub : ∀ c ∈ coins, c ∈ all)
    (hm : ∀ k l, mapGet m.retrunCoinToMap k = some l → ∀ x ∈ l,
      ∃ c ∈ all, c.ID = x ∧ c.ChainID ++ "_" ++ c.Address = k) :
    ∀ k l, mapGet (coins.foldl aliasStep m).retrunCoinToMap k = some l → ∀ x ∈ l,
      ∃ c ∈ all, c.ID = x ∧ c.ChainID ++ "_" ++ c.Address = k := by
  induction coins generalizing m with
  | nil => exact hm
  | cons c rest ih =>
    simp only [List.foldl_cons]
    exact ih _ (fun c' h' => hsub c' (List.mem_cons_of_mem _ h'))
      (aliasStep_members all m c (hsub c (List.mem_cons_self _ _)) hm)

theorem buildAliasMaps_members (coins : List Coins) :
    ∀ k l, mapGet (buildAliasMaps coins).retrunCoinToMap k = some l → ∀ x ∈ l,
      ∃ c ∈ coins, c.ID = x ∧ c.ChainID ++ "_" ++ c.Address = k := by
  unfold buildAliasMaps
  apply foldl_aliasStep_members coins coins _ (fun c h => h)
  intro k l h
  simp [mapGet] at h

theorem gather_nilPrice (env : Env) (ctx : FetchCtx) (id : String) (l : List String)
    (g : Gathered) (st : FetchState) (r : Gathered × FetchState)
    (h : gather env ctx l g st = some r) (hp : NilPriceAt id st.resultsMap) :
    NilPriceAt id r.2.resultsMap := by
  induction l generalizing g st with
  | nil => simp only [gather] at h; cases h; exact hp
  | cons x rest ih =>
    unfold gather at h
    simp only at h
    split at h
    · refine ih _ _ h ?_
      intro v hv
      simp only [mapGet_mapSet] at hv
      split at hv
      · cases hv; rfl
      · exact hp v hv
    · split at h
      · cases h
      · exact ih _ _ h hp

theorem copyToAliases_nilPrice (id : String) (result : PriceResult) (l : List String)
    (m m1 : List (String × PriceResult)) (h : copyToAliases result l m = some m1)
    (hid : id ∉ l) (hp : NilPriceAt id m) : NilPriceAt id m1 := by
  induction l generalizing m with
  | nil => simp only [copyToAliases] at h; cases h; exact hp
  | cons x rest ih =>
    unfold copyToAliases at h
    split at h
    · cases h
    · refine ih _ h (fun hmem => hid (List.mem_cons_of_mem _ hmem)) ?_
      intro v hv
      simp only [mapGet_mapSet] at hv
      split at hv
      · rename_i hx
        exact absurd (by rw [hx]; exact List.mem_cons_self _ _) hid
      · exact hp v hv

theorem absorb_nilPrice (ctx : FetchCtx) (id : String) (results : List PriceResult)
    (st st1 : FetchState) (h : absorb ctx results st = some st1)
    (hres : ∀ r ∈ results, nonEmpty r.Price = true →
      r.ChainID ++ "_" ++ r.Address ≠ id ∧
      id ∉ (mapGet ctx.maps.retrunCoinToMap (r.ChainID ++ "_" ++ r.Address)).getD [])
    (hp : NilPriceAt id st.resultsMap) : NilPriceAt id st1.resultsMap := by
  induction results generalizing st with
  | nil => simp only [absorb] at h; cases h; exact hp
  | cons r rest ih =>
    have hrest : ∀ r' ∈ rest, nonEmpty r'.Price = true →
        r'.ChainID ++ "_" ++ r'.Address ≠ id ∧
        id ∉ (mapGet ctx.maps.retrunCoinToMap (r'.ChainID ++ "_" ++ r'.Address)).getD [] :=
      fun r' h' => hres r' (List.mem_cons_of_mem _ h')
    unfold absorb at h
    simp only at h
    split at h
    · rename_i hprice
      obtain ⟨hne, hnot⟩ := hres r (List.mem_cons_self _ _) hprice
      split at h
      · cases h
      · rename_i m2 hcopy
        refine ih _ h hrest ?_
        simp only
        refine copyToAliases_nilPrice id r _ _ m2 hcopy hnot ?_
        intro v hv
        simp only [mapGet_mapSet] at hv
        split at hv
        · rename_i hk; exact absurd hk hne
        · exact hp v hv
    · exact ih _ h hrest hp

theorem batchQuery_nilPrice (env : Env) (ctx : FetchCtx) (coins : List Coins)
    (hmaps : ctx.maps = buildAliasMaps coins) (id : String) (hno : NoPriceFor env coins id)
    (source : String) (idSet : List String) (st st1 : FetchState)
    (h : batchQuery env ctx source idSet st = some st1) (hp : NilPriceAt id st.resultsMap) :
    NilPriceAt id st1.resultsMap := by
  unfold batchQuery at h
  split at h
  · cases h; exact hp
  · split at h
    · cases h
    · rename_i g st2 hg
      have hp2 := gather_nilPrice env ctx id _ _ _ _ hg hp
      simp only at h
      split at h
      · rename_i results hcall
        refine absorb_nilPrice ctx id results _ st1 h ?_ hp2
        intro r hr hprice
        unfold callProvider at hcall
        split at hcall
        · obtain ⟨h1, h2⟩ := hno _ _ _ _ hcall r hr hprice
          refine ⟨h1, ?_⟩
          intro hmem
          cases hgl : mapGet ctx.maps.retrunCoinToMap (r.ChainID ++ "_" ++ r.Address) with
          | none => rw [hgl] at hmem; simp at hmem
          | some l =>
            rw [hgl] at hmem
            rw [hmaps] at hgl
            obtain ⟨c, hc, hcid, hck⟩ := buildAliasMaps_members coins _ l hgl id hmem
            exact h2 c hc hcid hck
        · cases hcall
          simp at hr
      · cases h; exact hp2

theorem stage_nilPrice (env : Env) (ctx : FetchCtx) (coins : List Coins)
    (hmaps : ctx.maps = buildAliasMaps coins) (id : String) (hno : NoPriceFor env coins id)
    (source : String) (sel : SourceSets → List String) (st st1 : FetchState)
    (h : stage env ctx source sel st = some st1) (hp : NilPriceAt id st.resultsMap) :
    NilPriceAt id st1.resultsMap := by
  unfold stage at h
  split at h
  · exact batchQuery_nilPrice env ctx coins hmaps id hno _ _ _ _ h hp
  · cases h; exact hp

theorem runStages_nilPrice (env : Env) (ctx : FetchCtx) (coins : List Coins)
    (hmaps : ctx.maps = buildAliasMaps coins) (id : String) (hno : NoPriceFor env coins id)
    (st st1 : FetchState) (h : runStages env ctx st = some st1)
    (hp : NilPriceAt id st.resultsMap) : NilPriceAt id st1.resultsMap := by
  unfold runStages at h
  simp only [Option.bind_eq_some] at h
  obtain ⟨s1, h1, s2, h2, s3, h3, s4, h4, s5, h5, s6, h6, s7, h7, h8⟩ := h
  have k := stage_nilPrice env ctx coins hmaps id hno
  exact k _ _ _ _ h8 (k _ _ _ _ h7 (k _ _ _ _ h6 (k _ _ _ _ h5 (k _ _ _ _ h4
    (k _ _ _ _ h3 (k _ _ _ _ h2 (k _ _ _ _ h1 hp)))))))

theorem fetch_ok_shape (env : Env) (chainIds addresses symbols networks : List String)
    (isCache excludeRoute : Bool) (coins : List Coins)
    (hcoins : env.getCoinsByID (requestIds env chainIds addresses) = .ok coins)
    (out : List PriceResult) (tr : List Event)
    (h : FetchAndProcessBatchPrices env chainIds addresses symbols networks isCache excludeRoute
      = .ok (out, tr)) :
    ∃ (ctx : FetchCtx) (st0 st : FetchState), ctx.maps = buildAliasMaps coins ∧
      st0.resultsMap = [] ∧ runStages env ctx st0 = some st ∧
      out = (List.range addresses.length).map fun i =>
        assemble env st.resultsMap symbols networks i (chainIds.getD i "")
          (addresses.getD i "") := by
  unfold FetchAndProcessBatchPrices at h
  simp only [hcoins] at h
  split at h
  · cases h
  · split at h
    · cases h
    · split at h
      · cases h
      · rename_i st hst
        injection h with h
        injection h with h1 h2
        exact ⟨_, _, st, rfl, rfl, hst, h1.symm⟩

/-- C10: `FetchAndProcessBatchPrices` returns an error only when the coin-store read
`GetCoinsByID` fails, and then that very error; and when every provider answers with an error
or with no price for an id, the call still succeeds and the result of that id has a nil
price. -/
theorem fetch_error_only_from_coin_store (env : Env)
    (chainIds addresses symbols networks : List String) (isCache excludeRoute : Bool) :
    (∀ e, FetchAndProcessBatchPrices env chainIds addresses symbols networks isCache excludeRoute
        = .error e → env.getCoinsByID (requestIds env chainIds addresses) = .error e) ∧
    (∀ (coins : List Coins) (i : Nat) (c a : String),
      chainIds.length = addresses.length →
      env.getCoinsByID (requestIds env chainIds addresses) = .ok coins →
      (∀ coin ∈ coins, HasUnderscore coin.ID) →
      chainIds.get? i = some c → addresses.get? i = some a →
      NoPriceFor env coins (c ++ "_" ++ env.lower a) →
      ∃ out tr r, FetchAndProcessBatchPrices env chainIds addresses symbols networks isCache
          excludeRoute = .ok (out, tr) ∧ out.get? i = some r ∧ r.Price = none) := by
  refine ⟨?_, ?_⟩
  · intro e h
    unfold FetchAndProcessBatchPrices at h
    simp only at h
    split at h
    · cases h
    · split at h
      · rename_i e1 he
        injection h with h
        rw [he, h]
      · split at h
        · cases h
        · split at h
          · cases h
          · cases h
  · intro coins i c a hlen hcoins hids hc ha hno
    obtain ⟨out, tr, hfetch⟩ := fetch_returns env chainIds addresses symbols networks isCache
      excludeRoute hlen coins hcoins hids
    obtain ⟨ctx, st0, st, hmaps, hst0, hrun, hout⟩ := fetch_ok_shape env chainIds addresses
      symbols networks isCache excludeRoute coins hcoins out tr hfetch
    have hnil : NilPriceAt (c ++ "_" ++ env.lower a) st.resultsMap := by
      refine runStages_nilPrice env ctx coins hmaps _ hno st0 st hrun ?_
      intro v hv
      rw [hst0] at hv
      simp [mapGet] at hv
    have hi : i < addresses.length := by
      rcases Nat.lt_or_ge i addresses.length with h | h
      · exact h
      · rw [List.get?_eq_none.2 h] at ha; cases ha
    have hcd : chainIds.getD i "" = c := by
      simp only [List.get?_eq_getElem?] at hc
      simp [List.getD_eq_getElem?_getD, hc]
    have had : addresses.getD i "" = a := by
      simp only [List.get?_eq_getElem?] at ha
      simp [List.getD_eq_getElem?_getD, ha]
    refine ⟨out, tr, assemble env st.resultsMap symbols networks i c a, hfetch, ?_, ?_⟩
    · rw [hout, ← hcd, ← had]
      simp [List.get?_eq_getElem?, List.getElem?_map, List.getElem?_range hi]
    · unfold assemble
      simp only
      split
      · rfl
      · rename_i v hv
        exact hnil v hv

/-- Witness for C10: with every adapter down, the address `0xdead` on chain `9999` gets a
result with a nil price and no error. -/
theorem fetch_error_only_from_coin_store_witness :
    ∃ out tr r, FetchAndProcessBatchPrices downEnv ["9999"] ["0xdead"] ["ETH"] ["ethereum"]
        true false = .ok (out, tr) ∧ out.get? 0 = some r ∧ r.Price = none :=
  (fetch_error_only_from_coin_store downEnv ["9999"] ["0xdead"] ["ETH"] ["ethereum"] true
    false).2 [] 0 "9999" "0xdead" rfl rfl (by simp) rfl rfl
    (by
      intro n source args results h
      cases h)

/-! ## C4: coalescing of callers with one fingerprint -/

/-- C4 as stated fails. First trace: a caller enqueues the fingerprint, the worker drains it
and starts a run, a second caller with the same request arrives while that run is in flight
(no `price_result` yet, fingerprint no longer in the set) and enqueues it again; after the
next drain the worker has started two runs for the fingerprint. Second trace: two callers
share one run, a third caller asks for the same token under another symbol; the first run
answers `"1"`, the later run rewrites the same `price_result` key with `"2"`, so a caller
reading after the first run and one reading after the second receive different prices. -/
theorem second_caller_after_drain_causes_second_run :
    runsFor requestEth.requestKey
      (exec defaultConfig
        [Step.arriveBatch [requestEth], Step.drain, Step.arriveSingle requestEth,
          Step.finish 0 [some "1"], Step.drain] Coalescer.init).runs = 2 ∧
    readAfterOk
      (exec defaultConfig
        [Step.arriveBatch [requestEth], Step.arriveBatch [requestEth], Step.drain,
          Step.arriveBatch [requestWeth], Step.finish 0 [some "1"]] Coalescer.init).results
      requestEth = some "1" ∧
    readAfterOk
      (exec defaultConfig
        [Step.arriveBatch [requestEth], Step.arriveBatch [requestEth], Step.drain,
          Step.arriveBatch [requestWeth], Step.finish 0 [some "1"], Step.drain,
          Step.finish 1 [some "2"]] Coalescer.init).results
      requestEth = some "2" := by
  decide

theorem requestKeyOf_empty : requestKeyOf "" = none := by decide

theorem countP_filterMap_append (k : String) (a b : List String) :
    ((a ++ b).filterMap requestKeyOf).countP (fun o => decide (o = k))
      = (a.filterMap requestKeyOf).countP (fun o => decide (o = k))
        + (b.filterMap requestKeyOf).countP (fun o => decide (o = k)) := by
  rw [List.filterMap_append, List.countP_append]

theorem engine_enqueue (st : QueueState) (k i : String) (hinv : EngineInv st)
    (hpair : (k = "" ∧ i = "") ∨ IsRecordOf k i) :
    EngineInv (EnqueueUniqueRequest st k i).1 := by
  unfold EnqueueUniqueRequest
  split
  · exact hinv
  · rename_i hk
    obtain ⟨hnd, hset⟩ := hinv
    rcases hpair with ⟨hk0, hi0⟩ | hrec
    · subst hk0; subst hi0
      refine ⟨?_, ?_⟩
      · simpa [List.filterMap_append, requestKeyOf_empty] using hnd
      · intro x hx
        simp only [List.mem_append, List.mem_singleton, List.filterMap_append,
          List.filterMap_cons, requestKeyOf_empty, List.filterMap_nil, List.append_nil]
        rw [← hset x hx]
        constructor
        · rintro (h | h)
          · exact h
          · exact absurd h hx
        · exact Or.inl
    · have hki := requestKeyOf_record k i hrec
      have hkne : k ≠ "" := by
        intro h0
        have := (fingerprint_chars k hrec.1).1
        rw [h0] at this
        exact this rfl
      have hnot : k ∉ st.price_requests_queue.filterMap requestKeyOf :=
        fun h => hk ((hset k hkne).2 h)
      refine ⟨?_, ?_⟩
      · simp only [List.filterMap_append, List.filterMap_cons, hki, List.filterMap_nil]
        rw [List.nodup_append]
        refine ⟨hnd, by simp, ?_⟩
        intro a ha hb
        simp at hb
        rw [hb] at ha
        exact hnot ha
      · intro x hx
        simp only [List.mem_append, List.mem_singleton, List.filterMap_append,
          List.filterMap_cons, hki, List.filterMap_nil]
        rw [hset x hx]

theorem engine_enqueueLoop (ps : List (String × String)) (st : QueueState) (c : Int)
    (hinv : EngineInv st) (hps : ∀ p ∈ ps, (p.1 = "" ∧ p.2 = "") ∨ IsRecordOf p.1 p.2) :
    EngineInv (enqueueLoop ps st c).1 := by
  induction ps generalizing st c with
  | nil => exact hinv
  | cons p rest ih =>
    obtain ⟨k, i⟩ := p
    have h1 := engine_enqueue st k i hinv (hps (k, i) (List.mem_cons_self _ _))
    unfold EnqueueUniqueRequest at h1
    unfold enqueueLoop
    split
    · exact ih st c hinv (fun p hp => hps p (List.mem_cons_of_mem _ hp))
    · rename_i hk
      simp only [hk, if_false] at h1
      exact ih _ _ h1 (fun p hp => hps p (List.mem_cons_of_mem _ hp))

theorem mem_filterMap_requestKeyOf (rs : List String) (x : String) :
    some x ∈ rs.map requestKeyOf ↔ x ∈ rs.filterMap requestKeyOf := by
  simp [List.mem_filterMap]

theorem engine_drain (st : QueueState) (f : Int) (hf : f ≠ 0) (hinv : EngineInv st) :
    EngineInv (drainScript st f).1 := by
  unfold drainScript
  simp only
  split
  · rename_i hpos
    have hne : listRange st.price_requests_queue 0 (f - 1) ≠ [] := by
      intro he; rw [he] at hpos; simp at hpos
    obtain ⟨n, h1, h2⟩ := listRange_split st.price_requests_queue f hf hne
    obtain ⟨hnd, hset⟩ := hinv
    have hsplit : st.price_requests_queue.filterMap requestKeyOf
        = (st.price_requests_queue.take n).filterMap requestKeyOf
          ++ (st.price_requests_queue.drop n).filterMap requestKeyOf := by
      rw [← List.filterMap_append, List.take_append_drop]
    rw [hsplit, List.nodup_append] at hnd
    obtain ⟨_, hnd2, hdisj⟩ := hnd
    simp only [h1, h2]
    refine ⟨hnd2, ?_⟩
    intro x hx
    rw [sremAll_mem, hset x hx, hsplit, List.mem_append, mem_filterMap_requestKeyOf]
    constructor
    · rintro ⟨h | h, hnot⟩
      · exact absurd h hnot
      · exact h
    · intro h
      exact ⟨Or.inr h, fun h' => hdisj h' h⟩
  · exact hinv

theorem batchPair_isPair (results : List (String × String)) (r : Request)
    (hr : IsFingerprint r.requestKey) :
    ((batchPair results r).1 = "" ∧ (batchPair results r).2 = "")
      ∨ IsRecordOf (batchPair results r).1 (batchPair results r).2 := by
  unfold batchPair
  split
  · exact Or.inl ⟨rfl, rfl⟩
  · exact Or.inr ⟨hr, r.chainId, r.address, r.symbol, r.network, rfl⟩

theorem zip_map_pairs (ps : List (String × String)) :
    List.zip (ps.map fun p => p.1) (ps.map fun p => p.2) = ps := by
  induction ps with
  | nil => rfl
  | cons p rest ih => simp [ih]

theorem engine_step (cfg : WorkerConfig) (st : Coalescer) (s : Step)
    (hinv : EngineInv st.shared) (hwf : s.WellFormed) : EngineInv (s.apply cfg st).shared := by
  cases s with
  | arriveSingle r =>
    simp only [Step.apply]
    split
    · exact hinv
    · exact engine_enqueue _ _ _ hinv
        (Or.inr ⟨hwf r (by simp [Step.requests]), r.chainId, r.address, r.symbol, r.network, rfl⟩)
  | arriveBatch rs =>
    simp only [Step.apply, EnqueueUniqueRequests, List.length_map, ne_eq, not_true_eq_false,
      if_false, zip_map_pairs]
    apply engine_enqueueLoop _ _ _ hinv
    intro p hp
    obtain ⟨r, hr, rfl⟩ := List.mem_map.1 hp
    exact batchPair_isPair _ r (hwf r (by simpa [Step.requests] using hr))
  | drain =>
    simp only [Step.apply]
    exact engine_drain _ _ (fetchSizeOf_ne_zero _) hinv
  | finish i prices =>
    simp only [Step.apply]
    split <;> exact hinv

theorem engine_exec (cfg : WorkerConfig) (steps : List Step) (st : Coalescer)
    (hinv : EngineInv st.shared) (hwf : ∀ s ∈ steps, s.WellFormed) :
    EngineInv (exec cfg steps st).shared := by
  induction steps generalizing st with
  | nil => exact hinv
  | cons s rest ih =>
    simp only [exec, List.foldl_cons]
    exact ih _ (engine_step cfg st s hinv (hwf s (List.mem_cons_self _ _)))
      (fun x hx => hwf x (List.mem_cons_of_mem _ hx))

theorem countP_nodup_le_one {α : Type} [DecidableEq α] (l : List α) (a : α) (hnd : l.Nodup) :
    l.countP (fun x => decide (x = a)) ≤ 1 := by
  by_cases ha : a ∈ l
  · rw [countP_nodup_mem l a hnd ha]
  · have : l.countP (fun x => decide (x = a)) = 0 := by
      rw [List.countP_eq_zero]
      intro y hy
      simp only [decide_eq_true_eq]
      intro h; rw [h] at hy; exact ha hy
    omega

theorem pending_le_one (k : String) (st : QueueState) (hinv : EngineInv st) :
    pendingFor k st ≤ 1 :=
  countP_nodup_le_one _ k hinv.1

theorem enqueue_pending (k : String) (st : QueueState) (k1 i : String)
    (hi : requestKeyOf i ≠ some k) :
    pendingFor k (EnqueueUniqueRequest st k1 i).1 = pendingFor k st := by
  unfold EnqueueUniqueRequest
  split
  · rfl
  · unfold pendingFor
    simp only [List.filterMap_append, List.countP_append]
    cases hr : requestKeyOf i with
    | none => simp [hr]
    | some x =>
      have hx : x ≠ k := fun h => hi (by rw [hr, h])
      simp [hr, hx]

theorem enqueueLoop_pending (k : String) (ps : List (String × String)) (st : QueueState)
    (c : Int) (hps : ∀ p ∈ ps, requestKeyOf p.2 ≠ some k) :
    pendingFor k (enqueueLoop ps st c).1 = pendingFor k st := by
  induction ps generalizing st c with
  | nil => rfl
  | cons p rest ih =>
    obtain ⟨k1, i⟩ := p
    have h1 := enqueue_pending k st k1 i (hps (k1, i) (List.mem_cons_self _ _))
    unfold EnqueueUniqueRequest at h1
    unfold enqueueLoop
    split
    · exact ih st c (fun p hp => hps p (List.mem_cons_of_mem _ hp))
    · rename_i hk
      simp only [hk, if_false] at h1
      rw [ih _ _ (fun p hp => hps p (List.mem_cons_of_mem _ hp)), h1]

theorem runsFor_append (k : String) (a b : List (List String)) :
    runsFor k (a ++ b) = runsFor k a + runsFor k b := by
  simp [runsFor, List.countP_append]

theorem one_le_countP_of_mem (k : String) (l : List String) (h : k ∈ l) :
    1 ≤ l.countP (fun o => decide (o = k)) := by
  have : 0 < l.countP (fun o => decide (o = k)) := by
    rw [List.countP_pos_iff]
    exact ⟨k, h, by simp⟩
  omega

theorem runsFor_single_le (k : String) (batch : List String) :
    runsFor k [batch] ≤ (batch.filterMap requestKeyOf).countP (fun o => decide (o = k)) := by
  unfold runsFor
  by_cases h : k ∈ batch.filterMap requestKeyOf
  · have := one_le_countP_of_mem k _ h
    rw [List.countP_cons, List.countP_nil]
    simp only [h, decide_True, if_true]
    omega
  · rw [List.countP_cons, List.countP_nil]
    simp only [h, decide_False]
    simp

theorem runsFor_chunkFrom (k : String) (n : Nat) (l cur : List String) :
    runsFor k (chunkFrom n l cur)
      ≤ ((cur ++ l).filterMap requestKeyOf).countP (fun o => decide (o = k)) := by
  induction l generalizing cur with
  | nil =>
    unfold chunkFrom
    split
    · simp [runsFor]
    · simpa using runsFor_single_le k cur
  | cons x xs ih =>
    unfold chunkFrom
    split
    · have h1 := runsFor_single_le k (cur ++ [x])
      have h2 := ih []
      have h3 := runsFor_append k [cur ++ [x]] (chunkFrom n xs [])
      simp only [List.singleton_append] at h3
      rw [h3]
      have h4 := countP_filterMap_append k (cur ++ [x]) xs
      simp only [List.append_assoc, List.singleton_append] at h4
      rw [h4]
      simp only [List.nil_append] at h2
      simp only [List.append_assoc, List.singleton_append] at h1
      omega
    · have := ih (cur ++ [x])
      simpa using this

theorem drain_balance (k : String) (n : Nat) (st : QueueState) (f : Int) (hf : f ≠ 0) :
    runsFor k (chunkFrom n (drainScript st f).2 []) + pendingFor k (drainScript st f).1
      ≤ pendingFor k st := by
  unfold drainScript
  simp only
  split
  · rename_i hpos
    have hne : listRange st.price_requests_queue 0 (f - 1) ≠ [] := by
      intro he; rw [he] at hpos; simp at hpos
    obtain ⟨m, h1, h2⟩ := listRange_split st.price_requests_queue f hf hne
    simp only [h1, h2]
    have hc := runsFor_chunkFrom k n (st.price_requests_queue.take m) []
    simp only [List.nil_append] at hc
    have hs := countP_filterMap_append k (st.price_requests_queue.take m)
      (st.price_requests_queue.drop m)
    rw [List.take_append_drop] at hs
    unfold pendingFor
    simp only
    omega
  · rename_i hpos
    have he : listRange st.price_requests_queue 0 (f - 1) = [] := by
      cases hl : listRange st.price_requests_queue 0 (f - 1) with
      | nil => rfl
      | cons a b => rw [hl] at hpos; simp at hpos
    simp [he, chunkFrom, runsFor]

theorem step_balance (cfg : WorkerConfig) (k : String) (st : Coalescer) (s : Step)
    (hwf : s.WellFormed) (hother : ∀ q ∈ s.requests, q.requestKey ≠ k) :
    runsFor k (s.apply cfg st).runs + pendingFor k (s.apply cfg st).shared
      ≤ runsFor k st.runs + pendingFor k st.shared := by
  cases s with
  | arriveSingle r =>
    simp only [Step.apply]
    split
    · exact le_refl _
    · have hrec : IsRecordOf r.requestKey r.info :=
        ⟨hwf r (by simp [Step.requests]), r.chainId, r.address, r.symbol, r.network, rfl⟩
      have hne : requestKeyOf r.info ≠ some k := by
        rw [requestKeyOf_record _ _ hrec]
        intro h
        injection h with h
        exact hother r (by simp [Step.requests]) h
      simp only
      rw [enqueue_pending k _ _ _ hne]
  | arriveBatch rs =>
    simp only [Step.apply, EnqueueUniqueRequests, List.length_map, ne_eq, not_true_eq_false,
      if_false, zip_map_pairs]
    rw [enqueueLoop_pending]
    intro p hp
    obtain ⟨r, hr, rfl⟩ := List.mem_map.1 hp
    have hrmem : r ∈ (Step.arriveBatch rs).requests := by simpa [Step.requests] using hr
    unfold batchPair
    split
    · simp only [requestKeyOf_empty]
      simp
    · have hrec : IsRecordOf r.requestKey r.info :=
        ⟨hwf r hrmem, r.chainId, r.address, r.symbol, r.network, rfl⟩
      simp only [requestKeyOf_record _ _ hrec]
      intro h
      injection h with h
      exact hother r hrmem h
  | drain =>
    simp only [Step.apply]
    rw [runsFor_append]
    have := drain_balance k (batchSizeOf cfg.batchSize) st.shared (fetchSizeOf cfg.fetchSize)
      (fetchSizeOf_ne_zero _)
    omega
  | finish i prices =>
    simp only [Step.apply]
    split <;> exact le_refl _

theorem exec_balance (cfg : WorkerConfig) (k : String) (steps : List Step) (st : Coalescer)
    (hsteps : ∀ s ∈ steps, s.WellFormed ∧ ∀ q ∈ s.requests, q.requestKey ≠ k) :
    runsFor k (exec cfg steps st).runs + pendingFor k (exec cfg steps st).shared
      ≤ runsFor k st.runs + pendingFor k st.shared := by
  induction steps generalizing st with
  | nil => exact le_refl _
  | cons s rest ih =>
    simp only [exec, List.foldl_cons]
    have h1 := step_balance cfg k st s (hsteps s (List.mem_cons_self _ _)).1
      (hsteps s (List.mem_cons_self _ _)).2
    have h2 := ih (s.apply cfg st) (fun x hx => hsteps x (List.mem_cons_of_mem _ hx))
    simp only [exec] at h2
    omega

theorem exec_runs_without_drain (cfg : WorkerConfig) (steps : List Step) (st : Coalescer)
    (hsteps : ∀ s ∈ steps, s ≠ Step.drain) : (exec cfg steps st).runs = st.runs := by
  induction steps generalizing st with
  | nil => rfl
  | cons s rest ih =>
    simp only [exec, List.foldl_cons]
    have h2 := ih (s.apply cfg st) (fun x hx => hsteps x (List.mem_cons_of_mem _ hx))
    simp only [exec] at h2
    rw [h2]
    cases s with
    | arriveSingle r => simp only [Step.apply]; split <;> rfl
    | arriveBatch rs => rfl
    | drain => exact absurd rfl (hsteps Step.drain (List.mem_cons_self _ _))
    | finish i prices => simp only [Step.apply]; split <;> rfl

theorem exec_results_without_finish (cfg : WorkerConfig) (steps : List Step) (st : Coalescer)
    (hsteps : ∀ s ∈ steps, s.isFinish = false) : (exec cfg steps st).results = st.results := by
  induction steps generalizing st with
  | nil => rfl
  | cons s rest ih =>
    simp only [exec, List.foldl_cons]
    have h2 := ih (s.apply cfg st) (fun x hx => hsteps x (List.mem_cons_of_mem _ hx))
    simp only [exec] at h2
    rw [h2]
    cases s with
    | arriveSingle r => simp only [Step.apply]; split <;> rfl
    | arriveBatch rs => rfl
    | drain => rfl
    | finish i prices =>
      have := hsteps (Step.finish i prices) (List.mem_cons_self _ _)
      simp [Step.isFinish] at this

theorem exec_append (cfg : WorkerConfig) (a b : List Step) (st : Coalescer) :
    exec cfg (a ++ b) st = exec cfg b (exec cfg a st) := by
  simp [exec, List.foldl_append]

theorem init_engineInv : EngineInv Coalescer.init.shared := by
  refine ⟨by simp [Coalescer.init, QueueState.empty], ?_⟩
  intro k _
  simp [Coalescer.init, QueueState.empty]

theorem arrival_ne_drain (s : Step) (r : Request) (h : r ∈ s.requests) : s ≠ Step.drain := by
  intro hs
  rw [hs] at h
  simp [Step.requests] at h

/-- C4 amended: two `GetBatchPrice` / `GetPrice` callers with the same request and
`isCache = excludeRoute = true` whose enqueue scripts run with no atomic-drain run in between
(whatever happened before, and whatever other callers enqueue meanwhile) leave at most one
record of the fingerprint in the queue, so until a caller asks for that fingerprint again the
worker starts at most one further `FetchAndProcessBatchPrices` run for it; and two callers for
one `(chainId, address)` read the same `price_result` value when no worker run is cached
between their reads. -/
theorem callers_between_drains_share_one_run (cfg : WorkerConfig) (before mid later : List Step)
    (caller1 caller2 : Step) (r : Request)
    (hbefore : ∀ s ∈ before, s.WellFormed)
    (h1 : r ∈ caller1.requests) (hw1 : caller1.WellFormed)
    (hmid : ∀ s ∈ mid, s.WellFormed ∧ s ≠ Step.drain)
    (h2 : r ∈ caller2.requests) (hw2 : caller2.WellFormed)
    (hlater : ∀ s ∈ later, s.WellFormed ∧ ∀ q ∈ s.requests, q.requestKey ≠ r.requestKey) :
    pendingFor r.requestKey
        (exec cfg (before ++ caller1 :: (mid ++ [caller2])) Coalescer.init).shared ≤ 1 ∧
    runsFor r.requestKey
        (exec cfg (before ++ caller1 :: (mid ++ caller2 :: later)) Coalescer.init).runs
      ≤ runsFor r.requestKey (exec cfg before Coalescer.init).runs + 1 ∧
    (∀ (st : Coalescer) (between : List Step) (q : Request),
      q.chainId = r.chainId → q.address = r.address →
      (∀ s ∈ between, s.isFinish = false) →
      readAfterOk (exec cfg between st).results q = readAfterOk st.results r) := by
  have hseg : ∀ s ∈ caller1 :: (mid ++ [caller2]), s.WellFormed ∧ s ≠ Step.drain := by
    intro s hs
    simp only [List.cons_append, List.mem_cons, List.mem_append, List.mem_singleton,
      List.not_mem_nil, or_false] at hs
    rcases hs with h | h | h
    · rw [h]; exact ⟨hw1, arrival_ne_drain _ r h1⟩
    · exact hmid s h
    · rw [h]; exact ⟨hw2, arrival_ne_drain _ r h2⟩
  have hinv0 := engine_exec cfg before Coalescer.init init_engineInv hbefore
  have hinv2 := engine_exec cfg (caller1 :: (mid ++ [caller2])) (exec cfg before Coalescer.init)
    hinv0 (fun s hs => (hseg s hs).1)
  have hruns := exec_runs_without_drain cfg (caller1 :: (mid ++ [caller2]))
    (exec cfg before Coalescer.init) (fun s hs => (hseg s hs).2)
  have hpend := pending_le_one r.requestKey _ hinv2
  refine ⟨?_, ?_, ?_⟩
  · rw [exec_append]
    exact hpend
  · have hshape : before ++ caller1 :: (mid ++ caller2 :: later)
        = before ++ ((caller1 :: (mid ++ [caller2])) ++ later) := by simp
    rw [hshape, exec_append, exec_append]
    have hb := exec_balance cfg r.requestKey later
      (exec cfg (caller1 :: (mid ++ [caller2])) (exec cfg before Coalescer.init)) hlater
    rw [hruns] at hb
    omega
  · intro st between q hc ha hbetween
    rw [exec_results_without_finish cfg between st hbetween]
    unfold readAfterOk Request.resultKey
    rw [hc, ha]

/-- Witness for the amended C4: two callers for `requestEth` before the first drain, then a
drain, the end of the run, and two more drains: one run for the fingerprint. -/
theorem callers_between_drains_share_one_run_witness :
    runsFor requestEth.requestKey
        (exec defaultConfig
          ([] ++ Step.arriveBatch [requestEth] :: ([] ++ Step.arriveSingle requestEth ::
            [Step.drain, Step.finish 0 [some "1"], Step.drain, Step.drain]))
          Coalescer.init).runs
      ≤ runsFor requestEth.requestKey (exec defaultConfig [] Coalescer.init).runs + 1 :=
  (callers_between_drains_share_one_run defaultConfig [] []
    [Step.drain, Step.finish 0 [some "1"], Step.drain, Step.drain]
    (Step.arriveBatch [requestEth]) (Step.arriveSingle requestEth) requestEth
    (by simp) (by simp [Step.requests])
    (by intro q hq; simp [Step.requests] at hq; rw [hq]; exact ⟨by decide, by decide⟩)
    (by simp) (by simp [Step.requests])
    (by intro q hq; simp [Step.requests] at hq; rw [hq]; exact ⟨by decide, by decide⟩)
    (by
      intro s hs
      refine ⟨?_, ?_⟩
      · intro q hq
        simp at hs
        rcases hs with h | h | h <;> (rw [h] at hq; simp [Step.requests] at hq)
      · intro q hq
        simp at hs
        rcases hs with h | h | h <;> (rw [h] at hq; simp [Step.requests] at hq))).2.1


/-! ## C11: the pre-check of the coalesced entry points -/

theorem execError_values (replies : List Reply) (h : ∀ r ∈ replies, ∀ e, r ≠ Reply.err e) :
    ∀ e, execError replies ≠ some (Reply.err e) := by
  induction replies with
  | nil => intro e; simp [execError]
  | cons r rest ih =>
    intro e
    cases r with
    | val v =>
      simp only [execError]
      exact ih (fun r hr => h r (List.mem_cons_of_mem _ hr)) e
    | nil => simp [execError]
    | err e1 => exact absurd rfl (h (Reply.err e1) (List.mem_cons_self _ _) e1)

theorem enqueueLoop_queue_mem (ps : List (String × String)) (st : QueueState) (c : Int)
    (r : String) (h : r ∈ (enqueueLoop ps st c).1.price_requests_queue) :
    r ∈ st.price_requests_queue ∨ ∃ p ∈ ps, p.2 = r := by
  induction ps generalizing st c with
  | nil => exact Or.inl h
  | cons p rest ih =>
    obtain ⟨k, i⟩ := p
    unfold enqueueLoop at h
    split at h
    · rcases ih st c h with h1 | ⟨p, hp, hpr⟩
      · exact Or.inl h1
      · exact Or.inr ⟨p, List.mem_cons_of_mem _ hp, hpr⟩
    · rcases ih _ _ h with h1 | ⟨p, hp, hpr⟩
      · simp only [List.mem_append, List.mem_singleton] at h1
        rcases h1 with h1 | h1
        · exact Or.inl h1
        · exact Or.inr ⟨(k, i), List.mem_cons_self _ _, h1.symm⟩
      · exact Or.inr ⟨p, List.mem_cons_of_mem _ hp, hpr⟩

theorem enqueueLoop_set_mem (ps : List (String × String)) (st : QueueState) (c : Int)
    (x : String) (h : x ∈ (enqueueLoop ps st c).1.unique_price_requests) :
    x ∈ st.unique_price_requests ∨ ∃ p ∈ ps, p.1 = x := by
  induction ps generalizing st c with
  | nil => exact Or.inl h
  | cons p rest ih =>
    obtain ⟨k, i⟩ := p
    unfold enqueueLoop at h
    split at h
    · rcases ih st c h with h1 | ⟨p, hp, hpr⟩
      · exact Or.inl h1
      · exact Or.inr ⟨p, List.mem_cons_of_mem _ hp, hpr⟩
    · rcases ih _ _ h with h1 | ⟨p, hp, hpr⟩
      · simp only [List.mem_append, List.mem_singleton] at h1
        rcases h1 with h1 | h1
        · exact Or.inl h1
        · exact Or.inr ⟨(k, i), List.mem_cons_self _ _, h1.symm⟩
      · exact Or.inr ⟨p, List.mem_cons_of_mem _ hp, hpr⟩

theorem enqueueLoop_adds (ps : List (String × String)) (st : QueueState) (c : Int)
    (p : String × String) (hp : p ∈ ps) :
    p.1 ∈ (enqueueLoop ps st c).1.unique_price_requests := by
  induction ps generalizing st c with
  | nil => cases hp
  | cons q rest ih =>
    obtain ⟨k, i⟩ := q
    unfold enqueueLoop
    rcases List.mem_cons.1 hp with h | h
    · subst h
      split
      · rename_i hk
        exact enqueueLoop_grows rest st c k hk
      · exact enqueueLoop_grows rest _ _ k (by simp)
    · split
      · exact ih st c h
      · exact ih _ _ h

theorem registerKey_other (m : List (String × List String)) (k requestID x : String)
    (hx : x ≠ k) : mapGet (registerKey m k requestID) x = mapGet m x := by
  unfold registerKey
  split <;> rw [mapGet_mapSet] <;> simp [Ne.symm hx]

theorem registerKey_same (m : List (String × List String)) (k requestID : String) :
    requestID ∈ (mapGet (registerKey m k requestID) k).getD [] := by
  unfold registerKey
  split <;> rw [mapGet_mapSet] <;> simp

theorem registerKey_keeps (m : List (String × List String)) (k requestID x y : String)
    (h : y ∈ (mapGet m x).getD []) : y ∈ (mapGet (registerKey m k requestID) x).getD [] := by
  by_cases hx : x = k
  · subst hx
    unfold registerKey
    split
    · rename_i l hl
      rw [mapGet_mapSet]
      rw [hl] at h
      simp at h ⊢
      exact Or.inl h
    · rename_i hl
      rw [hl] at h
      simp at h
  · rw [registerKey_other m k requestID x hx]
    exact h

theorem preCheckAll_lengths (env : Env) (generateHashKey : List String → String)
    (redisGet : String → Reply) (requestID : String) (m : List (String × List String))
    (chainIds addresses symbols networks : List String) :
    (preCheckAll env generateHashKey redisGet requestID m chainIds addresses symbols
      networks).requestKeys.length
    = (preCheckAll env generateHashKey redisGet requestID m chainIds addresses symbols
      networks).requestInfos.length := by
  simp [preCheckAll]

/-- With `isCache = excludeRoute = true`, inputs of one length and a cache that answers every
`GET`, `GetBatchPrice` runs its pre-check and the batched enqueue script. -/
theorem getBatchPrice_coalesced (env : Env) (generateHashKey : List String → String)
    (redisGet : String → Reply) (requestID : String) (st : Caller)
    (chainIds addresses symbols networks : List String)
    (hlen : chainIds.length = addresses.length)
    (hread : ∀ key e, redisGet key ≠ Reply.err e) :
    (GetBatchPrice env generateHashKey redisGet requestID st chainIds addresses symbols networks
      true true).1.shared
      = (enqueueLoop (List.zip
          (preCheckAll env generateHashKey redisGet requestID st.books.keysRequestIDMap chainIds
            addresses symbols networks).requestKeys
          (preCheckAll env generateHashKey redisGet requestID st.books.keysRequestIDMap chainIds
            addresses symbols networks).requestInfos) st.shared 0).1 ∧
    (GetBatchPrice env generateHashKey redisGet requestID st chainIds addresses symbols networks
      true true).1.books.keysRequestIDMap
      = (preCheckAll env generateHashKey redisGet requestID st.books.keysRequestIDMap chainIds
          addresses symbols networks).keysRequestIDMap ∧
    (∀ results tr,
      (GetBatchPrice env generateHashKey redisGet requestID st chainIds addresses symbols networks
        true true).2 = Entered.returned (.ok (results, tr)) →
      WaitForBatchResults env.now env.lower redisGet chainIds addresses symbols networks
        (preCheckAll env generateHashKey redisGet requestID st.books.keysRequestIDMap chainIds
          addresses symbols networks).resultMap = .ok results) := by
  have hlt : ¬ addresses.length < chainIds.length := by omega
  have hex := execError_values
    ((List.range chainIds.length).map fun i => redisGet (batchResultKey env chainIds addresses i))
    (by
      intro r hr e
      obtain ⟨i, _, hi⟩ := List.mem_map.1 hr
      rw [← hi]
      exact hread _ e)
  have hq := preCheckAll_lengths env generateHashKey redisGet requestID st.books.keysRequestIDMap
    chainIds addresses symbols networks
  have hqueued : (EnqueueUniqueRequests st.shared
      (preCheckAll env generateHashKey redisGet requestID st.books.keysRequestIDMap chainIds
        addresses symbols networks).requestKeys
      (preCheckAll env generateHashKey redisGet requestID st.books.keysRequestIDMap chainIds
        addresses symbols networks).requestInfos)
      = ((enqueueLoop (List.zip
          (preCheckAll env generateHashKey redisGet requestID st.books.keysRequestIDMap chainIds
            addresses symbols networks).requestKeys
          (preCheckAll env generateHashKey redisGet requestID st.books.keysRequestIDMap chainIds
            addresses symbols networks).requestInfos) st.shared 0).1,
         .ok (enqueueLoop (List.zip
          (preCheckAll env generateHashKey redisGet requestID st.books.keysRequestIDMap chainIds
            addresses symbols networks).requestKeys
          (preCheckAll env generateHashKey redisGet requestID st.books.keysRequestIDMap chainIds
            addresses symbols networks).requestInfos) st.shared 0).2) := by
    unfold EnqueueUniqueRequests
    simp only [hq, ne_eq, not_true_eq_false, if_false]
  unfold GetBatchPrice
  simp only [Bool.not_true, Bool.or_self, Bool.false_eq_true, if_false, hlt, hqueued]
  cases hE : execError ((List.range chainIds.length).map fun i =>
      redisGet (batchResultKey env chainIds addresses i)) with
  | none =>
    refine ⟨?_, ?_, ?_⟩
    · split <;> [skip; rfl]
      split <;> rfl
    · split <;> [skip; rfl]
      split <;> rfl
    · intro results tr h
      split at h
      · split at h
        · rename_i out hw
          simp only [Entered.returned.injEq, Outcome.ok.injEq, Prod.mk.injEq] at h
          rw [hw, h.1]
        · simp at h
        · simp at h
      · simp at h
  | some r =>
    cases r with
    | err e => exact absurd hE (hex e)
    | val v =>
      refine ⟨?_, ?_, ?_⟩
      · split <;> [skip; rfl]
        split <;> rfl
      · split <;> [skip; rfl]
        split <;> rfl
      · intro results tr h
        split at h
        · split at h
          · rename_i out hw
            simp only [Entered.returned.injEq, Outcome.ok.injEq, Prod.mk.injEq] at h
            rw [hw, h.1]
          · simp at h
          · simp at h
        · simp at h
    | nil =>
      refine ⟨?_, ?_, ?_⟩
      · split <;> [skip; rfl]
        split <;> rfl
      · split <;> [skip; rfl]
        split <;> rfl
      · intro results tr h
        split at h
        · split at h
          · rename_i out hw
            simp only [Entered.returned.injEq, Outcome.ok.injEq, Prod.mk.injEq] at h
            rw [hw, h.1]
          · simp at h
          · simp at h
        · simp at h

theorem mapGet_filterMap_keyed {β : Type} (f : Nat → Option β) (l : List Nat) (i : Nat) :
    mapGet (l.filterMap fun j => (f j).map fun a => (j, a)) i = if i ∈ l then f i else none := by
  induction l with
  | nil => simp [mapGet]
  | cons j rest ih =>
    cases hf : f j with
    | none =>
      simp only [List.filterMap_cons, hf, Option.map_none', List.mem_cons]
      rw [ih]
      by_cases hij : i = j
      · subst hij
        simp [hf]
      · simp [hij]
    | some a =>
      simp only [List.filterMap_cons, hf, Option.map_some', List.mem_cons, mapGet]
      by_cases hij : j = i
      · subst hij
        simp [hf]
      · have hji : ¬ i = j := fun e => hij e.symm
        simp only [hij, if_false, hji, false_or]
        exact ih

/-- The answer the pre-check records for a cached value: nil for `"-1"`, the value otherwise. -/
theorem preCheckAll_resultMap (env : Env) (generateHashKey : List String → String)
    (redisGet : String → Reply) (requestID : String) (m : List (String × List String))
    (chainIds addresses symbols networks : List String) (i : Nat) (hi : i < chainIds.length) :
    mapGet (preCheckAll env generateHashKey redisGet requestID m chainIds addresses symbols
      networks).resultMap i
    = match redisGet (batchResultKey env chainIds addresses i) with
      | Reply.val v => some (if v = "-1" then none else some v)
      | _ => none := by
  have hfun : (fun i =>
      match preCheck (redisGet (batchResultKey env chainIds addresses i)) with
      | PreChecked.price p => some (i, some p)
      | PreChecked.noPrice => some (i, none)
      | PreChecked.enqueue => none)
      = fun j => (match redisGet (batchResultKey env chainIds addresses j) with
        | Reply.val v => some (if v = "-1" then none else some v)
        | _ => none).map fun a => (j, a) := by
    funext j
    cases redisGet (batchResultKey env chainIds addresses j) with
    | val v =>
      by_cases hv : v = "-1"
      · simp [preCheck, hv]
      · simp [preCheck, hv]
    | nil => simp [preCheck]
    | err e => simp [preCheck]
  unfold preCheckAll
  simp only [hfun]
  rw [mapGet_filterMap_keyed]
  simp [hi]

theorem preCheckAll_pairs (env : Env) (generateHashKey : List String → String)
    (redisGet : String → Reply) (requestID : String) (m : List (String × List String))
    (chainIds addresses symbols networks : List String) :
    List.zip
      (preCheckAll env generateHashKey redisGet requestID m chainIds addresses symbols
        networks).requestKeys
      (preCheckAll env generateHashKey redisGet requestID m chainIds addresses symbols
        networks).requestInfos
    = (List.range chainIds.length).map fun i =>
        if preCheck (redisGet (batchResultKey env chainIds addresses i)) = PreChecked.enqueue then
          (batchKey env generateHashKey chainIds addresses symbols networks i,
            batchInfo env generateHashKey chainIds addresses symbols networks i)
        else ("", "") := by
  unfold preCheckAll
  simp only [List.zip_map']
  apply List.map_congr_left
  intro i _
  split <;> rfl

theorem preCheck_enqueue_iff (r : Reply) :
    preCheck r = PreChecked.enqueue ↔ ∀ v, r ≠ Reply.val v := by
  cases r with
  | val v =>
    by_cases hv : v = "-1"
    · simp [preCheck, hv]
    · simp [preCheck, hv]
  | nil => simp [preCheck]
  | err e => simp [preCheck]

theorem registerAll_other (fp : Nat → String) (requestID : String) (l : List Nat)
    (m : List (String × List String)) (k : String) (hk : ∀ j ∈ l, fp j ≠ k) :
    mapGet (l.foldl (fun m i => registerKey m (fp i) requestID) m) k = mapGet m k := by
  induction l generalizing m with
  | nil => rfl
  | cons j rest ih =>
    simp only [List.foldl_cons]
    rw [ih _ (fun x hx => hk x (List.mem_cons_of_mem _ hx))]
    exact registerKey_other m (fp j) requestID k (Ne.symm (hk j (List.mem_cons_self _ _)))

theorem registerAll_keeps (fp : Nat → String) (requestID : String) (l : List Nat)
    (m : List (String × List String)) (x y : String) (h : y ∈ (mapGet m x).getD []) :
    y ∈ (mapGet (l.foldl (fun m i => registerKey m (fp i) requestID) m) x).getD [] := by
  induction l generalizing m with
  | nil => exact h
  | cons j rest ih =>
    simp only [List.foldl_cons]
    exact ih _ (registerKey_keeps m (fp j) requestID x y h)

theorem registerAll_mem (fp : Nat → String) (requestID : String) (l : List Nat)
    (m : List (String × List String)) (j : Nat) (hj : j ∈ l) :
    requestID ∈ (mapGet (l.foldl (fun m i => registerKey m (fp i) requestID) m) (fp j)).getD [] := by
  induction l generalizing m with
  | nil => cases hj
  | cons i rest ih =>
    simp only [List.foldl_cons]
    rcases List.mem_cons.1 hj with h | h
    · subst h
      exact registerAll_keeps fp requestID rest _ _ _ (registerKey_same m (fp j) requestID)
    · exact ih _ h

theorem wait_ok_price (now : Int) (lower : String → String) (redisGet : String → Reply)
    (chainIds addresses symbols networks : List String) (resultMap : List (Nat × Option String))
    (hlen : chainIds.length = addresses.length) (out : List PriceResult)
    (h : WaitForBatchResults now lower redisGet chainIds addresses symbols networks resultMap
      = .ok out) (i : Nat) (hi : i < chainIds.length) (a : Option String)
    (ha : mapGet resultMap i = some a) :
    ∃ r, out.get? i = some r ∧ r.Price = a := by
  unfold WaitForBatchResults at h
  have hlt : ¬ chainIds.length < addresses.length := by omega
  have hia : i < addresses.length := by omega
  simp only [hlt, if_false] at h
  split at h
  · cases h
  · simp only [Outcome.ok.injEq] at h
    rw [← h]
    simp [List.getElem?_map, List.getElem?_range, hi, hia, ha]

/-- C11 as stated fails for `GetPrice`: with `price_result:1_0xab` holding the tombstone
`"-1"`, a `GetPrice` call with `useCache = excludeRoute = true` is not answered by the
pre-check; it registers its request id and pushes the record of its fingerprint. -/
theorem getPrice_enqueues_on_tombstone :
    tombstoneCache "price_result:1_0xab" = Reply.val "-1" ∧
    GetPrice sampleEnv plainKey tombstoneCache "request-1" Caller.init "1" "0xAB" "ETH" "ethereum"
      true true
    = ({ books :=
          { keysRequestIDMap := [("1_0xab_ETH_ethereum", ["request-1"])]
            requestIDChannelMap := ["request-1"]
            requestIDKeysMap := [("request-1", ["1_0xab_ETH_ethereum"])] }
         shared :=
          { unique_price_requests := ["1_0xab_ETH_ethereum"]
            price_requests_queue := ["1_0xab_ETH_ethereum|1|0xab|ETH|ethereum"] } },
        Entered.waiting) := by
  decide

/-- C11 amended: with `isCache = excludeRoute = true`, inputs of one length and a cache that
answers every `GET`, `GetBatchPrice` answers an item whose `price_result` value is `"-1"` with a
nil price and an item with any other value with that value, both when it returns at once and
when it is woken by `"ok"`; every record, set member and bookkeeping entry it adds that carries
a fingerprint belongs to an item whose key is absent, and the fingerprint of every such item is
in the set and registered afterwards. `GetPrice` returns the cached value at once only when it
is neither `"-1"` nor empty; on `"-1"`, as on an absent key, it registers its request id and
runs the enqueue script for its fingerprint. -/
theorem precheck_answers_or_enqueues (env : Env) (generateHashKey : List String → String)
    (redisGet : String → Reply) (requestID : String) (st : Caller)
    (chainIds addresses symbols networks : List String) (chainId address symbol network : String)
    (hlen : chainIds.length = addresses.length)
    (hread : ∀ key e, redisGet key ≠ Reply.err e) :
    (∀ results tr i v,
      (GetBatchPrice env generateHashKey redisGet requestID st chainIds addresses symbols networks
        true true).2 = Entered.returned (.ok (results, tr)) →
      i < chainIds.length → redisGet (batchResultKey env chainIds addresses i) = Reply.val v →
      ∃ r, results.get? i = some r ∧ r.Price = if v = "-1" then none else some v) ∧
    (∀ redisGet2 st2 st3 results tr i v,
      GetBatchPriceResume env redisGet2 requestID st2 chainIds addresses symbols networks true true
        (preCheckAll env generateHashKey redisGet requestID st.books.keysRequestIDMap chainIds
          addresses symbols networks).resultMap (Wake.flag "ok") = (st3, .ok (results, tr)) →
      i < chainIds.length → redisGet (batchResultKey env chainIds addresses i) = Reply.val v →
      ∃ r, results.get? i = some r ∧ r.Price = if v = "-1" then none else some v) ∧
    (∀ r ∈ (GetBatchPrice env generateHashKey redisGet requestID st chainIds addresses symbols
        networks true true).1.shared.price_requests_queue,
      r ∈ st.shared.price_requests_queue ∨ r = "" ∨
      ∃ j, j < chainIds.length ∧ redisGet (batchResultKey env chainIds addresses j) = Reply.nil ∧
        r = batchInfo env generateHashKey chainIds addresses symbols networks j) ∧
    (∀ k ∈ (GetBatchPrice env generateHashKey redisGet requestID st chainIds addresses symbols
        networks true true).1.shared.unique_price_requests,
      k ∈ st.shared.unique_price_requests ∨ k = "" ∨
      ∃ j, j < chainIds.length ∧ redisGet (batchResultKey env chainIds addresses j) = Reply.nil ∧
        k = batchKey env generateHashKey chainIds addresses symbols networks j) ∧
    (∀ k,
      mapGet (GetBatchPrice env generateHashKey redisGet requestID st chainIds addresses symbols
        networks true true).1.books.keysRequestIDMap k ≠ mapGet st.books.keysRequestIDMap k →
      ∃ j, j < chainIds.length ∧ redisGet (batchResultKey env chainIds addresses j) = Reply.nil ∧
        k = batchKey env generateHashKey chainIds addresses symbols networks j) ∧
    (∀ j, j < chainIds.length → redisGet (batchResultKey env chainIds addresses j) = Reply.nil →
      batchKey env generateHashKey chainIds addresses symbols networks j ∈
        (GetBatchPrice env generateHashKey redisGet requestID st chainIds addresses symbols
          networks true true).1.shared.unique_price_requests ∧
      requestID ∈ (mapGet (GetBatchPrice env generateHashKey redisGet requestID st chainIds
        addresses symbols networks true true).1.books.keysRequestIDMap
          (batchKey env generateHashKey chainIds addresses symbols networks j)).getD []) ∧
    (∀ v, redisGet ("price_result:" ++ joinUnderscore [chainId, env.lower (env.lower address)])
        = Reply.val v → v ≠ "-1" → v ≠ "" →
      GetPrice env generateHashKey redisGet requestID st chainId address symbol network true true
        = (st, Entered.returned (.ok (some v, [])))) ∧
    (redisGet ("price_result:" ++ joinUnderscore [chainId, env.lower (env.lower address)])
        = Reply.val "-1" ∨
      redisGet ("price_result:" ++ joinUnderscore [chainId, env.lower (env.lower address)])
        = Reply.nil →
      (GetPrice env generateHashKey redisGet requestID st chainId address symbol network true
        true).2 = Entered.waiting ∧
      (GetPrice env generateHashKey redisGet requestID st chainId address symbol network true
        true).1.shared
        = (EnqueueUniqueRequest st.shared
            (generateHashKey [chainId, env.lower (env.lower address),
              safeDereferenceString (some symbol) "", network])
            (generateHashKey [chainId, env.lower (env.lower address),
              safeDereferenceString (some symbol) "", network] ++ "|" ++ chainId ++ "|"
              ++ env.lower address ++ "|" ++ safeDereferenceString (some symbol) "" ++ "|"
              ++ network)).1 ∧
      requestID ∈ (mapGet (GetPrice env generateHashKey redisGet requestID st chainId address
        symbol network true true).1.books.keysRequestIDMap
          (generateHashKey [chainId, env.lower (env.lower address),
            safeDereferenceString (some symbol) "", network])).getD []) := by
  obtain ⟨hshared, hbooks, hret⟩ := getBatchPrice_coalesced env generateHashKey redisGet requestID
    st chainIds addresses symbols networks hlen hread
  have hnil : ∀ j, (∀ v, redisGet (batchResultKey env chainIds addresses j) ≠ Reply.val v) →
      redisGet (batchResultKey env chainIds addresses j) = Reply.nil := by
    intro j hj
    cases hr : redisGet (batchResultKey env chainIds addresses j) with
    | val v => exact absurd hr (hj v)
    | nil => rfl
    | err e => exact absurd hr (hread _ e)
  have hpairs := preCheckAll_pairs env generateHashKey redisGet requestID
    st.books.keysRequestIDMap chainIds addresses symbols networks
  refine ⟨?_, ?_, ?_, ?_, ?_, ?_, ?_, ?_⟩
  · intro results tr i v h hi hv
    have hw := hret results tr h
    refine wait_ok_price _ _ _ _ _ _ _ _ hlen results hw i hi _ ?_
    rw [preCheckAll_resultMap _ _ _ _ _ _ _ _ _ i hi, hv]
  · intro redisGet2 st2 st3 results tr i v h hi hv
    unfold GetBatchPriceResume at h
    simp only [if_true, Bool.true_eq_false, false_and, if_false] at h
    split at h
    · simp at h
    · simp at h
    · rename_i out hw
      simp only [Prod.mk.injEq, Outcome.ok.injEq] at h
      refine wait_ok_price _ _ _ _ _ _ _ _ hlen results (by rw [hw, h.2.1]) i hi _ ?_
      rw [preCheckAll_resultMap _ _ _ _ _ _ _ _ _ i hi, hv]
  · intro r hr
    rw [hshared] at hr
    rcases enqueueLoop_queue_mem _ _ _ _ hr with h | ⟨p, hp, hpr⟩
    · exact Or.inl h
    · rw [hpairs] at hp
      obtain ⟨j, hj, hjp⟩ := List.mem_map.1 hp
      by_cases hv : preCheck (redisGet (batchResultKey env chainIds addresses j))
          = PreChecked.enqueue
      · rw [if_pos hv] at hjp
        refine Or.inr (Or.inr ⟨j, List.mem_range.1 hj, hnil j ((preCheck_enqueue_iff _).1 hv), ?_⟩)
        rw [← hpr, ← hjp]
      · rw [if_neg hv] at hjp
        refine Or.inr (Or.inl ?_)
        rw [← hpr, ← hjp]
  · intro k hk
    rw [hshared] at hk
    rcases enqueueLoop_set_mem _ _ _ _ hk with h | ⟨p, hp, hpr⟩
    · exact Or.inl h
    · rw [hpairs] at hp
      obtain ⟨j, hj, hjp⟩ := List.mem_map.1 hp
      by_cases hv : preCheck (redisGet (batchResultKey env chainIds addresses j))
          = PreChecked.enqueue
      · rw [if_pos hv] at hjp
        refine Or.inr (Or.inr ⟨j, List.mem_range.1 hj, hnil j ((preCheck_enqueue_iff _).1 hv), ?_⟩)
        rw [← hpr, ← hjp]
      · rw [if_neg hv] at hjp
        refine Or.inr (Or.inl ?_)
        rw [← hpr, ← hjp]
  · intro k hk
    rw [hbooks] at hk
    by_contra hno
    apply hk
    unfold preCheckAll
    simp only
    apply registerAll_other
    intro j hj hjk
    have hj2 := List.mem_filter.1 hj
    have hv : preCheck (redisGet (batchResultKey env chainIds addresses j))
        = PreChecked.enqueue := by simpa using hj2.2
    exact hno ⟨j, List.mem_range.1 hj2.1, hnil j ((preCheck_enqueue_iff _).1 hv), hjk.symm⟩
  · intro j hj hjv
    have hv : preCheck (redisGet (batchResultKey env chainIds addresses j))
        = PreChecked.enqueue := by rw [hjv]; rfl
    constructor
    · rw [hshared]
      have hmem : (batchKey env generateHashKey chainIds addresses symbols networks j,
          batchInfo env generateHashKey chainIds addresses symbols networks j) ∈
          List.zip
            (preCheckAll env generateHashKey redisGet requestID st.books.keysRequestIDMap chainIds
              addresses symbols networks).requestKeys
            (preCheckAll env generateHashKey redisGet requestID st.books.keysRequestIDMap chainIds
              addresses symbols networks).requestInfos := by
        rw [hpairs]
        refine List.mem_map.2 ⟨j, List.mem_range.2 hj, ?_⟩
        rw [if_pos hv]
      exact enqueueLoop_adds _ _ _ _ hmem
    · rw [hbooks]
      unfold preCheckAll
      simp only
      apply registerAll_mem
      exact List.mem_filter.2 ⟨List.mem_range.2 hj, by simpa using hv⟩
  · intro v hv h1 h2
    unfold GetPrice WaitForResult
    simp [hv, h1, h2, nonEmpty]
  · intro hv
    have hpre : ¬ ((WaitForResult redisGet [chainId, env.lower (env.lower address)]).2 = true ∧
        nonEmpty (WaitForResult redisGet [chainId, env.lower (env.lower address)]).1 = true) := by
      unfold WaitForResult
      rcases hv with hv | hv <;> simp [hv, nonEmpty]
    unfold GetPrice
    simp only [Bool.not_true, Bool.false_eq_true, if_false, hpre]
    exact ⟨trivial, trivial, registerKey_same _ _ _⟩

/-- Witness for the amended C11: a batch of two tokens, the first with the tombstone `"-1"`
cached and the second without a `price_result` key, and a single request for the first, which
is left waiting. -/
theorem precheck_answers_or_enqueues_witness :
    (["1", "1"] : List String).length = (["0xAB", "0xCD"] : List String).length ∧
    (∀ key e, tombstoneCache key ≠ Reply.err e) ∧
    (GetPrice sampleEnv plainKey tombstoneCache "request-1" Caller.init "1" "0xAB" "ETH"
      "ethereum" true true).2 = Entered.waiting :=
  ⟨rfl, fun key e => by unfold tombstoneCache; split <;> simp,
    ((precheck_answers_or_enqueues sampleEnv plainKey tombstoneCache "request-1"
      Caller.init ["1", "1"] ["0xAB", "0xCD"] ["ETH", "USDC"] ["ethereum", "ethereum"] "1" "0xAB"
      "ETH" "ethereum" rfl (fun key e => by unfold tombstoneCache; split <;> simp)).2.2.2.2.2.2.2
      (Or.inl (by decide))).1⟩

/-! ## C12: which calls bypass coalescing -/

/-- C12 as stated fails for `GetPrice`: with `useCache = true` and `excludeRoute = false` the
call does not go to the resolver; on a cache miss it registers its request id and pushes the
record of its fingerprint, then waits. -/
theorem getPrice_coalesces_without_excludeRoute :
    GetPrice sampleEnv plainKey coldCache "request-1" Caller.init "1" "0xAB" "ETH" "ethereum"
      true false
    = ({ books :=
          { keysRequestIDMap := [("1_0xab_ETH_ethereum", ["request-1"])]
            requestIDChannelMap := ["request-1"]
            requestIDKeysMap := [("request-1", ["1_0xab_ETH_ethereum"])] }
         shared :=
          { unique_price_requests := ["1_0xab_ETH_ethereum"]
            price_requests_queue := ["1_0xab_ETH_ethereum|1|0xab|ETH|ethereum"] } },
        Entered.waiting) := by
  decide

/-- C12 amended: `GetBatchPrice` with `isCache = false` or `excludeRoute = false`, and
`GetPrice` with `useCache = false`, leave the bookkeeping and the shared queue untouched and
return what the direct `FetchAndProcessBatchPrices` call with the same arguments returns (for
`GetPrice` its error, or the price of its first result). -/
theorem bypass_is_direct_call (env : Env) (generateHashKey : List String → String)
    (redisGet : String → Reply) (requestID : String) (st : Caller)
    (chainIds addresses symbols networks : List String) (chainId address symbol network : String)
    (isCache excludeRoute : Bool) (h : isCache = false ∨ excludeRoute = false) :
    GetBatchPrice env generateHashKey redisGet requestID st chainIds addresses symbols networks
        isCache excludeRoute
      = (st, Entered.returned
          (FetchAndProcessBatchPrices env chainIds addresses symbols networks isCache
            excludeRoute)) ∧
    GetPrice env generateHashKey redisGet requestID st chainId address symbol network false
        excludeRoute
      = (st, Entered.returned (firstPrice
          (FetchAndProcessBatchPrices env [chainId] [address]
            [safeDereferenceString (some symbol) ""] [network] false excludeRoute))) := by
  constructor
  · unfold GetBatchPrice
    rcases h with h | h <;> simp [h]
  · unfold GetPrice
    simp

/-- Witness for the amended C12: a batch call with `isCache = true`, `excludeRoute = false`. -/
theorem bypass_is_direct_call_witness :
    ((true = false ∨ false = false) ∧
      GetBatchPrice sampleEnv plainKey coldCache "request-1" Caller.init ["1"] ["0xAB"] ["ETH"]
          ["ethereum"] true false
        = (Caller.init, Entered.returned
            (FetchAndProcessBatchPrices sampleEnv ["1"] ["0xAB"] ["ETH"] ["ethereum"] true
              false))) :=
  ⟨Or.inr rfl, (bypass_is_direct_call sampleEnv plainKey coldCache "request-1" Caller.init ["1"]
    ["0xAB"] ["ETH"] ["ethereum"] "1" "0xAB" "ETH" "ethereum" true false (Or.inr rfl)).1⟩


/-! ## C13: the pinned source `coinGeckoOnChain` -/

/-- C13, the code at the failing input: the coin record of `1_0xc` has
`priceSource = "coinGeckoOnChain"`, which is neither prohibited nor throttled, and every adapter
fails. The first adapter called with the id is `coingecko`, then `defillama` and
`geckoterminal`; `coinGeckoOnChain` is only called fourth, as the general fallback. -/
theorem pinned_onchain_source_called_last :
    coinOnChain.PriceSource = some "coinGeckoOnChain" ∧
    isProhibited onChainEnv.prohibitedSourcesCurrent "coinGeckoOnChain" = false ∧
    onChainEnv.throttled "1_0xc" = false ∧
    summary (FetchAndProcessBatchPrices onChainEnv ["1"] ["0xC"] ["TKN"] ["ethereum"] true true)
      = ([none], [("coingecko", ["0xc"]), ("defillama", ["0xc"]), ("geckoterminal", ["0xc"]),
          ("coinGeckoOnChain", ["0xc"])]) := by
  decide

/-! ## C14: prohibited sources and the single historical price -/

/-- C14, the code at the failing input: `coingecko` is in the prohibited-historical set, no coin
record exists and no adapter has a price. `GetHistoricalPrice` calls `coingecko` all the same,
as the first of its three unconditional fallbacks. -/
theorem prohibited_source_called_by_fallback :
    isProhibited noGeckoEnv.prohibitedSourcesHistorical "coingecko" = true ∧
    calledAdapters (GetHistoricalPrice noGeckoEnv emptySources "1" "0xAB" "ETH" "ethereum"
      1793404800) = ["coingecko", "defillama", "geckoterminal"] := by
  decide

/-! ## C15: the CoinGecko adapter and `isCache = false` -/

/-- C15, the code at the failing input: `price:current:1_0xab` holds `"1"` and CoinGecko
answers `2` for the coin. With `isCache = false` the adapter does request the price upstream,
but the price it returns is the cached `"1"`. -/
theorem coingecko_answers_from_cache_without_isCache :
    staleCache.get geckoEnv.now "price:current:1_0xab" = some "1" ∧
    geckoSummary (coinGeckoGetBatchPrice geckoEnv staleCache ["0xab"] ["1"] ["WETH"] ["ethereum"]
      false) = ([some "1"], ["weth"]) := by
  decide


/-! ## C16: which pairs `GetHistoricalPrices` asks the relational store for -/

theorem append_sep_inj {α : Type} (x : α) (l1 r1 l2 r2 : List α) (h1 : x ∉ r1) (h2 : x ∉ r2)
    (h : l1 ++ x :: r1 = l2 ++ x :: r2) : l1 = l2 ∧ r1 = r2 := by
  rcases List.append_eq_append_iff.1 h with ⟨a, ha, hb⟩ | ⟨a, ha, hb⟩
  · cases a with
    | nil =>
      simp only [List.append_nil, List.nil_append, List.cons.injEq, true_and] at ha hb
      exact ⟨ha.symm, hb⟩
    | cons y a =>
      simp only [List.cons_append, List.cons.injEq] at hb
      exact absurd (by rw [hb.2]; simp) h1
  · cases a with
    | nil =>
      simp only [List.append_nil, List.nil_append, List.cons.injEq, true_and] at ha hb
      exact ⟨ha, hb.symm⟩
    | cons y a =>
      simp only [List.cons_append, List.cons.injEq] at hb
      exact absurd (by rw [hb.2]; simp) h2

theorem dayKey_inj (c1 d1 c2 d2 : String) (h1 : '_' ∉ d1.data) (h2 : '_' ∉ d2.data)
    (h : c1 ++ "_" ++ d1 = c2 ++ "_" ++ d2) : c1 = c2 ∧ d1 = d2 := by
  have hd := congrArg String.data h
  simp only [String.data_append, List.append_assoc] at hd
  simp only [List.singleton_append] at hd
  obtain ⟨ha, hb⟩ := append_sep_inj '_' _ _ _ _ h1 h2 hd
  exact ⟨String.ext ha, String.ext hb⟩

theorem mapGet_mapSet_isSome {β : Type} (m : List (String × β)) (k k1 : String) (v : β) :
    (mapGet (mapSet m k v) k1).isSome = true ↔ k1 = k ∨ (mapGet m k1).isSome = true := by
  rw [mapGet_mapSet]
  by_cases h : k = k1
  · simp [h]
  · have h' : ¬ k1 = k := fun e => h e.symm
    simp [h, h']

theorem readPass_priceMap (today : String) (s : Store) (now : Nat)
    (pairs : List (String × String)) (pm : List (String × String))
    (miss : List (String × List String)) (k : String) :
    (mapGet (readPass today s now pairs pm miss).1 k).isSome = true ↔
      (mapGet pm k).isSome = true ∨
      ∃ q ∈ pairs, k = q.1 ++ "_" ++ q.2 ∧
        ∃ p, GetHistoricalPriceCache s now q.1 q.2 = some p ∧ p ≠ "" := by
  induction pairs generalizing pm miss with
  | nil => simp [readPass]
  | cons q rest ih =>
    obtain ⟨c, d⟩ := q
    unfold readPass
    cases hg : GetHistoricalPriceCache s now c d with
    | none =>
      simp only
      split <;>
      · rw [ih]
        simp [hg]
    | some p =>
      simp only
      by_cases hp : p = ""
      · simp only [hp, ne_eq, not_true_eq_false, if_false]
        split <;>
        · rw [ih]
          simp [hg, hp]
      · simp only [hp, ne_eq, not_false_eq_true, if_true]
        rw [ih, mapGet_mapSet_isSome]
        simp only [List.mem_cons, exists_eq_or_imp, hg, Option.some.injEq, exists_eq_left', hp,
          not_false_eq_true, and_true]
        tauto

theorem readPass_missing (today : String) (s : Store) (now : Nat)
    (pairs : List (String × String)) (pm : List (String × String))
    (miss : List (String × List String)) (c d : String)
    (h : d ∈ (mapGet (readPass today s now pairs pm miss).2 c).getD []) :
    d ∈ (mapGet miss c).getD [] ∨
      ((c, d) ∈ pairs ∧ d ≠ today ∧
        ¬ ∃ p, GetHistoricalPriceCache s now c d = some p ∧ p ≠ "") := by
  induction pairs generalizing pm miss with
  | nil => exact Or.inl h
  | cons q rest ih =>
    obtain ⟨c1, d1⟩ := q
    unfold readPass at h
    have hstep : ∀ (pm1 : List (String × String)),
        (¬ ∃ p, GetHistoricalPriceCache s now c1 d1 = some p ∧ p ≠ "") → d1 ≠ today →
        d ∈ (mapGet (readPass today s now rest pm1
          (mapSet miss c1 ((mapGet miss c1).getD [] ++ [d1]))).2 c).getD [] →
        d ∈ (mapGet miss c).getD [] ∨
          ((c, d) ∈ (c1, d1) :: rest ∧ d ≠ today ∧
            ¬ ∃ p, GetHistoricalPriceCache s now c d = some p ∧ p ≠ "") := by
      intro pm1 hnc hd1 h1
      rcases ih _ _ h1 with h2 | ⟨h2, h3, h4⟩
      · rw [mapGet_mapSet] at h2
        by_cases hc : c1 = c
        · subst hc
          simp only [if_true, Option.getD_some, List.mem_append, List.mem_singleton] at h2
          rcases h2 with h2 | h2
          · exact Or.inl h2
          · subst h2
            exact Or.inr ⟨List.mem_cons_self _ _, hd1, hnc⟩
        · simp only [hc, if_false] at h2
          exact Or.inl h2
      · exact Or.inr ⟨List.mem_cons_of_mem _ h2, h3, h4⟩
    have hskip : ∀ (pm1 : List (String × String)),
        d ∈ (mapGet (readPass today s now rest pm1 miss).2 c).getD [] →
        d ∈ (mapGet miss c).getD [] ∨
          ((c, d) ∈ (c1, d1) :: rest ∧ d ≠ today ∧
            ¬ ∃ p, GetHistoricalPriceCache s now c d = some p ∧ p ≠ "") := by
      intro pm1 h1
      rcases ih _ _ h1 with h2 | ⟨h2, h3, h4⟩
      · exact Or.inl h2
      · exact Or.inr ⟨List.mem_cons_of_mem _ h2, h3, h4⟩
    cases hg : GetHistoricalPriceCache s now c1 d1 with
    | none =>
      rw [hg] at h
      simp only at h
      split at h
      · rename_i hd1
        exact hstep _ (by simp [hg]) hd1 h
      · exact hskip _ h
    | some p =>
      rw [hg] at h
      simp only at h
      by_cases hp : p = ""
      · simp only [hp, ne_eq, not_true_eq_false, if_false] at h
        split at h
        · rename_i hd1
          exact hstep _ (by simp [hg, hp]) hd1 h
        · exact hskip _ h
      · simp only [hp, ne_eq, not_false_eq_true, if_true] at h
        exact hskip _ h

theorem absorbRows_queries (env : HistEnv) (rows : List CoinHistoricalPrice) (rs : ReadState) :
    (absorbRows env rows rs).queries = rs.queries := by
  induction rows generalizing rs with
  | nil => rfl
  | cons p rest ih => simp [absorbRows, ih]

theorem absorbRows_priceMap (env : HistEnv) (rows : List CoinHistoricalPrice) (rs : ReadState)
    (k : String) :
    (mapGet (absorbRows env rows rs).priceMap k).isSome = true ↔
      (mapGet rs.priceMap k).isSome = true ∨ ∃ p ∈ rows, k = p.CoinID ++ "_" ++ p.DayDate := by
  induction rows generalizing rs with
  | nil => simp [absorbRows]
  | cons p rest ih =>
    simp only [absorbRows]
    rw [ih]
    simp only [mapGet_mapSet_isSome, List.mem_cons, exists_eq_or_imp]
    tauto

theorem queryDays_queries (env : HistEnv) (c : String) (days : List String) (rs : ReadState)
    (q : String × String) (h : q ∈ (queryDays env c days rs).queries) :
    q ∈ rs.queries ∨ (q.1 = c ∧ q.2 ∈ days) := by
  induction days generalizing rs with
  | nil => exact Or.inl h
  | cons d rest ih =>
    unfold queryDays at h
    simp only at h
    have hcase : ∀ rs1 : ReadState, rs1.queries = rs.queries ++ [(c, d)] →
        q ∈ (queryDays env c rest rs1).queries →
        q ∈ rs.queries ∨ (q.1 = c ∧ q.2 ∈ d :: rest) := by
      intro rs1 hrs1 h1
      rcases ih rs1 h1 with h2 | ⟨h2, h3⟩
      · rw [hrs1] at h2
        simp only [List.mem_append, List.mem_singleton] at h2
        rcases h2 with h2 | h2
        · exact Or.inl h2
        · subst h2
          exact Or.inr ⟨rfl, List.mem_cons_self _ _⟩
      · exact Or.inr ⟨h2, List.mem_cons_of_mem _ h3⟩
    split at h
    · exact hcase _ rfl h
    · exact hcase _ (by rw [absorbRows_queries]) h

theorem queryDays_priceMap (env : HistEnv) (c : String) (days : List String) (rs : ReadState)
    (k : String) :
    (mapGet (queryDays env c days rs).priceMap k).isSome = true ↔
      (mapGet rs.priceMap k).isSome = true ∨
      ∃ d ∈ days, ∃ rows, env.dbFind c d = .ok rows ∧
        ∃ p ∈ rows, k = p.CoinID ++ "_" ++ p.DayDate := by
  induction days generalizing rs with
  | nil => simp [queryDays]
  | cons d rest ih =>
    unfold queryDays
    simp only
    cases hf : env.dbFind c d with
    | error e =>
      simp only
      rw [ih]
      simp [hf]
    | ok rows =>
      simp only
      rw [ih, absorbRows_priceMap]
      constructor
      · rintro ((h1 | ⟨p, hp, hk⟩) | ⟨d1, hd1, rows1, hr1, hp1⟩)
        · exact Or.inl h1
        · exact Or.inr ⟨d, List.mem_cons_self _ _, rows, hf, p, hp, hk⟩
        · exact Or.inr ⟨d1, List.mem_cons_of_mem _ hd1, rows1, hr1, hp1⟩
      · rintro (h1 | ⟨d1, hd1, rows1, hr1, hp1⟩)
        · exact Or.inl (Or.inl h1)
        · rcases List.mem_cons.1 hd1 with e | hd2
          · subst e
            rw [hf] at hr1
            cases hr1
            exact Or.inl (Or.inr hp1)
          · exact Or.inr ⟨d1, hd2, rows1, hr1, hp1⟩

theorem queryMissing_queries (env : HistEnv) (miss : List (String × List String))
    (l : List String) (rs : ReadState) (q : String × String)
    (h : q ∈ (queryMissing env miss l rs).queries) :
    q ∈ rs.queries ∨ q.2 ∈ (mapGet miss q.1).getD [] := by
  induction l generalizing rs with
  | nil => exact Or.inl h
  | cons c rest ih =>
    unfold queryMissing at h
    rcases ih _ h with h1 | h1
    · rcases queryDays_queries env c _ rs q h1 with h2 | ⟨h2, h3⟩
      · exact Or.inl h2
      · rw [h2]
        exact Or.inr h3
    · exact Or.inr h1

theorem queryMissing_priceMap (env : HistEnv) (miss : List (String × List String))
    (l : List String) (rs : ReadState) (k : String) :
    ((mapGet rs.priceMap k).isSome = true →
      (mapGet (queryMissing env miss l rs).priceMap k).isSome = true) ∧
    ((mapGet (queryMissing env miss l rs).priceMap k).isSome = true →
      (mapGet rs.priceMap k).isSome = true ∨
      ∃ c d, d ∈ (mapGet miss c).getD [] ∧ ∃ rows, env.dbFind c d = .ok rows ∧
        ∃ p ∈ rows, k = p.CoinID ++ "_" ++ p.DayDate) := by
  induction l generalizing rs with
  | nil => exact ⟨fun h => h, fun h => Or.inl h⟩
  | cons c rest ih =>
    unfold queryMissing
    obtain ⟨ih1, ih2⟩ := ih (queryDays env c ((mapGet miss c).getD []) rs)
    constructor
    · intro h
      exact ih1 ((queryDays_priceMap env c _ rs k).2 (Or.inl h))
    · intro h
      rcases ih2 h with h1 | h1
      · rcases (queryDays_priceMap env c _ rs k).1 h1 with h2 | ⟨d, hd, rows, hr, hp⟩
        · exact Or.inl h2
        · exact Or.inr ⟨c, d, hd, rows, hr, hp⟩
      · exact Or.inr h1

/-- C16: `GetHistoricalPrices` queries the relational store for a pair (coin id, day) only if
the pair was asked for, the cache held no non-empty value for it and the day is not today. For
a requested pair whose day is today no query is made, and (with day strings free of `_`, as
`02-01-2006` renders them, and a relational store whose rows match the query) the returned
map holds the pair exactly when the cache held a non-empty value for it. -/
theorem historical_queries_skip_cache_hits_and_today (env : HistEnv) (s : Store)
    (coinIDs : List String) (dates : List Int) (rs : ReadState)
    (hday : ∀ t, '_' ∉ (env.dayOf t).data)
    (hdb : ∀ c d rows, env.dbFind c d = .ok rows → ∀ p ∈ rows, p.CoinID = c ∧ p.DayDate = d)
    (h : GetHistoricalPrices env s coinIDs dates = .ok rs) :
    (∀ q ∈ rs.queries,
      q ∈ List.zip coinIDs (dates.map env.dayOf) ∧ q.2 ≠ env.today ∧
      ¬ ∃ p, GetHistoricalPriceCache s env.now q.1 q.2 = some p ∧ p ≠ "") ∧
    (∀ c, (c, env.today) ∈ List.zip coinIDs (dates.map env.dayOf) →
      (c, env.today) ∉ rs.queries ∧
      ((mapGet rs.priceMap (c ++ "_" ++ env.today)).isSome = true ↔
        ∃ p, GetHistoricalPriceCache s env.now c env.today = some p ∧ p ≠ "")) := by
  unfold GetHistoricalPrices at h
  split at h
  · cases h
  simp only [Outcome.ok.injEq] at h
  have hq : ∀ q ∈ rs.queries,
      q ∈ List.zip coinIDs (dates.map env.dayOf) ∧ q.2 ≠ env.today ∧
      ¬ ∃ p, GetHistoricalPriceCache s env.now q.1 q.2 = some p ∧ p ≠ "" := by
    intro q hq
    rw [← h] at hq
    rcases queryMissing_queries env _ _ _ q hq with h1 | h1
    · cases h1
    · rcases readPass_missing _ _ _ _ _ _ _ _ h1 with h2 | h2
      · simp [mapGet] at h2
      · exact h2
  have hdayOf : ∀ c d, (c, d) ∈ List.zip coinIDs (dates.map env.dayOf) → '_' ∉ d.data := by
    intro c d hcd
    obtain ⟨t, _, ht⟩ := List.mem_map.1 (List.of_mem_zip hcd).2
    rw [← ht]
    exact hday t
  refine ⟨hq, ?_⟩
  intro c hc
  refine ⟨fun hin => (hq _ hin).2.1 rfl, ?_⟩
  rw [← h]
  obtain ⟨hmono, hnew⟩ := queryMissing_priceMap env
    (readPass env.today s env.now (List.zip coinIDs (dates.map env.dayOf)) [] []).2
    (env.order 0 ((readPass env.today s env.now (List.zip coinIDs (dates.map env.dayOf)) []
      []).2.map fun kv => kv.1))
    { priceMap := (readPass env.today s env.now (List.zip coinIDs (dates.map env.dayOf)) []
        []).1, strings := s, queries := [] } (c ++ "_" ++ env.today)
  constructor
  · intro hsome
    rcases hnew hsome with h1 | ⟨c1, d1, hd1, rows, hrows, p, hp, hk⟩
    · rcases (readPass_priceMap _ _ _ _ _ _ _).1 h1 with h2 | ⟨q, hqm, hk, hcached⟩
      · simp [mapGet] at h2
      · obtain ⟨e1, e2⟩ := dayKey_inj _ _ _ _ (hdayOf c _ hc) (hdayOf q.1 q.2 hqm) hk
        rw [e1, e2]
        exact hcached
    · exfalso
      rcases readPass_missing _ _ _ _ _ _ _ _ hd1 with h2 | ⟨h2, h3, _⟩
      · simp [mapGet] at h2
      · obtain ⟨e1, e2⟩ := hdb c1 d1 rows hrows p hp
        rw [e1, e2] at hk
        exact h3 (dayKey_inj _ _ _ _ (hdayOf c _ hc) (hdayOf c1 d1 h2) hk).2.symm
  · intro hcached
    apply hmono
    exact (readPass_priceMap _ _ _ _ _ _ _).2 (Or.inr ⟨(c, env.today), hc, rfl, hcached⟩)

/-- Witness for C16: `1_0xab` asked for 30-10-2026 and for today, 01-11-2026, on an empty
cache; timestamps before 1793491200 fall on 30-10-2026, later ones on 01-11-2026. -/
theorem historical_queries_skip_cache_hits_and_today_witness :
    (∀ t : Int, '_' ∉ ((if t < 1793491200 then "30-10-2026" else "01-11-2026" : String)).data) ∧
    (∃ rs, GetHistoricalPrices
        { sampleHistEnv with
          dayOf := fun t => if t < 1793491200 then "30-10-2026" else "01-11-2026" }
        Store.empty ["1_0xab", "1_0xab"] [1793318400, 1793491200] = .ok rs ∧
      ∀ q ∈ rs.queries, q.2 ≠ "01-11-2026") :=
  ⟨fun t => by split <;> decide,
    ⟨_, rfl, fun q hq =>
      ((historical_queries_skip_cache_hits_and_today
        { sampleHistEnv with
          dayOf := fun t => if t < 1793491200 then "30-10-2026" else "01-11-2026" }
        Store.empty ["1_0xab", "1_0xab"] [1793318400, 1793491200] _
        (fun t => by simp only; split <;> decide)
        (fun c d rows hrows p hp => by
          simp only [sampleHistEnv, Except.ok.injEq] at hrows
          subst hrows
          cases hp)
        rfl).1 q hq).2.1⟩⟩


/-! ## C17 and C18: the coin upsert queue -/

theorem decodeQueue_ok (queue : List Cached) (m : List (String × Coins))
    (h : ∀ item ∈ queue, item.decodes = true) :
    decodeQueue queue m = .ok (queue.foldl (fun m item => mapSet m item.coin.ID item.coin) m) := by
  induction queue generalizing m with
  | nil => rfl
  | cons item rest ih =>
    unfold decodeQueue
    rw [if_pos (h item (List.mem_cons_self _ _))]
    exact ih _ (fun x hx => h x (List.mem_cons_of_mem _ hx))

theorem mapSet_keys_nodup {β : Type} (m : List (String × β)) (k : String) (v : β)
    (h : (m.map fun kv => kv.1).Nodup) : ((mapSet m k v).map fun kv => kv.1).Nodup := by
  unfold mapSet
  simp only [List.map_cons, List.nodup_cons, List.mem_map, List.mem_filter, decide_eq_true_eq,
    not_exists, not_and]
  constructor
  · intro x hx
    exact fun e => hx.2 e
  · exact (List.Nodup.sublist (List.Sublist.map _ (List.filter_sublist _)) h)

theorem mapGet_of_mem_nodup {β : Type} (m : List (String × β)) (k : String) (v : β)
    (hnd : (m.map fun kv => kv.1).Nodup) (h : (k, v) ∈ m) : mapGet m k = some v := by
  induction m with
  | nil => cases h
  | cons kv rest ih =>
    obtain ⟨k0, v0⟩ := kv
    simp only [List.map_cons, List.nodup_cons, List.mem_map, not_exists, not_and] at hnd
    rcases List.mem_cons.1 h with e | h1
    · cases e
      simp [mapGet]
    · have hne : k0 ≠ k := fun e => hnd.1 (k, v) h1 e.symm
      simp only [mapGet, hne, if_false]
      exact ih hnd.2 h1

theorem mem_of_mapGet {β : Type} (m : List (String × β)) (k : String) (v : β)
    (h : mapGet m k = some v) : (k, v) ∈ m := by
  induction m with
  | nil => cases h
  | cons kv rest ih =>
    obtain ⟨k0, v0⟩ := kv
    unfold mapGet at h
    split at h
    · rename_i hk
      cases h
      rw [hk]
      exact List.mem_cons_self _ _
    · exact List.mem_cons_of_mem _ (ih h)

theorem foldMapSet_nodup (l : List Cached) (m : List (String × Coins))
    (h : (m.map fun kv => kv.1).Nodup) :
    ((l.foldl (fun m item => mapSet m item.coin.ID item.coin) m).map fun kv => kv.1).Nodup := by
  induction l generalizing m with
  | nil => exact h
  | cons item rest ih => exact ih _ (mapSet_keys_nodup m _ _ h)

theorem foldMapSet_get (l : List Cached) (m : List (String × Coins)) (k : String) (c : Coins)
    (h : mapGet (l.foldl (fun m item => mapSet m item.coin.ID item.coin) m) k = some c) :
    (c.ID = k ∧ IsLastWithId (l.map fun item => item.coin) c) ∨
      (mapGet m k = some c ∧ ∀ x ∈ l, x.coin.ID ≠ k) := by
  induction l generalizing m with
  | nil => exact Or.inr ⟨h, fun x hx => by cases hx⟩
  | cons item rest ih =>
    simp only [List.foldl_cons] at h
    rcases ih _ h with ⟨hid, before, after, hq, hlast⟩ | ⟨hm, hrest⟩
    · refine Or.inl ⟨hid, item.coin :: before, after, ?_, hlast⟩
      simp [hq]
    · rw [mapGet_mapSet] at hm
      by_cases hk : item.coin.ID = k
      · simp only [hk, if_true, Option.some.injEq] at hm
        subst hm
        refine Or.inl ⟨hk, [], rest.map fun item => item.coin, by simp, ?_⟩
        intro x hx
        obtain ⟨y, hy, hyx⟩ := List.mem_map.1 hx
        rw [← hyx, hk]
        exact hrest y hy
      · simp only [hk, if_false] at hm
        refine Or.inr ⟨hm, ?_⟩
        intro x hx
        rcases List.mem_cons.1 hx with e | hx1
        · rw [e]; exact hk
        · exact hrest x hx1

theorem foldMapSet_covers (l : List Cached) (m : List (String × Coins)) (k : String)
    (h : (mapGet m k).isSome = true ∨ ∃ x ∈ l, x.coin.ID = k) :
    (mapGet (l.foldl (fun m item => mapSet m item.coin.ID item.coin) m) k).isSome = true := by
  induction l generalizing m with
  | nil =>
    rcases h with h | ⟨x, hx, _⟩
    · exact h
    · cases hx
  | cons item rest ih =>
    simp only [List.foldl_cons]
    apply ih
    rcases h with h | ⟨x, hx, hxk⟩
    · exact Or.inl ((mapGet_mapSet_isSome m _ k _).2 (Or.inr h))
    · rcases List.mem_cons.1 hx with e | hx1
      · subst e
        exact Or.inl ((mapGet_mapSet_isSome m _ k _).2 (Or.inl hxk.symm))
      · exact Or.inr ⟨x, hx1, hxk⟩

theorem retryUpsert_log (upsertCoins : Nat → List Coins → Option String) (coins : List Coins)
    (attempt left : Nat) :
    (∀ batch ∈ (retryUpsert upsertCoins coins attempt left).1, batch = coins) ∧
    (0 < left → (retryUpsert upsertCoins coins attempt left).1 ≠ []) := by
  induction left generalizing attempt with
  | zero => simp [retryUpsert]
  | succ left ih =>
    unfold retryUpsert
    cases upsertCoins attempt coins with
    | none => simp
    | some e =>
      simp only
      split
      · refine ⟨?_, fun _ => by simp⟩
        intro batch hb
        rcases List.mem_cons.1 hb with h | h
        · exact h
        · exact (ih (attempt + 1)).1 batch h
      · simp

theorem filterMap_ids (m : List (String × Coins)) (l : List String)
    (h : ∀ k ∈ l, ∃ c, mapGet m k = some c ∧ c.ID = k) :
    ((l.filterMap fun k => mapGet m k).map fun c => c.ID) = l := by
  induction l with
  | nil => rfl
  | cons k rest ih =>
    obtain ⟨c, hc, hid⟩ := h k (List.mem_cons_self _ _)
    simp only [List.filterMap_cons, hc, List.map_cons, hid]
    rw [ih (fun x hx => h x (List.mem_cons_of_mem _ hx))]

/-- C17: when `coins:queue` is not empty and its records decode, every `UpsertCoins` call of
the drain (there is at least one) gets exactly one record per distinct id of the queue, namely
the record enqueued last for that id, whatever the order in which the map of ids is visited;
after the drain the queue is empty. -/
theorem drain_upserts_last_record_per_id (env : CoinQueueEnv) (st : CoinQueueState)
    (horder : ∀ keys, (env.order keys).Perm keys)
    (hdec : ∀ item ∈ st.queue, item.decodes = true) (hne : st.queue ≠ []) :
    (coinRepository.processQueueWithTransaction env st).2.1 ≠ [] ∧
    (∀ batch ∈ (coinRepository.processQueueWithTransaction env st).2.1,
      (batch.map fun c => c.ID).Nodup ∧
      (∀ c ∈ batch, IsLastWithId (st.queue.map fun item => item.coin) c) ∧
      (∀ item ∈ st.queue, ∃ c ∈ batch, c.ID = item.coin.ID)) ∧
    (coinRepository.processQueueWithTransaction env st).1.queue = [] := by
  have hlen : ¬ st.queue.length = 0 := fun h => hne (List.length_eq_zero.1 h)
  have hcoin : ∀ k c,
      mapGet (st.queue.foldl (fun m item => mapSet m item.coin.ID item.coin) []) k = some c →
      c.ID = k ∧ IsLastWithId (st.queue.map fun item => item.coin) c := by
    intro k c hk
    rcases foldMapSet_get st.queue [] k c hk with h | ⟨h, _⟩
    · exact h
    · simp [mapGet] at h
  have hnd := foldMapSet_nodup st.queue [] (by simp)
  have hkeys : ∀ k ∈ env.order
      ((st.queue.foldl (fun m item => mapSet m item.coin.ID item.coin) []).map fun kv => kv.1),
      ∃ c, mapGet (st.queue.foldl (fun m item => mapSet m item.coin.ID item.coin) []) k = some c
        ∧ c.ID = k := by
    intro k hk
    have hk1 := (horder _).mem_iff.1 hk
    obtain ⟨kv, hkv, hkk⟩ := List.mem_map.1 hk1
    obtain ⟨k0, v0⟩ := kv
    simp only at hkk
    subst hkk
    have hg := mapGet_of_mem_nodup _ k0 v0 hnd hkv
    exact ⟨v0, hg, (hcoin k0 v0 hg).1⟩
  unfold coinRepository.processQueueWithTransaction
  rw [if_neg hlen, decodeQueue_ok st.queue [] hdec]
  simp only
  refine ⟨(retryUpsert_log _ _ 1 3).2 (by decide), ?_, rfl⟩
  intro batch hb
  rw [(retryUpsert_log _ _ 1 3).1 batch hb]
  refine ⟨?_, ?_, ?_⟩
  · rw [filterMap_ids _ _ hkeys]
    exact (horder _).nodup_iff.2 hnd
  · intro c hc
    obtain ⟨k, _, hk⟩ := List.mem_filterMap.1 hc
    exact (hcoin k c hk).2
  · intro item hitem
    have hsome := foldMapSet_covers st.queue [] item.coin.ID (Or.inr ⟨item, hitem, rfl⟩)
    obtain ⟨c, hc⟩ := Option.isSome_iff_exists.1 hsome
    refine ⟨c, List.mem_filterMap.2 ⟨item.coin.ID, ?_, hc⟩, (hcoin _ c hc).1⟩
    apply (horder _).mem_iff.2
    exact List.mem_map.2 ⟨(item.coin.ID, c), mem_of_mapGet _ _ _ hc, rfl⟩

/-- Witness for C17: three records of coin `1_0xb` with different symbols, drained in
`sampleQueueEnv`; the upsert gets the record enqueued last. -/
theorem drain_upserts_last_record_per_id_witness :
    (∀ keys, (sampleQueueEnv.order keys).Perm keys) ∧
    (coinRepository.processQueueWithTransaction sampleQueueEnv
      { CoinQueueState.empty with
        queue := [{ coin := { coinB with Symbol := some "B1" }, decodes := true },
                  { coin := { coinB with Symbol := some "B2" }, decodes := true },
                  { coin := { coinB with Symbol := some "B3" }, decodes := true }] }).2.1
      = [[{ coinB with Symbol := some "B3" }]] ∧
    (coinRepository.processQueueWithTransaction sampleQueueEnv
      { CoinQueueState.empty with
        queue := [{ coin := { coinB with Symbol := some "B1" }, decodes := true },
                  { coin := { coinB with Symbol := some "B2" }, decodes := true },
                  { coin := { coinB with Symbol := some "B3" }, decodes := true }] }).1.queue
      = [] :=
  ⟨fun _ => List.Perm.refl _, by decide,
    (drain_upserts_last_record_per_id sampleQueueEnv
      { CoinQueueState.empty with
        queue := [{ coin := { coinB with Symbol := some "B1" }, decodes := true },
                  { coin := { coinB with Symbol := some "B2" }, decodes := true },
                  { coin := { coinB with Symbol := some "B3" }, decodes := true }] }
      (fun _ => List.Perm.refl _) (by decide) (by decide)).2.2⟩

/-- C18, the code at the failing input: `AddToQueue` called twice with the same coin, nothing
drained in between. The membership test is read off a `SISMEMBER` that is still waiting on the
pipeline, so it is always false: the second call pushes the coin again and `coins:queue` holds
two records for the id, while the companion set `coins:set1_0xb` holds the id once. -/
theorem addToQueue_twice_pushes_twice :
    ((coinRepository.AddToQueue sampleQueueEnv
        (coinRepository.AddToQueue sampleQueueEnv CoinQueueState.empty [coinB]).1
        [coinB]).1.queue.map fun item => item.coin.ID) = ["1_0xb", "1_0xb"] ∧
    (coinRepository.AddToQueue sampleQueueEnv
        (coinRepository.AddToQueue sampleQueueEnv CoinQueueState.empty [coinB]).1
        [coinB]).1.sets "coins:set1_0xb" = ["1_0xb"] := by
  decide


/-! ## C20: the rate limiter within one window -/

theorem digitChar_digit : ∀ d, d < 10 →
    ('0' ≤ Nat.digitChar d ∧ Nat.digitChar d ≤ '9') ∧
      (Nat.digitChar d).toNat - '0'.toNat = d ∧ (1 ≤ d → '1' ≤ Nat.digitChar d) := by
  decide

theorem digitsValue_append (ds1 ds2 : List Char) (a : Nat) :
    digitsValue (ds1 ++ ds2) a = (digitsValue ds1 a).bind fun b => digitsValue ds2 b := by
  induction ds1 generalizing a with
  | nil => rfl
  | cons c cs ih =>
    simp only [List.cons_append, digitsValue]
    split
    · exact ih _
    · rfl

theorem toDigitsCore_acc (fuel n : Nat) (ds : List Char) :
    Nat.toDigitsCore 10 fuel n ds = Nat.toDigitsCore 10 fuel n [] ++ ds := by
  induction fuel generalizing n ds with
  | zero => rfl
  | succ fuel ih =>
    simp only [Nat.toDigitsCore]
    split
    · rfl
    · rw [ih (n / 10) (Nat.digitChar (n % 10) :: ds), ih (n / 10) [Nat.digitChar (n % 10)]]
      simp

theorem digitsValue_toDigitsCore (fuel n : Nat) (h : n < fuel) :
    digitsValue (Nat.toDigitsCore 10 fuel n []) 0 = some n := by
  induction fuel generalizing n with
  | zero => omega
  | succ fuel ih =>
    have hd := digitChar_digit (n % 10) (Nat.mod_lt _ (by decide))
    simp only [Nat.toDigitsCore]
    split
    · rename_i h0
      have hn : n % 10 = n := by omega
      simp only [digitsValue, hd.1, and_self, if_true, hd.2.1]
      simp [hn]
    · rename_i h0
      rw [toDigitsCore_acc, digitsValue_append, ih (n / 10) (by omega)]
      simp only [Option.some_bind, digitsValue, hd.1, and_self, if_true, hd.2.1]
      congr 1
      omega

theorem toDigitsCore_head (fuel n : Nat) (h : n < fuel) (hn : 1 ≤ n) :
    ∃ c cs, Nat.toDigitsCore 10 fuel n [] = c :: cs ∧ '1' ≤ c ∧ c ≤ '9' := by
  induction fuel generalizing n with
  | zero => omega
  | succ fuel ih =>
    have hd := digitChar_digit (n % 10) (Nat.mod_lt _ (by decide))
    simp only [Nat.toDigitsCore]
    split
    · rename_i h0
      exact ⟨_, [], rfl, hd.2.2 (by omega), hd.1.2⟩
    · rename_i h0
      obtain ⟨c, cs, hc, h1, h9⟩ := ih (n / 10) (by omega) (by omega)
      rw [toDigitsCore_acc, hc]
      exact ⟨c, cs ++ [Nat.digitChar (n % 10)], rfl, h1, h9⟩

/-- `INCR` reads back the positive integers it writes. -/
theorem parseInt_toString (n : Nat) (hn : 1 ≤ n) : parseInt (toString (n : Int)) = some (n : Int) := by
  have hstr : toString (n : Int) = String.mk (Nat.toDigits 10 n) := rfl
  obtain ⟨c, cs, hc, h1, h9⟩ := toDigitsCore_head (n + 1) n (by omega) hn
  have hv := digitsValue_toDigitsCore (n + 1) n (by omega)
  rw [hstr]
  unfold parseInt Nat.toDigits
  simp only [hc] at hv ⊢
  have hc0 : c ≠ '-' := by
    intro e
    rw [e] at h1
    exact absurd h1 (by decide)
  split
  · rename_i heq
    cases heq
  · rename_i heq
    simp only [List.cons.injEq] at heq
    rw [heq.1] at h1
    exact absurd h1 (by decide)
  · rename_i heq
    simp only [List.cons.injEq] at heq
    exact absurd heq.1 hc0
  · rename_i c1 cs1 _ _ _ heq
    simp only [List.cons.injEq] at heq
    rw [← heq.1, ← heq.2]
    simp [h1, h9, hv]

theorem allow_step (repo : String → Except String AppToken) (d : Int) (s : Store) (now : Nat)
    (token : String) (t : AppToken) (r c : Nat) (htoken : token ≠ "")
    (hknown : repo token = .ok t) (hrate : t.Rate = r) (hr : 1 ≤ r) (hbig : r < 2 ^ 53)
    (hc : c ≤ r) (hcount : RateCounterAt s now token c) :
    (RateLimiterService.Allow repo d s now token).2 = .ok (decide (c < r)) ∧
    RateCounterAt (RateLimiterService.Allow repo d s now token).1 now token
      (if c < r then c + 1 else c) := by
  unfold RateLimiterService.Allow
  simp only [htoken, if_false, hknown, hrate]
  unfold RateCounterAt at hcount
  by_cases hc0 : c = 0
  · subst hc0
    simp only [if_true] at hcount
    have hlt : 0 < r := by omega
    have hget : s.get now ("rate_limit:" ++ token) = none := by
      simp [Store.get, hcount]
    unfold rateLimitScript
    simp only [hget, Store.incr, hcount]
    simp only [hlt, decide_True, if_true]
    refine ⟨by simp, ?_⟩
    unfold RateCounterAt
    simp only [Nat.zero_add, one_ne_zero, if_false]
    refine ⟨{ val := "1", expireAt := some (now + 1) }, ?_, rfl⟩
    simp [Store.expire, Store.live]
  · simp only [hc0, if_false] at hcount
    obtain ⟨e, he, hval⟩ := hcount
    have hget : s.get now ("rate_limit:" ++ token) = some (toString (c : Int)) := by
      simp [Store.get, he, hval]
    have hparse := parseInt_toString c (by omega)
    unfold rateLimitScript
    simp only [hget, hparse]
    by_cases hcr : c < r
    · have hnot : ¬ ((c : Int) ≥ (r : Int)) := by omega
      have hpow : (2 : Int) ^ 63 = 9223372036854775808 := by norm_num
      have hpow2 : (2 : Nat) ^ 53 = 9007199254740992 := by norm_num
      have hover : ¬ ((c : Int) < -(2 ^ 63) ∨ (c : Int) + 1 > 2 ^ 63 - 1) := by
        rw [hpow]
        omega
      simp only [hnot, if_false, Store.incr, he, hval, hparse, hover, hcr, decide_True, if_true]
      refine ⟨by simp, ?_⟩
      unfold RateCounterAt
      simp only [Nat.succ_ne_zero, if_false]
      refine ⟨{ val := toString ((c : Int) + 1), expireAt := some (now + 1) }, ?_, ?_⟩
      · have hl : Store.live (fun k => if k = "rate_limit:" ++ token then
            some { val := toString ((c : Int) + 1), expireAt := e.expireAt } else s k) now
            ("rate_limit:" ++ token)
            = some { val := toString ((c : Int) + 1), expireAt := e.expireAt } := by
          unfold Store.live at he ⊢
          simp only [if_true]
          cases hs : s ("rate_limit:" ++ token) with
          | none => simp [hs] at he
          | some e0 =>
            simp only [hs] at he
            cases hx : e0.expireAt with
            | none =>
              simp only [hx, Option.some.injEq] at he
              rw [← he, hx]
            | some tx =>
              simp only [hx] at he
              split at he
              · simp only [Option.some.injEq] at he
                rw [← he, hx]
                simp only
                rename_i hlive
                simp [hlive]
              · cases he
        unfold Store.expire
        simp only [hl]
        simp [Store.live]
      · simp only
        congr 1
    · have hge : (c : Int) ≥ (r : Int) := by omega
      simp only [hge, if_true, hcr, decide_False, if_false]
      refine ⟨by simp, ?_⟩
      unfold RateCounterAt
      simp only [hc0, if_false]
      exact ⟨e, he, hval⟩

theorem allowCalls_counter (repo : String → Except String AppToken) (d : Int) (s : Store)
    (now : Nat) (token : String) (t : AppToken) (r : Nat) (htoken : token ≠ "")
    (hknown : repo token = .ok t) (hrate : t.Rate = r) (hr : 1 ≤ r) (hbig : r < 2 ^ 53)
    (habsent : s.live now ("rate_limit:" ++ token) = none) (n : Nat) :
    RateCounterAt (allowCalls repo d now token n s) now token (min n r) := by
  induction n with
  | zero =>
    unfold RateCounterAt allowCalls
    simp [habsent]
  | succ n ih =>
    have hstep := (allow_step repo d (allowCalls repo d now token n s) now token t r (min n r)
      htoken hknown hrate hr hbig (Nat.min_le_right _ _) ih).2
    have hmin : (if min n r < r then min n r + 1 else min n r) = min (n + 1) r := by
      split <;> omega
    rw [hmin] at hstep
    exact hstep

/-- C20: for a known, non-empty API token whose rate is the whole number `r` with
`1 ≤ r < 2 ^ 53`, starting from an absent key `rate_limit:{token}` and with all calls inside
one window of the key (at one instant), the call that follows `n` earlier calls to
`RateLimiterService.Allow` returns true exactly when `n < r`: the first `r` calls are allowed,
every later call is denied. -/
theorem allow_first_calls_up_to_rate (repo : String → Except String AppToken) (d : Int)
    (s : Store) (now : Nat) (token : String) (t : AppToken) (r : Nat) (htoken : token ≠ "")
    (hknown : repo token = .ok t) (hrate : t.Rate = r) (hr : 1 ≤ r) (hbig : r < 2 ^ 53)
    (habsent : s.live now ("rate_limit:" ++ token) = none) (n : Nat) :
    (RateLimiterService.Allow repo d (allowCalls repo d now token n s) now token).2
      = .ok (decide (n < r)) := by
  have hcount := allowCalls_counter repo d s now token t r htoken hknown hrate hr hbig habsent n
  have hstep := (allow_step repo d (allowCalls repo d now token n s) now token t r (min n r)
    htoken hknown hrate hr hbig (Nat.min_le_right _ _) hcount).1
  rw [hstep]
  congr 1
  by_cases h : n < r
  · have : min n r < r := by omega
    simp [h, this]
  · have : ¬ min n r < r := by omega
    simp [h, this]

/-- Witness for C20: the token `limited_token` with rate 1 on an empty cache; the first request
is allowed and the second is denied. -/
theorem allow_first_calls_up_to_rate_witness :
    ("limited_token" : String) ≠ "" ∧ (1 : Nat) < 2 ^ 53 ∧
    (RateLimiterService.Allow sampleTokens 1000
      (allowCalls sampleTokens 1000 1793491200 "limited_token" 0 Store.empty) 1793491200
      "limited_token").2 = .ok true ∧
    (RateLimiterService.Allow sampleTokens 1000
      (allowCalls sampleTokens 1000 1793491200 "limited_token" 1 Store.empty) 1793491200
      "limited_token").2 = .ok false :=
  ⟨by decide, by norm_num,
    allow_first_calls_up_to_rate sampleTokens 1000 Store.empty 1793491200 "limited_token"
      { Name := "", Token := "limited_token", Rate := 1 } 1 (by decide) rfl rfl (le_refl 1)
      (by norm_num) rfl 0,
    allow_first_calls_up_to_rate sampleTokens 1000 Store.empty 1793491200 "limited_token"
      { Name := "", Token := "limited_token", Rate := 1 } 1 (by decide) rfl rfl (le_refl 1)
      (by norm_num) rfl 1⟩


/-! ## C19: refreshing the coin cache twice -/

/-- C21 as stated fails: chain `128` is in `RefuseChainIdMap`, yet the third consecutive
non-429 failure of the coin `128_0xab` makes `CoinsThrottle` return true. -/
theorem refused_chain_third_failure_returns_true :
    (mapGet RefuseChainIdMap (chainOf "128_0xab")).isSome = true ∧
    (CoinsThrottle (fun _ => .ok true)
      (storeAfter (fun _ => .ok true) 100 "128_0xab" ["200", "200"] Store.empty)
      100 "128_0xab" "200").2 = true := by
  decide

/-- C21 amended: for a coin id on a refused chain, as for any other, `CoinsThrottle` returns
true exactly when the status is not `"429"`, the counter increment succeeds with a count of at
least 3 and the coin check answers; in every other case it returns false. -/
theorem coinsThrottle_on_refused_chain (checkCoinExists : String → Except String Bool)
    (s : Store) (now : Nat) (coinsId status : String)
    (_href : (mapGet RefuseChainIdMap (chainOf coinsId)).isSome = true) :
    (CoinsThrottle checkCoinExists s now coinsId status).2 = true ↔
      (status ≠ "429" ∧
        ∃ count, (s.incr now (throttleCountKey coinsId)).2 = some count ∧ 3 ≤ count ∧
          ∃ b, checkCoinExists coinsId = .ok b) := by
  unfold CoinsThrottle
  by_cases h429 : status = "429"
  · simp [h429]
  · simp only [h429, if_false, ne_eq, not_false_eq_true, true_and]
    cases hi : s.incr now (throttleCountKey coinsId) with
    | mk s1 r =>
      cases r with
      | none => simp
      | some count =>
        by_cases hc : count ≥ 3
        · cases hx : checkCoinExists coinsId with
          | error e => simp [hc]
          | ok b => simp [hc]
        · simp only [hc, if_false]
          constructor
          · intro h
            cases h
          · rintro ⟨c, hc2, hc3, _⟩
            simp only [Option.some.injEq] at hc2
            subst hc2
            exact absurd hc3 hc

/-- Witness for C21: the coin `128_0xab` on the refused chain `128`, third failure. -/
theorem coinsThrottle_on_refused_chain_witness :
    (CoinsThrottle (fun _ => .ok true)
      (storeAfter (fun _ => .ok true) 100 "128_0xab" ["200", "200"] Store.empty)
      100 "128_0xab" "200").2 = true ↔
      ("200" ≠ "429" ∧
        ∃ count, ((storeAfter (fun _ => .ok true) 100 "128_0xab" ["200", "200"]
            Store.empty).incr 100 (throttleCountKey "128_0xab")).2 = some count ∧ 3 ≤ count ∧
          ∃ b, (fun _ => (.ok true : Except String Bool)) "128_0xab" = .ok b) :=
  coinsThrottle_on_refused_chain (fun _ => .ok true)
    (storeAfter (fun _ => .ok true) 100 "128_0xab" ["200", "200"] Store.empty)
    100 "128_0xab" "200" (by decide)

/-- C22, the code at the failing input: with `REFUSE_CHAIN_IDS="56 137"` the function fills
a map of its own with both ids, the package variable `RefuseChainIdMap` still holds only
chain `128`, and `IsCoinsThrottled` does not refuse a coin on chain `56`. -/
theorem loadRefuseChainId_leaves_refuse_list :
    LoadRefuseChainId refuseEnv RefuseChainIdMap
      = (RefuseChainIdMap, some [("137", 1), ("56", 1)]) ∧
    IsCoinsThrottled (LoadRefuseChainId refuseEnv RefuseChainIdMap).1 Store.empty 100 "56_0xab"
      = false := by
  decide


/-! ## C23: notification of a waiting request -/

/-- C23, the code at the failing input: a batch that names the token `1_0xab` twice registers
its request id twice under the one fingerprint it waits for. The message for that fingerprint
then sends `"ok"` into the result channel twice, and the second send finds the buffer of the
channel full. -/
theorem duplicate_item_sends_ok_twice :
    duplicateBatch.2 = Entered.waiting ∧
    duplicateBatch.1.books.requestIDKeysMap = [("req-1", ["1_0xab__"])] ∧
    duplicateBatch.1.books.keysRequestIDMap = [("1_0xab__", ["req-1", "req-1"])] ∧
    (processMessage "price_result:1_0xab|1_0xab__"
      (Subscriber.start duplicateBatch.1.books)).sends
      = [("req-1", false), ("req-1", true)] := by
  decide

/-! ## C24 and C25: aliases and throttle status in the resolver -/

/-- C24, the code at the failing input: only the alias `1_0xa` of `1_0xb` is requested.
`defillama` is the first provider to price the target (at `"1"`), which is recorded under the
alias; the sets lose the key of the target, not the alias, so `geckoterminal` and
`coinGeckoOnChain` are still called on behalf of the alias, and the price returned for it is
the later `"2"` of `geckoterminal`. -/
theorem alias_not_removed_after_first_price :
    summary (FetchAndProcessBatchPrices aliasOnlyEnv ["1"] ["0xa"] [] [] true true)
      = ([some "2"],
         [("coingecko", ["0xb"]), ("defillama", ["0xb"]), ("geckoterminal", ["0xb"]),
          ("coinGeckoOnChain", ["0xb"])]) := by
  decide

/-- C25, the code at the failing input: the last provider result for `1_0xab` carries request
status `"429"` and no price, yet both resolvers hand status `"200"` to `CoinsThrottle`; and a
batch that names the id twice calls `CoinsThrottle` twice for it. -/
theorem throttle_status_429_is_lost :
    summary (FetchAndProcessBatchPrices rateLimitedEnv ["1"] ["0xab"] [] [] true true)
      = ([none], [("defillama", ["0xab"]), ("geckoterminal", ["0xab"]),
          ("coinGeckoOnChain", ["0xab"])]) ∧
    throttleCalls (FetchAndProcessBatchPrices rateLimitedEnv ["1"] ["0xab"] [] [] true true)
      = [("1_0xab", "200")] ∧
    throttleCalls (GetBatchHistoricalPrice rateLimitedEnv ["1"] ["0xab"] [] [] [1700000000]
        ["1700000000"])
      = [("1_0xab_1700000000", "200")] ∧
    throttleCalls (FetchAndProcessBatchPrices rateLimitedEnv ["1", "1"] ["0xab", "0xab"] [] []
        true true)
      = [("1_0xab", "200"), ("1_0xab", "200")] := by
  decide


/-! ## C26: columns assigned by the upsert -/

theorem mem_updateColumns (c0 : Coins) (rest : List Coins) (col : String) :
    col ∈ updateColumns (c0 :: rest) ↔ col ∈ coinColumns ∧ skipsColumn c0 col = false := by
  simp [updateColumns, List.mem_filter]

theorem assignColumns_updateColumns (now : Int) (c0 : Coins) (rest : List Coins)
    (stored incoming : Coins) :
    assignColumns now (updateColumns (c0 :: rest)) stored incoming
      = templateUpdate now c0 stored incoming := by
  have m_address : "address" ∈ coinColumns := by decide
  have s_address : skipsColumn c0 "address" = decide (c0.Address = "") := rfl
  have m_chain_id : "chain_id" ∈ coinColumns := by decide
  have s_chain_id : skipsColumn c0 "chain_id" = decide (c0.ChainID = "") := rfl
  have m_symbol : "symbol" ∈ coinColumns := by decide
  have s_symbol : skipsColumn c0 "symbol" = c0.Symbol.isNone := rfl
  have m_name : "name" ∈ coinColumns := by decide
  have s_name : skipsColumn c0 "name" = c0.Name.isNone := rfl
  have m_coingecko_coin_id : "coingecko_coin_id" ∈ coinColumns := by decide
  have s_coingecko_coin_id : skipsColumn c0 "coingecko_coin_id" = c0.CoingeckoCoinID.isNone := rfl
  have m_coingecko_platforms : "coingecko_platforms" ∈ coinColumns := by decide
  have s_coingecko_platforms : skipsColumn c0 "coingecko_platforms" = false := rfl
  have m_geckoterminal_network : "geckoterminal_network" ∈ coinColumns := by decide
  have s_geckoterminal_network : skipsColumn c0 "geckoterminal_network" = c0.GeckoterminalNetwork.isNone := rfl
  have m_extra : "extra" ∈ coinColumns := by decide
  have s_extra : skipsColumn c0 "extra" = c0.Extra.isNone := rfl
  have m_decimals : "decimals" ∈ coinColumns := by decide
  have s_decimals : skipsColumn c0 "decimals" = c0.Decimals.isNone := rfl
  have m_total_supply : "total_supply" ∈ coinColumns := by decide
  have s_total_supply : skipsColumn c0 "total_supply" = c0.TotalSupply.isNone := rfl
  have m_label : "label" ∈ coinColumns := by decide
  have s_label : skipsColumn c0 "label" = decide (c0.Label = "") := rfl
  have m_pool_name : "pool_name" ∈ coinColumns := by decide
  have s_pool_name : skipsColumn c0 "pool_name" = c0.PoolName.isNone := rfl
  have m_base_token_address : "base_token_address" ∈ coinColumns := by decide
  have s_base_token_address : skipsColumn c0 "base_token_address" = c0.BaseTokenAddress.isNone := rfl
  have m_quote_token_address : "quote_token_address" ∈ coinColumns := by decide
  have s_quote_token_address : skipsColumn c0 "quote_token_address" = c0.QuoteTokenAddress.isNone := rfl
  have m_pool_created_at : "pool_created_at" ∈ coinColumns := by decide
  have s_pool_created_at : skipsColumn c0 "pool_created_at" = c0.PoolCreatedAt.isNone := rfl
  have m_pool_attributes : "pool_attributes" ∈ coinColumns := by decide
  have s_pool_attributes : skipsColumn c0 "pool_attributes" = c0.PoolAttributes.isNone := rfl
  have m_last_price_source : "last_price_source" ∈ coinColumns := by decide
  have s_last_price_source : skipsColumn c0 "last_price_source" = c0.LastPriceSource.isNone := rfl
  have m_price_source : "price_source" ∈ coinColumns := by decide
  have s_price_source : skipsColumn c0 "price_source" = c0.PriceSource.isNone := rfl
  have m_return_coins_id : "return_coins_id" ∈ coinColumns := by decide
  have s_return_coins_id : skipsColumn c0 "return_coins_id" = c0.ReturnCoinsId.isNone := rfl
  have flip : ∀ {α : Type} (b : Bool) (x y : α),
      (if b = false then x else y) = (if b = true then y else x) := by
    intro α b x y
    cases b <;> rfl
  simp only [assignColumns, templateUpdate, mem_updateColumns,
    m_address, s_address, m_chain_id, s_chain_id, m_symbol, s_symbol, m_name, s_name, m_coingecko_coin_id, s_coingecko_coin_id, m_coingecko_platforms, s_coingecko_platforms, m_geckoterminal_network, s_geckoterminal_network, m_extra, s_extra, m_decimals, s_decimals, m_total_supply, s_total_supply, m_label, s_label, m_pool_name, s_pool_name, m_base_token_address, s_base_token_address, m_quote_token_address, s_quote_token_address, m_pool_created_at, s_pool_created_at, m_pool_attributes, s_pool_attributes, m_last_price_source, s_last_price_source, m_price_source, s_price_source, m_return_coins_id, s_return_coins_id,
    true_and, decide_eq_false_iff_not, Bool.not_eq_true, ite_not, flip, if_true]

theorem upsertRow_other (now : Int) (fresh : Base) (cols : List String) (table : List Coins)
    (coin x : Coins) (hx : RowIs table x) (hne : coin.ID ≠ x.ID) :
    RowIs (upsertRow now fresh cols table coin) x := by
  obtain ⟨hmem, huniq⟩ := hx
  unfold upsertRow
  split
  · refine ⟨List.mem_map.2 ⟨x, hmem, ?_⟩, ?_⟩
    · rw [if_neg (fun e => hne e.symm)]
    · intro r hr hid
      obtain ⟨r0, hr0, e⟩ := List.mem_map.1 hr
      by_cases h0 : r0.ID = coin.ID
      · rw [if_pos h0] at e
        subst e
        exact absurd (h0.symm.trans hid) hne
      · rw [if_neg h0] at e
        subst e
        exact huniq _ hr0 hid
  · refine ⟨List.mem_append_left _ hmem, ?_⟩
    intro r hr hid
    rcases List.mem_append.1 hr with h | h
    · exact huniq r h hid
    · rw [List.mem_singleton] at h
      subst h
      exact absurd hid hne

theorem upsertRow_same (now : Int) (fresh : Base) (cols : List String) (table : List Coins)
    (coin stored : Coins) (hx : RowIs table stored) (hid : coin.ID = stored.ID) :
    RowIs (upsertRow now fresh cols table coin) (assignColumns now cols stored coin) := by
  obtain ⟨hmem, huniq⟩ := hx
  unfold upsertRow
  have hany : table.any (fun r => decide (r.ID = coin.ID)) = true :=
    List.any_eq_true.2 ⟨stored, hmem, by simp [hid]⟩
  rw [if_pos hany]
  refine ⟨List.mem_map.2 ⟨stored, hmem, by rw [if_pos hid.symm]⟩, ?_⟩
  intro r hr hrid
  obtain ⟨r0, hr0, e⟩ := List.mem_map.1 hr
  by_cases h0 : r0.ID = coin.ID
  · rw [if_pos h0] at e
    subst e
    rw [huniq r0 hr0 (h0.trans hid)]
  · rw [if_neg h0] at e
    subst e
    exact absurd (hrid.trans hid.symm) h0

theorem foldl_upsertRow_other (now : Int) (fresh : Base) (cols : List String) (x : Coins) :
    ∀ (batch table : List Coins), RowIs table x → (∀ d ∈ batch, d.ID ≠ x.ID) →
    RowIs (batch.foldl (upsertRow now fresh cols) table) x := by
  intro batch
  induction batch with
  | nil => intro table h _; exact h
  | cons d rest ih =>
    intro table h hne
    simp only [List.foldl_cons]
    exact ih _ (upsertRow_other now fresh cols table d x h (hne d (List.mem_cons_self _ _)))
      (fun e he => hne e (List.mem_cons_of_mem _ he))

theorem foldl_upsertRow_same (now : Int) (fresh : Base) (cols : List String)
    (c stored : Coins) (hid : stored.ID = c.ID) :
    ∀ (batch table : List Coins), (batch.map fun c => c.ID).Nodup → c ∈ batch →
    RowIs table stored →
    RowIs (batch.foldl (upsertRow now fresh cols) table) (assignColumns now cols stored c) := by
  intro batch
  induction batch with
  | nil => intro table _ hc; exact absurd hc (List.not_mem_nil c)
  | cons d rest ih =>
    intro table hnd hc hrow
    rw [List.map_cons, List.nodup_cons] at hnd
    simp only [List.foldl_cons]
    by_cases hcr : c ∈ rest
    · have hdc : d.ID ≠ c.ID := fun e =>
        hnd.1 (by rw [e]; exact List.mem_map_of_mem (fun c => c.ID) hcr)
      exact ih _ hnd.2 hcr
        (upsertRow_other now fresh cols table d stored hrow (fun e => hdc (e.trans hid)))
    · have e : c = d := by
        rcases List.mem_cons.1 hc with e | h
        · exact e
        · exact absurd h hcr
      subst e
      apply foldl_upsertRow_other now fresh cols _ rest _
        (upsertRow_same now fresh cols table c stored hrow hid.symm)
      intro d hd e
      apply hnd.1
      have : (assignColumns now cols stored c).ID = stored.ID := rfl
      rw [this, hid] at e
      rw [← e]
      exact List.mem_map_of_mem (fun c => c.ID) hd

/-- A batch that holds a coin with a nil symbol or a nil name is rejected as a whole: the
columns `symbol` and `name` are `notNull`. -/
theorem upsert_rejects_null_symbol_or_name (db : CoinsTable) (table coins : List Coins)
    (c : Coins) (hc : c ∈ coins) (hnull : c.Symbol = none ∨ c.Name = none) :
    ∃ e, coinRepository.upsertCoins db table coins = .error e := by
  have hlen : ¬ coins.length = 0 := by
    intro h
    rw [List.length_eq_zero.1 h] at hc
    exact absurd hc (List.not_mem_nil c)
  have hrej : rowAccepted db c = false := by
    unfold rowAccepted
    rcases hnull with h | h <;> simp [h]
  have hall : ¬ coins.all (rowAccepted db) = true := by
    intro h
    have := List.all_eq_true.1 h c hc
    rw [hrej] at this
    cases this
  unfold coinRepository.upsertCoins
  rw [if_neg hlen, if_neg hall]
  exact ⟨_, rfl⟩

/-- C26 as stated fails: the batch holds `1_0xa` (with a CoinGecko id, without decimals) and
then `1_0xb` (without a CoinGecko id, with decimals), both with symbol and name as the table
demands. The update columns are those of the first coin, so the stored CoinGecko id `old-id`
of `1_0xb` is overwritten with the null of its incoming row, and its incoming decimals are not
assigned. -/
theorem upsert_overwrites_with_null_of_later_coin :
    rowAccepted sampleCoinsTable incomingA = true ∧
    rowAccepted sampleCoinsTable incomingB = true ∧
    storedB.CoingeckoCoinID = some "old-id" ∧ incomingB.CoingeckoCoinID = none ∧
    incomingB.Decimals = some 18 ∧
    (rowWithId (coinRepository.upsertCoins sampleCoinsTable [storedB]
      [incomingA, incomingB]) "1_0xb").map
        (fun r => (r.Symbol, r.CoingeckoCoinID, r.Decimals))
      = some (some "BBB", none, none) := by
  decide

/-- C26 amended: for a batch with distinct ids whose rows all pass the column definitions of
the table, and any coin `c` of it whose id is stored, the upsert succeeds and leaves exactly
one row with that id: the stored row in which every column that is a non-nil pointer or a
non-empty string in the FIRST coin of the batch, and `coingecko_platforms`, holds the value of
`c`, every other column keeps the stored value, `id` and `created_at` stay and `updated_at`
is `NOW()`. -/
theorem upsert_assigns_columns_of_first_coin (db : CoinsTable)
    (table rest : List Coins) (c0 c stored : Coins)
    (hacc : ∀ d ∈ c0 :: rest, rowAccepted db d = true)
    (hids : ((c0 :: rest).map fun c => c.ID).Nodup) (hc : c ∈ c0 :: rest)
    (hs : stored ∈ table) (hkey : ∀ r ∈ table, r.ID = stored.ID → r = stored)
    (hid : stored.ID = c.ID) :
    ∃ table1, coinRepository.upsertCoins db table (c0 :: rest) = .ok table1 ∧
      templateUpdate db.now c0 stored c ∈ table1 ∧
      ∀ r ∈ table1, r.ID = c.ID → r = templateUpdate db.now c0 stored c := by
  refine ⟨(c0 :: rest).foldl (upsertRow db.now db.fresh (updateColumns (c0 :: rest))) table,
    ?_, ?_⟩
  · have hall : (c0 :: rest).all (rowAccepted db) = true := List.all_eq_true.2 hacc
    have hlen : ¬ (c0 :: rest).length = 0 := by simp
    unfold coinRepository.upsertCoins
    rw [if_neg hlen, if_pos hall, if_pos hids]
  · have h := foldl_upsertRow_same db.now db.fresh (updateColumns (c0 :: rest)) c stored hid
      (c0 :: rest) table hids hc ⟨hs, hkey⟩
    rw [assignColumns_updateColumns] at h
    obtain ⟨h1, h2⟩ := h
    refine ⟨h1, fun r hr e => h2 r hr ?_⟩
    rw [e]
    exact hid.symm

/-- Witness for C26: the stored row `1_0xb` and the batch `1_0xa`, `1_0xb`. -/
theorem upsert_assigns_columns_of_first_coin_witness :
    ∃ table1, coinRepository.upsertCoins sampleCoinsTable [storedB]
        [incomingA, incomingB] = .ok table1 ∧
      templateUpdate sampleCoinsTable.now incomingA storedB incomingB ∈ table1 ∧
      ∀ r ∈ table1, r.ID = incomingB.ID →
        r = templateUpdate sampleCoinsTable.now incomingA storedB incomingB :=
  upsert_assigns_columns_of_first_coin sampleCoinsTable [storedB] [incomingB]
    incomingA incomingB storedB (by decide) (by decide) (by decide) (by decide) (by decide)
    (by decide)


/-! ## C27: deadlocks during a queue drain -/

/-- C27, the code of the historical-price store when the relational write fails with a
deadlock on each of the attempts 1, 2 and 3: the drain makes no fourth attempt (whatever a
fourth one would return), returns nil instead of an error, and has emptied the queue. -/
theorem historical_drain_returns_nil_after_three_deadlocks (henv : HistEnv) (hst : HistState)
    (hhq : hst.queue ≠ [])
    (hhd : ∀ n, 1 ≤ n → n ≤ 3 →
      henv.commit n hst.queue = some "ERROR: deadlock detected (SQLSTATE 40P01)") :
    (processQueueWithTransaction henv hst).2 = none ∧
    (processQueueWithTransaction henv hst).1.queue = [] := by
  have hhl : ¬ hst.queue.length = 0 := fun h => hhq (List.length_eq_zero.1 h)
  unfold processQueueWithTransaction
  rw [if_neg hhl]
  simp [retryCommit, hhd 1 (by decide) (by decide), hhd 2 (by decide) (by decide),
    hhd 3 (by decide) (by decide)]

/-- Witness for C27: one historical price queued, the first three write attempts deadlock. -/
theorem historical_drain_returns_nil_after_three_deadlocks_witness :
    (processQueueWithTransaction deadlockHistEnv
        { HistState.empty with queue := [samplePrice "1.5"] }).2 = none ∧
    (processQueueWithTransaction deadlockHistEnv
        { HistState.empty with queue := [samplePrice "1.5"] }).1.queue = [] :=
  historical_drain_returns_nil_after_three_deadlocks deadlockHistEnv
    { HistState.empty with queue := [samplePrice "1.5"] }
    (by decide) (fun n _ h3 => by simp [deadlockHistEnv, h3])


/-! ## C28: the shared error counter -/

/-- C28, the code on every upstream reply, in particular a response with status 500: none of
the current-price adapters hands anything to `HandleErrorWithThrottling`, because `DoRequest`
returns an error with every status other than 200 and the adapters return on that error
before they look at the status. -/
theorem error_counter_never_invoked (up : Upstream) :
    (coinGeckoRequest up).1 = [] ∧ (geckoTerminalRequest up).1 = [] ∧
    (defiLlamaRequest up).1 = [] ∧ (defiLlamaBatchRequest up).1 = [] ∧
    (coinGeckoRequest (.response 500 "")).1 = [] := by
  have key : ∀ u : Upstream, (coinGeckoRequest u).1 = [] ∧ (geckoTerminalRequest u).1 = [] ∧
      (defiLlamaRequest u).1 = [] ∧ (defiLlamaBatchRequest u).1 = [] := by
    intro u
    cases u with
    | failed e => exact ⟨rfl, rfl, rfl, rfl⟩
    | unreadable c e => exact ⟨rfl, rfl, rfl, rfl⟩
    | response c body =>
      by_cases h : c = 200
      · subst h
        exact ⟨rfl, rfl, rfl, rfl⟩
      · simp [coinGeckoRequest, geckoTerminalRequest, defiLlamaRequest, defiLlamaBatchRequest,
          DoRequest, h]
  exact ⟨(key up).1, (key up).2.1, (key up).2.2.1, (key up).2.2.2, (key _).1⟩


/-! ## C29: the GET branch of the batch-historical endpoint -/

theorem readRequest_get (env : ControllerEnv) (addresses networks symbols chainIds dates :
    List String) (p : HistoricalArgs)
    (h : readRequest env (.get addresses networks symbols chainIds dates) = .ok p) :
    p.addresses = addresses ∧ p.datesStr = [] := by
  unfold readRequest at h
  simp only at h
  cases hd : parseDates env dates with
  | error e =>
    rw [hd] at h
    cases h
  | ok parsed =>
    rw [hd] at h
    simp only [Except.ok.injEq] at h
    subst h
    exact ⟨rfl, rfl⟩

theorem completeArgs_keeps (env : ControllerEnv) (p args : HistoricalArgs)
    (h : completeArgs env p = .ok args) :
    args.addresses = p.addresses ∧ args.datesStr = p.datesStr := by
  unfold completeArgs at h
  simp only at h
  split at h
  · cases h
  · split at h
    · cases h
    · split at h
      · cases h
      · simp only [Except.ok.injEq] at h
        subst h
        exact ⟨rfl, rfl⟩

/-- C29, the code on every GET request that the controller accepts with at least one
address: the resolver is called with the addresses of the request and with a nil `datesStr`,
and on such arguments `GetBatchHistoricalPrice` never returns results (it ends in the index
panic of `datesStr[i]`, or earlier in the error of the coin store). -/
theorem get_request_passes_nil_datesStr (cenv : ControllerEnv) (env : Env)
    (addresses networks symbols chainIds dates : List String) (args : HistoricalArgs)
    (hn : addresses ≠ [])
    (h : batchHistoricalArgs cenv (.get addresses networks symbols chainIds dates) = .ok args) :
    args.addresses = addresses ∧ args.datesStr = [] ∧
    ∀ out, GetBatchHistoricalPrice env args.chainIds args.addresses args.symbols args.networks
      args.dates args.datesStr ≠ .ok out := by
  unfold batchHistoricalArgs at h
  cases hr : readRequest cenv (.get addresses networks symbols chainIds dates) with
  | error e =>
    rw [hr] at h
    cases h
  | ok p =>
    rw [hr] at h
    simp only at h
    obtain ⟨ha, hd⟩ := readRequest_get cenv _ _ _ _ _ p hr
    obtain ⟨ha2, hd2⟩ := completeArgs_keeps cenv p args h
    have hA : args.addresses = addresses := ha2.trans ha
    have hD : args.datesStr = [] := hd2.trans hd
    refine ⟨hA, hD, ?_⟩
    intro out hout
    have hlen : args.datesStr.length < args.addresses.length := by
      rw [hD, hA]
      exact List.length_pos.2 hn
    unfold GetBatchHistoricalPrice at hout
    simp only at hout
    split at hout
    · cases hout
    · split at hout
      · cases hout
      · split at hout
        · cases hout
        · split at hout
          · cases hout
          · cases hout

/-- Witness for C29: `GET ?addresses=0xab&networks=ethereum&dates=1700000000`. -/
theorem get_request_passes_nil_datesStr_witness :
    ({ chainIds := ["1"], addresses := ["0xab"], symbols := [], networks := ["ethereum"],
       dates := [1700000000], datesStr := [] } : HistoricalArgs).addresses = ["0xab"] ∧
    ({ chainIds := ["1"], addresses := ["0xab"], symbols := [], networks := ["ethereum"],
       dates := [1700000000], datesStr := [] } : HistoricalArgs).datesStr = [] ∧
    ∀ out, GetBatchHistoricalPrice sampleEnv ["1"] ["0xab"] [] ["ethereum"] [1700000000] []
      ≠ .ok out :=
  get_request_passes_nil_datesStr sampleControllerEnv sampleEnv ["0xab"] ["ethereum"] [] []
    ["1700000000"]
    { chainIds := ["1"], addresses := ["0xab"], symbols := [], networks := ["ethereum"],
      dates := [1700000000], datesStr := [] }
    (by decide) rfl


/-! ## C30: the DefiLlama batch adapter -/

/-- C30, the code at the failing input: alone, the token `0xab` on chain `1` gets its one
result with the price `"1.5"`; together with a token on chain `999`, which DefiLlama does not
list, the call returns no results at all (and no error), so the price of `0xab` is lost; and
next to a token of chain `1` that the upstream does not price, the second result is the zero
value, with an empty chain id and address. -/
theorem unknown_chain_drops_all_results :
    llamaSummary (defiLlamaGetBatchCurrentPrices sampleLlamaEnv Store.empty ["0xab"] ["1"]
        [] [] true)
      = some [("1", "0xab", some "1.5")] ∧
    llamaSummary (defiLlamaGetBatchCurrentPrices sampleLlamaEnv Store.empty ["0xab", "0xcd"]
        ["1", "999"] [] [] true)
      = some [] ∧
    llamaSummary (defiLlamaGetBatchCurrentPrices sampleLlamaEnv Store.empty ["0xab", "0xcd"]
        ["1", "1"] [] [] true)
      = some [("1", "0xab", some "1.5"), ("", "", none)] := by
  decide

end TokenPriceProxy
